import Mathlib

/-!
# ZeroTier One: TcpSocket framing and Peer path handling

A shallow embedding of `node/TcpSocket.cpp` and `node/Peer.cpp`.

* Buffers are lists of octets whose length is the size of the memory block.
  Every access goes through a bounds-checked primitive; the result `none`
  stands for an access outside the block (undefined behaviour in C++).
* Outcomes of system calls (`::send`, `::recv`, `::malloc`) and of the external
  collaborators are inputs of the embedded functions; the calls made to the
  collaborators are part of the result.
* `unsigned int` values are natural numbers.  The one subtraction that can
  go below zero, `_outptr -= (unsigned int)n`, wraps by `2^32` explicitly.
-/

namespace ZeroTier

/-! ## Memory primitives -/

/-- One octet (`unsigned char`). -/
abbrev Byte := Fin 256

/-- Conversion `(unsigned char)x` of an unsigned value. -/
def toByte (x : Nat) : Byte := ⟨x % 256, Nat.mod_lt x (by decide)⟩

/-- Assignment `m[i] = b`; `none` when `i` is outside the block. -/
def store (m : List Byte) (i : Nat) (b : Byte) : Option (List Byte) :=
  if i < m.length then some (m.set i b) else none

/-- Read of `m[i]`; `none` when `i` is outside the block. -/
def load (m : List Byte) (i : Nat) : Option Byte := m[i]?

/-- Call `memmove(m, m + src, len)`; `none` when the source range leaves the block. -/
def memmove (m : List Byte) (src len : Nat) : Option (List Byte) :=
  if src + len ≤ m.length then some ((m.drop src).take len ++ m.drop len) else none

/-- Copy of the `len` octets at `m + off`; `none` when the range leaves the block. -/
def slice (m : List Byte) (off len : Nat) : Option (List Byte) :=
  if off + len ≤ m.length then some ((m.drop off).take len) else none

/-- Successive assignments `m[ptr++] = b` for the octets of a list. -/
def storeAll : List Byte → Nat → List Byte → Option (List Byte × Nat)
  | m, ptr, [] => some (m, ptr)
  | m, ptr, b :: bs =>
    match store m ptr b with
    | none => none
    | some m1 => storeAll m1 (ptr + 1) bs

/-! ## Constants and state of a TcpSocket -/

/-- Compile-time constants that `TcpSocket.cpp` takes from its headers:
`ZT_SOCKET_MAX_MESSAGE_LEN` and `sizeof(_inbuf)`. -/
structure Config where
  maxMessageLen : Nat
  inbufSize : Nat
deriving DecidableEq, Repr

/-- The macro `ZT_TCP_MAX_SENDQ_LENGTH`. -/
def Config.maxSendqLength (cfg : Config) : Nat := cfg.maxMessageLen * 8

/-- Data members of `TcpSocket` used by the three methods.  `outbuf` is the
heap block `_outbuf` (empty when the pointer is null). -/
structure TcpSocket where
  inbuf : List Byte
  inptr : Nat
  outbuf : List Byte
  outptr : Nat
  outbufsize : Nat
  connecting : Bool
deriving DecidableEq, Repr

/-- Calls made to the `SocketManager`. -/
inductive SmCall where
  | startNotifyWrite
  | whack
  | stopNotifyWrite
deriving DecidableEq, Repr

/-! ## TcpSocket::send -/

/-- The loop `while (newbufsize < newptr) newbufsize += ZT_SOCKET_MAX_MESSAGE_LEN;`
run for at most `fuel` iterations; `none` when the loop has not ended by then.
With a positive increment `newptr` iterations are enough (`growLoop_spec`). -/
def growLoop (inc newptr : Nat) : Nat → Nat → Option Nat
  | 0, newbufsize => if newbufsize < newptr then none else some newbufsize
  | fuel + 1, newbufsize =>
    if newbufsize < newptr then growLoop inc newptr fuel (newbufsize + inc)
    else some newbufsize

/-- Outcome of the block "Ensure that _outbuf is large enough": an access
outside a block or a loop that does not end (`fault`), one of the two
`return false` statements (`reject`), or the state to go on with. -/
inductive Ensure where
  | fault
  | reject
  | ready (s : TcpSocket)
deriving DecidableEq, Repr

/-- Lines 79-95 of `TcpSocket::send`.  A fresh block is filled with zeros
before the old content is copied into it. -/
def ensureCapacity (cfg : Config) (s : TcpSocket) (newptr : Nat) (mallocOk : Bool) : Ensure :=
  if newptr > s.outbufsize then
    match growLoop cfg.maxMessageLen newptr newptr s.outbufsize with
    | none => Ensure.fault
    | some newbufsize =>
      if newbufsize > cfg.maxSendqLength then Ensure.reject
      else if !mallocOk then Ensure.reject
      else
        match slice s.outbuf 0 s.outptr with
        | none => Ensure.fault
        | some old =>
          if s.outptr ≤ newbufsize then
            Ensure.ready { s with
              outbufsize := newbufsize
              outbuf := old ++ List.replicate (newbufsize - s.outptr) 0 }
          else Ensure.fault
  else Ensure.ready s

/-- The five header octets written by lines 97-101. -/
def frameHeader (msglen : Nat) : List Byte :=
  [0x17, 0x03, 0x03, toByte ((msglen >>> 8) &&& 0xff), toByte (msglen &&& 0xff)]

/-- The statement `memmove(_outbuf,_outbuf + (unsigned int)n,_outptr -= (unsigned int)n)`
for a positive `n`.  The unsigned subtraction wraps by `2^32` when `n` exceeds `_outptr`. -/
def shiftOut (s : TcpSocket) (n : Int) : Option TcpSocket :=
  let outptr := if n.toNat ≤ s.outptr then s.outptr - n.toNat else s.outptr + 2 ^ 32 - n.toNat
  match memmove s.outbuf n.toNat outptr with
  | none => none
  | some m => some { s with outbuf := m, outptr := outptr }

/-- Result of `TcpSocket::send`: returned value, state afterwards, the octets
offered to `::send` (when it was called) and the SocketManager calls. -/
structure SendResult where
  ret : Bool
  sock : TcpSocket
  wrote : Option (List Byte)
  smCalls : List SmCall
deriving DecidableEq, Repr

/-- Lines 105-119 of `TcpSocket::send`: the immediate write when nothing was
queued before.  `n` is the value returned by `::send`. -/
def flushNow (s : TcpSocket) (n : Int) : Option SendResult :=
  match slice s.outbuf 0 s.outptr with
  | none => none
  | some offered =>
    match (if n > 0 then shiftOut s n else some s) with
    | none => none
    | some s1 =>
      some { ret := true, sock := s1, wrote := some offered,
             smCalls := if s1.outptr ≠ 0 then [SmCall.startNotifyWrite, SmCall.whack] else [] }

/-- Embedding of `TcpSocket::send(to,msg,msglen)`.  `mallocOk` tells whether
`::malloc` succeeds and `n` is the value returned by `::send` should they be called. -/
def TcpSocket.send (cfg : Config) (s : TcpSocket) (msg : List Byte) (mallocOk : Bool) (n : Int) :
    Option SendResult :=
  let msglen := msg.length
  if msglen > cfg.maxMessageLen then
    some { ret := false, sock := s, wrote := none, smCalls := [] }
  else if msglen = 0 then
    some { ret := true, sock := s, wrote := none, smCalls := [] }
  else
    let outputWasEnqueued := s.outptr ≠ 0
    let newptr := s.outptr + 5 + msglen
    match ensureCapacity cfg s newptr mallocOk with
    | Ensure.fault => none
    | Ensure.reject => some { ret := false, sock := s, wrote := none, smCalls := [] }
    | Ensure.ready s1 =>
      match storeAll s1.outbuf s1.outptr (frameHeader msglen ++ msg) with
      | none => none
      | some (m, ptr) =>
        let s2 := { s1 with outbuf := m, outptr := ptr }
        if outputWasEnqueued then
          some { ret := true, sock := s2, wrote := none, smCalls := [] }
        else flushNow s2 n

/-! ## TcpSocket::notifyAvailableForRead -/

/-- Local variables of the receive loop together with the packets handed to
`handleReceivedPacket` so far. -/
structure RecvState where
  inbuf : List Byte
  p : Nat
  pl : Nat
  packets : List (List Byte)
deriving DecidableEq, Repr

/-- Outcome of the header test of lines 138-143. -/
inductive Header where
  | fault
  | unsupported
  | length (pl : Nat)
deriving DecidableEq, Repr

/-- Lines 138-143: once five octets are there and no length is known, the
first octet must be 0x17 and the length comes from octets 3 and 4. -/
def frameLength (m : List Byte) (p pl : Nat) : Header :=
  if pl = 0 ∧ 5 ≤ p then
    match load m 0 with
    | none => Header.fault
    | some b0 =>
      if b0.val = 0x17 then
        match load m 3, load m 4 with
        | some b3, some b4 => Header.length (((b3.val <<< 8) ||| b4.val) + 5)
        | _, _ => Header.fault
      else Header.unsupported
  else Header.length pl

/-- Modelled from the spec: `Buffer<ZT_SOCKET_MAX_MESSAGE_LEN> data(ptr,len)`,
declared in `Buffer.hpp`, holds a copy of the `len` octets at `ptr` ("extract
the payload, bytes 5..frameLength"); `none` when the range leaves the block.
The template argument of line 146 is the capacity of the buffer, so the copy
is these octets only for `len ≤ ZT_SOCKET_MAX_MESSAGE_LEN`; what the
constructor does with a longer range is decided in `Buffer.hpp` and is not
modelled.  Statements about the content of a dispatched packet carry that
bound, and `read_within_capacity` shows that no longer range occurs when
`sizeof(_inbuf) ≤ ZT_SOCKET_MAX_MESSAGE_LEN + 6`. -/
def bufferFrom (m : List Byte) (off len : Nat) : Option (List Byte) := slice m off len

/-- Lines 145-151: hand a completed frame to `handleReceivedPacket` and
compact the accumulator.  The packet is the range `_inbuf[5..pl)`; the
capacity of the buffer it is copied into is discussed at `bufferFrom`. -/
def deliver (m : List Byte) (p pl : Nat) (packets : List (List Byte)) : Option RecvState :=
  if pl ≠ 0 ∧ pl ≤ p then
    match bufferFrom m 5 (pl - 5), memmove m pl (p - pl) with
    | some data, some m1 =>
      some { inbuf := m1, p := p - pl, pl := 0, packets := packets ++ [data] }
    | _, _ => none
  else some { inbuf := m, p := p, pl := pl, packets := packets }

/-- One iteration of the loop of lines 133-152.  The flag is `false` when the
iteration executes `return false`. -/
def recvByte (cap : Nat) (st : RecvState) (b : Byte) : Option (Bool × RecvState) :=
  match store st.inbuf st.p b with
  | none => none
  | some m =>
    let p := st.p + 1
    if p ≥ cap then some (false, { st with inbuf := m, p := p })
    else
      match frameLength m p st.pl with
      | Header.fault => none
      | Header.unsupported => some (false, { st with inbuf := m, p := p })
      | Header.length pl =>
        match deliver m p pl st.packets with
        | none => none
        | some st1 => some (true, st1)

/-- The loop of lines 133-152 over the received octets. -/
def recvLoop (cap : Nat) : List Byte → RecvState → Option (Bool × RecvState)
  | [], st => some (true, st)
  | b :: bs, st =>
    match recvByte cap st b with
    | none => none
    | some (false, st1) => some (false, st1)
    | some (true, st1) => recvLoop cap bs st1

/-- Result of `notifyAvailableForRead`: returned value, state afterwards and
the payloads passed to `handleReceivedPacket`, in call order. -/
structure ReadResult where
  ret : Bool
  sock : TcpSocket
  packets : List (List Byte)
deriving DecidableEq, Repr

/-- Embedding of `TcpSocket::notifyAvailableForRead`.  `n` is the value
returned by `::recv` and `buf` the local array it filled; the loop visits
`buf[0]` to `buf[n-1]`. -/
def TcpSocket.notifyAvailableForRead (cfg : Config) (s : TcpSocket) (n : Int) (buf : List Byte) :
    Option ReadResult :=
  if n ≤ 0 then some { ret := false, sock := s, packets := [] }
  else
    match recvLoop cfg.inbufSize (buf.take n.toNat)
        { inbuf := s.inbuf, p := s.inptr, pl := 0, packets := [] } with
    | none => none
    | some (false, st) =>
      some { ret := false, sock := { s with inbuf := st.inbuf }, packets := st.packets }
    | some (true, st) =>
      some { ret := true, sock := { s with inbuf := st.inbuf, inptr := st.p },
             packets := st.packets }

/-! ## TcpSocket::notifyAvailableForWrite -/

/-- Values of `errno` after a failed `::send`: the six named in the `switch`
and any other. -/
inductive Errno where
  | EBADF
  | EINVAL
  | ENOTSOCK
  | ECONNRESET
  | EPIPE
  | ENETDOWN
  | other (code : Nat)
deriving DecidableEq, Repr

/-- The cases of the `switch(errno)` that execute `return false`. -/
def Errno.fatal : Errno → Bool
  | Errno.other _ => false
  | _ => true

/-- Result of `notifyAvailableForWrite`: returned value, state afterwards, the
octets offered to `::send` (when it was called) and the SocketManager calls. -/
structure WriteResult where
  ret : Bool
  sock : TcpSocket
  wrote : Option (List Byte)
  smCalls : List SmCall
deriving DecidableEq, Repr

/-- Lines 195-198: deregister when nothing is left, then `return true`. -/
def writeDone (s : TcpSocket) (wrote : Option (List Byte)) : WriteResult :=
  { ret := true, sock := s, wrote := wrote,
    smCalls := if s.outptr = 0 then [SmCall.stopNotifyWrite] else [] }

/-- Embedding of `TcpSocket::notifyAvailableForWrite`.  `n` is the value
returned by `::send` and `errno` the error left by it, should it be called. -/
def TcpSocket.notifyAvailableForWrite (s : TcpSocket) (n : Int) (errno : Errno) :
    Option WriteResult :=
  let s0 := { s with connecting := false }
  if s0.outptr ≠ 0 then
    match slice s0.outbuf 0 s0.outptr with
    | none => none
    | some offered =>
      if n < 0 then
        if errno.fatal then
          some { ret := false, sock := s0, wrote := some offered, smCalls := [] }
        else some (writeDone s0 (some offered))
      else if n > 0 then
        match shiftOut s0 n with
        | none => none
        | some s1 => some (writeDone s1 (some offered))
      else some (writeDone s0 (some offered))
  else some (writeDone s0 none)

/-- A freshly constructed socket as far as the output side goes: no block,
nothing queued. -/
def TcpSocket.outputEmpty (s : TcpSocket) : Prop :=
  s.outbuf = [] ∧ s.outptr = 0 ∧ s.outbufsize = 0

/-- States reached from a fresh socket by calls of the three methods, where
every `::send` reports at most the number of octets it was offered. -/
inductive Reachable (cfg : Config) : TcpSocket → Prop where
  | init (s : TcpSocket) : s.outputEmpty → Reachable cfg s
  | send (s : TcpSocket) (msg : List Byte) (mallocOk : Bool) (n : Int) (r : SendResult) :
      Reachable cfg s → n ≤ s.outptr + 5 + msg.length →
      TcpSocket.send cfg s msg mallocOk n = some r → Reachable cfg r.sock
  | write (s : TcpSocket) (n : Int) (errno : Errno) (r : WriteResult) :
      Reachable cfg s → n ≤ s.outptr →
      TcpSocket.notifyAvailableForWrite s n errno = some r → Reachable cfg r.sock
  | read (s : TcpSocket) (n : Int) (buf : List Byte) (r : ReadResult) :
      Reachable cfg s →
      TcpSocket.notifyAvailableForRead cfg s n buf = some r → Reachable cfg r.sock

/-! ## The accumulator seen as a sequence

The receive loop only looks at `_inbuf[0..p)`.  `Acc` keeps exactly that part,
and `Acc.step` is one loop iteration on it; `recvByte` is shown to follow it. -/

/-- The octets `_inbuf[0..p)`, the local `pl` and the packets dispatched. -/
structure Acc where
  bytes : List Byte
  pl : Nat
  packets : List (List Byte)
deriving DecidableEq, Repr

/-- The view of a loop state. -/
def RecvState.acc (st : RecvState) : Acc :=
  { bytes := st.inbuf.take st.p, pl := st.pl, packets := st.packets }

/-- Header test on the sequence view. -/
def Acc.frameLength (bytes : List Byte) (pl : Nat) : Option Nat :=
  if pl = 0 ∧ 5 ≤ bytes.length then
    if (bytes.getD 0 0).val = 0x17 then
      some ((((bytes.getD 3 0).val <<< 8) ||| (bytes.getD 4 0).val) + 5)
    else none
  else some pl

/-- Dispatch on the sequence view. -/
def Acc.deliver (bytes : List Byte) (pl : Nat) (packets : List (List Byte)) : Acc :=
  if pl ≠ 0 ∧ pl ≤ bytes.length then
    { bytes := bytes.drop pl, pl := 0, packets := packets ++ [(bytes.drop 5).take (pl - 5)] }
  else { bytes := bytes, pl := pl, packets := packets }

/-- One loop iteration on the sequence view. -/
def Acc.step (cap : Nat) (a : Acc) (b : Byte) : Bool × Acc :=
  let bytes := a.bytes ++ [b]
  if bytes.length ≥ cap then (false, { a with bytes := bytes })
  else
    match Acc.frameLength bytes a.pl with
    | none => (false, { a with bytes := bytes })
    | some pl => (true, Acc.deliver bytes pl a.packets)

/-- The loop on the sequence view. -/
def Acc.run (cap : Nat) : List Byte → Acc → Bool × Acc
  | [], a => (true, a)
  | b :: bs, a =>
    match Acc.step cap a b with
    | (false, a1) => (false, a1)
    | (true, a1) => Acc.run cap bs a1

/-- Well-formed loop state: the block has its declared size, the cursor is
inside it and a known frame length includes the header. -/
def RecvState.ok (cap : Nat) (st : RecvState) : Prop :=
  st.inbuf.length = cap ∧ st.p < cap ∧ (st.pl = 0 ∨ 5 ≤ st.pl)

/-- The wire image of a message: header of `TcpSocket::send` followed by the payload. -/
def frame (payload : List Byte) : List Byte := frameHeader payload.length ++ payload

/-- Consistency of the output side: the block has the recorded size, the
cursor is inside, the size is a multiple of the increment below the cap. -/
def TcpSocket.outOk (cfg : Config) (s : TcpSocket) : Prop :=
  s.outbuf.length = s.outbufsize ∧ s.outptr ≤ s.outbufsize ∧
  s.outbufsize ≤ cfg.maxSendqLength ∧ cfg.maxMessageLen ∣ s.outbufsize

/-- The octets of several frames one after the other. -/
def frames : List (List Byte) → List Byte
  | [] => []
  | p :: ps => frame p ++ frames ps

/-- Modelled from the spec: a channel is created with empty buffers; the
constructor itself is in `TcpSocket.hpp`.  The accumulator block has its
declared size and the output block is not yet allocated. -/
def TcpSocket.fresh (cfg : Config) (connecting : Bool) : TcpSocket :=
  { inbuf := List.replicate cfg.inbufSize 0, inptr := 0, outbuf := [], outptr := 0,
    outbufsize := 0, connecting := connecting }

/-- Constants used in the worked examples: messages of up to 2048 octets and
an accumulator of the same size. -/
def Config.example2048 : Config := { maxMessageLen := 2048, inbufSize := 2048 }

/-! ## Peer -/

/-- The enumeration `InetAddress::AddressType`. -/
inductive AddressType where
  | TYPE_NULL
  | TYPE_IPV4
  | TYPE_IPV6
deriving DecidableEq, Repr

/-- Modelled from the spec: `InetAddress` (declared in `InetAddress.hpp`) is an
optional network endpoint tagged with its family; a null address stands for
"no address".  `endpoint` stands for the IP address and port. -/
structure InetAddress where
  addressType : AddressType
  endpoint : Nat
deriving DecidableEq, Repr

/-- Modelled from the spec: `InetAddress::isV4()`, true for the IPv4 family. -/
def InetAddress.isV4 (a : InetAddress) : Bool := a.addressType == AddressType.TYPE_IPV4

/-- Modelled from the spec: `InetAddress::isV6()`, true for the IPv6 family. -/
def InetAddress.isV6 (a : InetAddress) : Bool := a.addressType == AddressType.TYPE_IPV6

/-- Modelled from the spec: `InetAddress::operator bool()`, true when an
address is present. -/
def InetAddress.toBool (a : InetAddress) : Bool := a.addressType != AddressType.TYPE_NULL

/-- Constants that `Peer.cpp` takes from its headers: the liveness window of a
path and `ZT_MULTICAST_LIKE_EXPIRE`. -/
structure PeerConstants where
  pathActivityTimeout : Nat
  multicastLikeExpire : Nat
deriving DecidableEq, Repr

/-- Subtraction of `uint64_t` values. -/
def u64sub (a b : Nat) : Nat := (a % 2 ^ 64 + 2 ^ 64 - b % 2 ^ 64) % 2 ^ 64

/-- The members of `Peer::WanPath` used by `Peer.cpp`. -/
structure WanPath where
  lastSend : Nat
  lastReceive : Nat
  lastFirewallOpener : Nat
  addr : InetAddress
  fixed : Bool
deriving DecidableEq, Repr

/-- Modelled from the spec: `WanPath::isActive(now)` (declared in `Peer.hpp`)
is true iff `lastReceive` is within the liveness window and an address is present. -/
def WanPath.isActive (k : PeerConstants) (p : WanPath) (now : Nat) : Bool :=
  p.addr.toBool && decide (u64sub now p.lastReceive < k.pathActivityTimeout)

/-- The data members of `Peer`. -/
structure Peer where
  id : Nat
  key : List Byte
  ipv4p : WanPath
  ipv6p : WanPath
  lastUsed : Nat
  lastUnicastFrame : Nat
  lastMulticastFrame : Nat
  lastAnnouncedTo : Nat
  lastPinged : Nat
  vMajor : Nat
  vMinor : Nat
  vRevision : Nat
  latency : Nat
deriving DecidableEq, Repr

/-- The values of `Packet::Verb` that `Peer::onReceive` tells apart. -/
inductive Verb where
  | VERB_FRAME
  | VERB_MULTICAST_FRAME
  | other (code : Nat)
deriving DecidableEq, Repr

/-- The threshold `(ZT_MULTICAST_LIKE_EXPIRE / 2) - 1000` converted to `uint64_t`. -/
def announceThreshold (k : PeerConstants) : Nat :=
  (((k.multicastLikeExpire : Int) / 2 - 1000) % 2 ^ 64).toNat

/-- Result of `Peer::onReceive`: the peer afterwards and the number of calls
of `announceMulticastGroups`. -/
structure ReceiveResult where
  peer : Peer
  announceCalls : Nat
deriving DecidableEq, Repr

/-- Lines 76-88 of `Peer::onReceive`, the part for direct packets. -/
def Peer.onDirect (k : PeerConstants) (self : Peer) (remoteAddr : InetAddress) (now : Nat) :
    ReceiveResult :=
  let wp := if remoteAddr.isV4 then self.ipv4p else self.ipv6p
  let wp1 := { wp with lastReceive := now }
  let wp2 := if !wp1.fixed then { wp1 with addr := remoteAddr } else wp1
  let self1 := if remoteAddr.isV4 then { self with ipv4p := wp2 } else { self with ipv6p := wp2 }
  if u64sub now self1.lastAnnouncedTo ≥ announceThreshold k then
    { peer := { self1 with lastAnnouncedTo := now }, announceCalls := 1 }
  else { peer := self1, announceCalls := 0 }

/-- Embedding of `Peer::onReceive`.  The parameters `packetId`, `inRePacketId`
and `inReVerb` are not used by the body. -/
def Peer.onReceive (k : PeerConstants) (self : Peer) (remoteAddr : InetAddress) (hops : Nat)
    (verb : Verb) (now : Nat) : ReceiveResult :=
  let r := if hops = 0 then Peer.onDirect k self remoteAddr now
    else { peer := self, announceCalls := 0 }
  match verb with
  | Verb.VERB_FRAME => { r with peer := { r.peer with lastUnicastFrame := now } }
  | Verb.VERB_MULTICAST_FRAME => { r with peer := { r.peer with lastMulticastFrame := now } }
  | Verb.other _ => r

/-- Result of `Peer::send`: returned value, the peer afterwards and the
addresses passed to the transport `sm->send`, in call order. -/
structure PeerSendResult where
  ret : Bool
  peer : Peer
  calls : List InetAddress
deriving DecidableEq, Repr

/-- Lines 106-113 of `Peer::send`: the attempt on the IPv4 path.  `calls` are
the transport calls made before. -/
def Peer.sendV4 (sm : List InetAddress → InetAddress → Bool) (self : Peer) (now : Nat)
    (calls : List InetAddress) : PeerSendResult :=
  if self.ipv4p.addr.toBool then
    if sm calls self.ipv4p.addr then
      { ret := true, peer := { self with ipv4p := { self.ipv4p with lastSend := now } },
        calls := calls ++ [self.ipv4p.addr] }
    else { ret := false, peer := self, calls := calls ++ [self.ipv4p.addr] }
  else { ret := false, peer := self, calls := calls }

/-- Embedding of `Peer::send`.  The answer of the transport `sm->send` to a call
is `sm calls addr`, where `calls` are the addresses of the calls made before
within this `send`. -/
def Peer.send (k : PeerConstants) (sm : List InetAddress → InetAddress → Bool) (self : Peer)
    (now : Nat) : PeerSendResult :=
  if self.ipv6p.isActive k now || (!self.ipv4p.addr.toBool && self.ipv6p.addr.toBool) then
    if sm [] self.ipv6p.addr then
      { ret := true, peer := { self with ipv6p := { self.ipv6p with lastSend := now } },
        calls := [self.ipv6p.addr] }
    else Peer.sendV4 sm self now [self.ipv6p.addr]
  else Peer.sendV4 sm self now []

/-- A peer that knows an IPv4 and an IPv6 address and has heard on IPv6 at
time 100. -/
def Peer.exampleDual : Peer :=
  { id := 1, key := [],
    ipv4p := { lastSend := 0, lastReceive := 0, lastFirewallOpener := 0,
               addr := { addressType := AddressType.TYPE_IPV4, endpoint := 4 }, fixed := false },
    ipv6p := { lastSend := 0, lastReceive := 100, lastFirewallOpener := 0,
               addr := { addressType := AddressType.TYPE_IPV6, endpoint := 6 }, fixed := false },
    lastUsed := 0, lastUnicastFrame := 0, lastMulticastFrame := 0, lastAnnouncedTo := 0,
    lastPinged := 0, vMajor := 0, vMinor := 0, vRevision := 0, latency := 0 }

/-- Constants used in the worked examples for `Peer`. -/
def PeerConstants.example : PeerConstants :=
  { pathActivityTimeout := 1000, multicastLikeExpire := 120000 }

/-- A transport that accepts IPv4 destinations only. -/
def smV4Only (_calls : List InetAddress) (a : InetAddress) : Bool := a.isV4

/-- An IPv6 endpoint used in the worked examples. -/
def InetAddress.exampleV6 : InetAddress :=
  { addressType := AddressType.TYPE_IPV6, endpoint := 66 }

/-- Result of `Peer::sendPing` and `Peer::sendFirewallOpener`: returned value,
the peer afterwards and the addresses of the send attempts, in call order. -/
structure ProbeResult where
  ret : Bool
  peer : Peer
  calls : List InetAddress
deriving DecidableEq, Repr

/-- Embedding of `Peer::sendFirewallOpener`.  The answer of
`sm->sendFirewallOpener(addr,ZT_FIREWALL_OPENER_HOPS)` to a call is
`sm calls addr`, where `calls` are the addresses of the calls made before. -/
def Peer.sendFirewallOpener (sm : List InetAddress → InetAddress → Bool) (self : Peer)
    (now : Nat) : ProbeResult :=
  let r4 : ProbeResult :=
    if self.ipv4p.addr.toBool then
      if sm [] self.ipv4p.addr then
        { ret := true,
          peer := { self with ipv4p := { self.ipv4p with lastFirewallOpener := now } },
          calls := [self.ipv4p.addr] }
      else { ret := false, peer := self, calls := [self.ipv4p.addr] }
    else { ret := false, peer := self, calls := [] }
  if r4.peer.ipv6p.addr.toBool then
    if sm r4.calls r4.peer.ipv6p.addr then
      { ret := true,
        peer := { r4.peer with ipv6p := { r4.peer.ipv6p with lastFirewallOpener := now } },
        calls := r4.calls ++ [r4.peer.ipv6p.addr] }
    else { r4 with calls := r4.calls ++ [r4.peer.ipv6p.addr] }
  else r4

/-- Embedding of `Peer::sendPing`.  The answer of `sw->sendHELLO(this,addr,false)`
to a call is `sw calls addr`, where `calls` are the addresses of the calls made
before. -/
def Peer.sendPing (sw : List InetAddress → InetAddress → Bool) (self : Peer) (now : Nat) :
    ProbeResult :=
  let r4 : ProbeResult :=
    if self.ipv4p.addr.toBool then
      if sw [] self.ipv4p.addr then
        { ret := true, peer := { self with ipv4p := { self.ipv4p with lastSend := now } },
          calls := [self.ipv4p.addr] }
      else { ret := false, peer := self, calls := [self.ipv4p.addr] }
    else { ret := false, peer := self, calls := [] }
  if r4.peer.ipv6p.addr.toBool then
    if sw r4.calls r4.peer.ipv6p.addr then
      { ret := true, peer := { r4.peer with ipv6p := { r4.peer.ipv6p with lastSend := now } },
        calls := r4.calls ++ [r4.peer.ipv6p.addr] }
    else { r4 with calls := r4.calls ++ [r4.peer.ipv6p.addr] }
  else r4

/-- Embedding of `Peer::setPathAddress`. -/
def Peer.setPathAddress (self : Peer) (addr : InetAddress) (fixed : Bool) : Peer :=
  if addr.isV4 then { self with ipv4p := { self.ipv4p with addr := addr, fixed := fixed } }
  else if addr.isV6 then { self with ipv6p := { self.ipv6p with addr := addr, fixed := fixed } }
  else self

/-- Embedding of `Peer::clearFixedFlag`. -/
def Peer.clearFixedFlag (self : Peer) (t : AddressType) : Peer :=
  match t with
  | AddressType.TYPE_NULL =>
    { self with ipv4p := { self.ipv4p with fixed := false },
                ipv6p := { self.ipv6p with fixed := false } }
  | AddressType.TYPE_IPV4 => { self with ipv4p := { self.ipv4p with fixed := false } }
  | AddressType.TYPE_IPV6 => { self with ipv6p := { self.ipv6p with fixed := false } }

/-- The addresses a probe is sent to: the IPv4 address when known, then the
IPv6 address when known. -/
def Peer.knownAddrs (self : Peer) : List InetAddress :=
  (if self.ipv4p.addr.toBool then [self.ipv4p.addr] else []) ++
  (if self.ipv6p.addr.toBool then [self.ipv6p.addr] else [])

/-- Whether the probe on the IPv4 path is made and accepted. -/
def Peer.probe4 (sm : List InetAddress → InetAddress → Bool) (self : Peer) : Bool :=
  self.ipv4p.addr.toBool && sm [] self.ipv4p.addr

/-- Whether the probe on the IPv6 path is made and accepted. -/
def Peer.probe6 (sm : List InetAddress → InetAddress → Bool) (self : Peer) : Bool :=
  self.ipv6p.addr.toBool &&
    sm (if self.ipv4p.addr.toBool then [self.ipv4p.addr] else []) self.ipv6p.addr

/-- A peer that knows an IPv4 address only. -/
def Peer.exampleV4Only : Peer :=
  { Peer.exampleDual with
    ipv6p := { lastSend := 0, lastReceive := 0, lastFirewallOpener := 0,
               addr := { addressType := AddressType.TYPE_NULL, endpoint := 0 },
               fixed := false } }

/-- One call of a method of `Peer` that is not `setPathAddress` or
`clearFixedFlag`, with its arguments and the behaviour of the collaborator. -/
inductive PeerOp where
  | onReceive (remoteAddr : InetAddress) (hops : Nat) (verb : Verb) (now : Nat)
  | send (sm : List InetAddress → InetAddress → Bool) (now : Nat)
  | sendPing (sw : List InetAddress → InetAddress → Bool) (now : Nat)
  | sendFirewallOpener (sm : List InetAddress → InetAddress → Bool) (now : Nat)

/-- The peer after one call. -/
def Peer.step (k : PeerConstants) (self : Peer) : PeerOp → Peer
  | PeerOp.onReceive remoteAddr hops verb now =>
    (Peer.onReceive k self remoteAddr hops verb now).peer
  | PeerOp.send sm now => (Peer.send k sm self now).peer
  | PeerOp.sendPing sw now => (Peer.sendPing sw self now).peer
  | PeerOp.sendFirewallOpener sm now => (Peer.sendFirewallOpener sm self now).peer

/-- The peer after a sequence of calls. -/
def Peer.steps (k : PeerConstants) (self : Peer) (ops : List PeerOp) : Peer :=
  ops.foldl (Peer.step k) self

/-- An IPv4 endpoint used in the worked examples. -/
def InetAddress.exampleV4 : InetAddress :=
  { addressType := AddressType.TYPE_IPV4, endpoint := 44 }

/-- Modelled from the spec: a path is "created empty", with no address, not
fixed and all timestamps zero (the constructor of `WanPath` is in `Peer.hpp`). -/
def WanPath.empty : WanPath :=
  { lastSend := 0, lastReceive := 0, lastFirewallOpener := 0,
    addr := { addressType := AddressType.TYPE_NULL, endpoint := 0 }, fixed := false }

/-- Outcome of a constructor of `Peer`: the object, or `none` when the
constructor throws `std::runtime_error`, and the number of calls of
`Identity::agree`. -/
structure Constructed where
  peer : Option Peer
  agreeCalls : Nat
deriving DecidableEq, Repr

/-- Embedding of the constructor `Peer::Peer()`.  The member `_key` is not
initialised: `keyMemory` is whatever the storage holds; `_id()` is the default
identity, written 0. -/
def Peer.newDefault (keyMemory : List Byte) : Constructed :=
  { peer := some
      { id := 0, key := keyMemory, ipv4p := WanPath.empty, ipv6p := WanPath.empty,
        lastUsed := 0, lastUnicastFrame := 0, lastMulticastFrame := 0, lastAnnouncedTo := 0,
        lastPinged := 0, vMajor := 0, vMinor := 0, vRevision := 0, latency := 0 },
    agreeCalls := 0 }

/-- Embedding of the constructor `Peer::Peer(myIdentity,peerIdentity)`.
`agree my peer klen` is the outcome of `myIdentity.agree(peerIdentity,_key,klen)`:
the key written to `_key`, or `none` when it returns false.  `keyLength` is
`ZT_PEER_SECRET_KEY_LENGTH`. -/
def Peer.newWithIdentity (agree : Nat → Nat → Nat → Option (List Byte)) (keyLength : Nat)
    (myIdentity peerIdentity : Nat) : Constructed :=
  match agree myIdentity peerIdentity keyLength with
  | some key =>
    { peer := some
        { id := peerIdentity, key := key, ipv4p := WanPath.empty, ipv6p := WanPath.empty,
          lastUsed := 0, lastUnicastFrame := 0, lastMulticastFrame := 0, lastAnnouncedTo := 0,
          lastPinged := 0, vMajor := 0, vMinor := 0, vRevision := 0, latency := 0 },
      agreeCalls := 1 }
  | none => { peer := none, agreeCalls := 1 }

/-- The activity timestamps of a peer and of its two paths are all zero. -/
def Peer.timestampsZero (p : Peer) : Prop :=
  p.lastUsed = 0 ∧ p.lastUnicastFrame = 0 ∧ p.lastMulticastFrame = 0 ∧ p.lastAnnouncedTo = 0 ∧
  p.lastPinged = 0 ∧
  p.ipv4p.lastSend = 0 ∧ p.ipv4p.lastReceive = 0 ∧ p.ipv4p.lastFirewallOpener = 0 ∧
  p.ipv6p.lastSend = 0 ∧ p.ipv6p.lastReceive = 0 ∧ p.ipv6p.lastFirewallOpener = 0

/-- A key agreement that always succeeds with a key of zeros, for the worked examples. -/
def agreeZeros (_my _peer klen : Nat) : Option (List Byte) := some (List.replicate klen 0)

/-- A socket with three octets queued in a block of 2048, for the worked examples. -/
def TcpSocket.exampleBacklog : TcpSocket :=
  { inbuf := [], inptr := 0, outbuf := [1, 2, 3] ++ List.replicate 2045 0, outptr := 3,
    outbufsize := 2048, connecting := true }

/-- Whether the channel is registered for write-ready notifications after a
list of SocketManager calls, given whether it was before. -/
def registration (reg : Bool) : List SmCall → Bool
  | [] => reg
  | SmCall.startNotifyWrite :: cs => registration true cs
  | SmCall.stopNotifyWrite :: cs => registration false cs
  | SmCall.whack :: cs => registration reg cs

/-- States reached from a fresh, unregistered channel together with the
registration for write-ready notifications, where every `::send` reports at
most the number of octets it was offered. -/
inductive Tracked (cfg : Config) : TcpSocket → Bool → Prop where
  | init (s : TcpSocket) : s.outputEmpty → Tracked cfg s false
  | send (s : TcpSocket) (reg : Bool) (msg : List Byte) (mallocOk : Bool) (n : Int)
      (r : SendResult) :
      Tracked cfg s reg → n ≤ s.outptr + 5 + msg.length →
      TcpSocket.send cfg s msg mallocOk n = some r →
      Tracked cfg r.sock (registration reg r.smCalls)
  | write (s : TcpSocket) (reg : Bool) (n : Int) (errno : Errno) (r : WriteResult) :
      Tracked cfg s reg → n ≤ s.outptr →
      TcpSocket.notifyAvailableForWrite s n errno = some r →
      Tracked cfg r.sock (registration reg r.smCalls)
  | read (s : TcpSocket) (reg : Bool) (n : Int) (buf : List Byte) (r : ReadResult) :
      Tracked cfg s reg →
      TcpSocket.notifyAvailableForRead cfg s n buf = some r → Tracked cfg r.sock reg

/-- The octets the socket took in one `::send` call: the first `n` of those
offered when `n` is positive, none when the call failed, returned zero or was
not made. -/
def accepted (wrote : Option (List Byte)) (n : Int) : List Byte :=
  match wrote with
  | none => []
  | some w => w.take n.toNat

/-- States reached from an empty output queue together with the octets the
socket has accepted so far and the frames of the non-empty messages for which
`send` returned true, in call order.  Every `::send` fails or reports at most
the number of octets it was offered. -/
inductive Stream (cfg : Config) : TcpSocket → List Byte → List Byte → Prop where
  | init (s : TcpSocket) : s.outputEmpty → Stream cfg s [] []
  | send (s : TcpSocket) (taken queued : List Byte) (msg : List Byte) (mallocOk : Bool)
      (n : Int) (r : SendResult) :
      Stream cfg s taken queued → n ≤ s.outptr + 5 + msg.length →
      TcpSocket.send cfg s msg mallocOk n = some r →
      Stream cfg r.sock (taken ++ accepted r.wrote n)
        (queued ++ (if r.ret = true ∧ msg.length ≠ 0 then frame msg else []))
  | write (s : TcpSocket) (taken queued : List Byte) (n : Int) (errno : Errno)
      (r : WriteResult) :
      Stream cfg s taken queued → n ≤ s.outptr →
      TcpSocket.notifyAvailableForWrite s n errno = some r →
      Stream cfg r.sock (taken ++ accepted r.wrote n) queued

/-- Small constants for worked examples that are evaluated: messages of up to
8 octets and an accumulator of 16. -/
def Config.exampleSmall : Config := { maxMessageLen := 8, inbufSize := 16 }

/-- The outcome of sending the message 1 2 3 on a fresh channel when the
socket takes five of the eight octets of the frame. -/
def SendResult.exampleSmall : SendResult :=
  { ret := true,
    sock := { inbuf := List.replicate 16 0, inptr := 0, outbuf := [1, 2, 3, 0, 3, 1, 2, 3],
              outptr := 3, outbufsize := 8, connecting := false },
    wrote := some [0x17, 0x03, 0x03, 0, 3, 1, 2, 3],
    smCalls := [SmCall.startNotifyWrite, SmCall.whack] }

/-- The frame length announced by the header at the start of a sequence of
at least five octets. -/
def Acc.headerLength (bytes : List Byte) : Nat :=
  (((bytes.getD 3 0).val <<< 8) ||| (bytes.getD 4 0).val) + 5

/-- The accumulated octets do not contain a complete frame: they are fewer
than a header, or they start with the marker and are fewer than the frame
their header announces. -/
def holdsNoFrame (bytes : List Byte) : Prop :=
  bytes.length < 5 ∨ ((bytes.getD 0 0).val = 0x17 ∧ bytes.length < Acc.headerLength bytes)

/-- State of the loop between two octets of a call that began without a
complete frame: the length is known exactly when five octets are there. -/
def Acc.settled (a : Acc) : Prop :=
  (a.bytes.length < 5 ∧ a.pl = 0) ∨
  (5 ≤ a.bytes.length ∧ (a.bytes.getD 0 0).val = 0x17 ∧ a.pl = Acc.headerLength a.bytes ∧
    a.bytes.length < a.pl)

/-- The loop state with which a call goes on from accumulated octets: the
frame length is known exactly when five octets are there. -/
def Acc.resume (bytes : List Byte) (packets : List (List Byte)) : Acc :=
  { bytes := bytes, pl := if 5 ≤ bytes.length then Acc.headerLength bytes else 0,
    packets := packets }

/-- States of the input side reached from an empty accumulator by successful
calls of `notifyAvailableForRead` (after a failed call the channel is closed). -/
inductive Accumulated (cfg : Config) : TcpSocket → Prop where
  | init (s : TcpSocket) :
      s.inbuf.length = cfg.inbufSize → s.inptr = 0 → 0 < cfg.inbufSize → Accumulated cfg s
  | read (s : TcpSocket) (n : Int) (buf : List Byte) (r : ReadResult) :
      Accumulated cfg s → TcpSocket.notifyAvailableForRead cfg s n buf = some r →
      r.ret = true → Accumulated cfg r.sock

/-! ## Lemmas on the memory primitives and the receive loop -/

theorem take_succ_set (m : List Byte) (p : Nat) (b : Byte) (h : p < m.length) :
    (m.set p b).take (p + 1) = m.take p ++ [b] := by
  rw [List.set_eq_take_append_cons_drop, if_pos h]
  rw [List.take_append_eq_append_take]
  simp [List.take_take, Nat.min_eq_left (Nat.le_of_lt h)]

theorem load_take (m : List Byte) (k i : Nat) (hi : i < k) (hk : k ≤ m.length) :
    load m i = some ((m.take k).getD i 0) := by
  unfold load
  have h1 : i < m.length := by omega
  simp [List.getD_eq_getElem?_getD, List.getElem?_take, hi, h1]

theorem slice_take (m : List Byte) (k pl : Nat) (h5 : 5 ≤ pl) (hpl : pl ≤ k) (hk : k ≤ m.length) :
    slice m 5 (pl - 5) = some (((m.take k).drop 5).take (pl - 5)) := by
  unfold slice
  have h1 : 5 + (pl - 5) ≤ m.length := by omega
  simp only [h1, if_true, List.drop_take, List.take_take]
  congr 2
  omega

theorem memmove_take (m : List Byte) (k pl : Nat) (hpl : pl ≤ k) (hk : k ≤ m.length) :
    ∃ m1, memmove m pl (k - pl) = some m1 ∧ m1.length = m.length ∧
      m1.take (k - pl) = (m.take k).drop pl := by
  unfold memmove
  have h1 : pl + (k - pl) ≤ m.length := by omega
  refine ⟨_, if_pos h1, ?_, ?_⟩
  · simp; omega
  · rw [List.take_append_of_le_length (by simp; omega)]
    simp [List.drop_take, List.take_take]



theorem frameLength_acc (m : List Byte) (k pl : Nat) (hk : k ≤ m.length) :
    frameLength m k pl =
      match Acc.frameLength (m.take k) pl with
      | none => Header.unsupported
      | some x => Header.length x := by
  unfold frameLength Acc.frameLength
  have hl : (m.take k).length = k := by simp [hk]
  rw [hl]
  by_cases h : pl = 0 ∧ 5 ≤ k
  · rw [if_pos h, if_pos h, load_take m k 0 (by omega) hk, load_take m k 3 (by omega) hk,
      load_take m k 4 (by omega) hk]
    by_cases h0 : ((m.take k).getD 0 0).val = 0x17
    · simp only [if_pos h0]
    · simp only [if_neg h0]
  · rw [if_neg h, if_neg h]

theorem deliver_acc (m : List Byte) (k pl : Nat) (packets : List (List Byte))
    (hk : k ≤ m.length) (h5 : pl = 0 ∨ 5 ≤ pl) :
    ∃ st1, deliver m k pl packets = some st1 ∧
      st1.acc = Acc.deliver (m.take k) pl packets ∧
      st1.inbuf.length = m.length ∧ st1.p ≤ k ∧ (st1.pl = 0 ∨ 5 ≤ st1.pl) := by
  unfold deliver Acc.deliver
  have hl : (m.take k).length = k := by simp [hk]
  rw [hl]
  by_cases h : pl ≠ 0 ∧ pl ≤ k
  · have h5' : 5 ≤ pl := by omega
    obtain ⟨m1, hm1, hlen1, htake1⟩ := memmove_take m k pl h.2 hk
    rw [if_pos h, if_pos h, bufferFrom, slice_take m k pl h5' h.2 hk, hm1]
    refine ⟨_, rfl, ?_, hlen1, ?_, Or.inl rfl⟩
    · simp [RecvState.acc, htake1]
    · simp
  · rw [if_neg h, if_neg h]
    exact ⟨_, rfl, rfl, rfl, le_refl _, h5⟩

theorem frameLength_ge (bytes : List Byte) (pl x : Nat) (h5 : pl = 0 ∨ 5 ≤ pl)
    (h : Acc.frameLength bytes pl = some x) : x = 0 ∨ 5 ≤ x := by
  unfold Acc.frameLength at h
  split at h
  · split at h
    · simp at h; omega
    · simp at h
  · simp at h; omega

theorem recvByte_acc (cap : Nat) (st : RecvState) (b : Byte) (h : st.ok cap) :
    ∃ st1, recvByte cap st b = some ((Acc.step cap st.acc b).1, st1) ∧
      st1.acc = (Acc.step cap st.acc b).2 ∧ st1.inbuf.length = cap ∧
      st1.packets = (Acc.step cap st.acc b).2.packets ∧
      ((Acc.step cap st.acc b).1 = true → st1.ok cap) := by
  obtain ⟨hlen, hp, hpl⟩ := h
  have hp' : st.p < st.inbuf.length := by omega
  have hset : (st.inbuf.set st.p b).length = cap := by simp [hlen]
  have hk : st.p + 1 ≤ (st.inbuf.set st.p b).length := by omega
  have htake := take_succ_set st.inbuf st.p b hp'
  have hl : (st.inbuf.take st.p ++ [b]).length = st.p + 1 := by
    simp [Nat.min_eq_left (Nat.le_of_lt hp')]
  unfold recvByte Acc.step store
  simp only [if_pos hp', RecvState.acc, hl]
  by_cases hc : st.p + 1 ≥ cap
  · simp only [if_pos hc]
    refine ⟨_, rfl, ?_, hset, rfl, ?_⟩
    · simp [htake]
    · intro hf; simp at hf
  · simp only [if_neg hc]
    rw [frameLength_acc _ _ _ hk, htake]
    cases hfl : Acc.frameLength (st.inbuf.take st.p ++ [b]) st.pl with
    | none =>
      refine ⟨_, rfl, ?_, hset, rfl, ?_⟩
      · simp [htake]
      · intro hf; simp at hf
    | some x =>
      have hx := frameLength_ge _ _ _ hpl hfl
      obtain ⟨st1, hd, hacc, hlen1, hp1, hpl1⟩ := deliver_acc _ _ x st.packets hk hx
      simp only [hd]
      rw [htake] at hacc
      refine ⟨st1, rfl, hacc, by omega, ?_, ?_⟩
      · rw [← hacc]; rfl
      · intro _
        exact ⟨by omega, by omega, hpl1⟩

theorem recvLoop_acc (cap : Nat) (bs : List Byte) :
    ∀ st : RecvState, st.ok cap →
    ∃ st1, recvLoop cap bs st = some ((Acc.run cap bs st.acc).1, st1) ∧
      st1.acc.bytes = (Acc.run cap bs st.acc).2.bytes ∧ st1.inbuf.length = cap ∧
      st1.packets = (Acc.run cap bs st.acc).2.packets ∧
      ((Acc.run cap bs st.acc).1 = true → st1.p < cap) := by
  induction bs with
  | nil =>
    intro st h
    exact ⟨st, rfl, rfl, h.1, rfl, fun _ => h.2.1⟩
  | cons b bs ih =>
    intro st h
    obtain ⟨st1, hb, hacc, hlen1, hpk, hok⟩ := recvByte_acc cap st b h
    unfold recvLoop Acc.run
    rw [hb]
    rcases hstep : Acc.step cap st.acc b with ⟨flag, a1⟩
    rw [hstep] at hacc hok hpk
    cases flag with
    | false =>
      refine ⟨st1, rfl, ?_, hlen1, hpk, ?_⟩
      · simp [hacc]
      · intro hf; simp at hf
    | true =>
      simp only at hacc hok
      obtain ⟨st2, h2, hacc2, hlen2, hpk2, hok2⟩ := ih st1 (hok trivial)
      rw [hacc] at h2 hacc2 hpk2 hok2
      exact ⟨st2, h2, hacc2, hlen2, hpk2, hok2⟩


theorem header_length (L : Nat) (h : L < 65536) :
    ((toByte ((L >>> 8) &&& 0xff)).val <<< 8) ||| (toByte (L &&& 0xff)).val = L := by
  have e1 : (L >>> 8) &&& 0xff = (L / 256) % 256 := by
    rw [Nat.shiftRight_eq_div_pow]
    exact Nat.and_pow_two_sub_one_eq_mod _ 8
  have e2 : L &&& 0xff = L % 256 := Nat.and_pow_two_sub_one_eq_mod _ 8
  rw [e1, e2]
  simp only [toByte, Nat.mod_mod]
  rw [Nat.shiftLeft_eq, Nat.mul_comm, ← Nat.mul_add_lt_is_or (Nat.mod_lt _ (by decide))]
  omega

/-- Feeding the remainder of a frame whose first part is already accumulated. -/
theorem Acc.run_frame_rest (cap : Nat) (h0 h1 h2 h3 h4 : Byte) (payload rest : List Byte)
    (ps : List (List Byte)) (hmark : h0.val = 0x17)
    (hL : payload.length = ((h3.val <<< 8) ||| h4.val))
    (hcap : 5 + payload.length < cap) (todo : List Byte) :
    ∀ done : List Byte, todo ≠ [] → done ++ todo = h0 :: h1 :: h2 :: h3 :: h4 :: payload →
      Acc.run cap (todo ++ rest)
          { bytes := done, pl := if 5 ≤ done.length then payload.length + 5 else 0, packets := ps } =
        Acc.run cap rest { bytes := [], pl := 0, packets := ps ++ [payload] } := by
  induction todo with
  | nil => intro done hne; exact absurd rfl hne
  | cons b todo ih =>
    intro done _ hsplit
    have hlen : done.length + (todo.length + 1) = payload.length + 5 := by
      have := congrArg List.length hsplit
      simpa using this
    have hsplit' : (done ++ [b]) ++ todo = h0 :: h1 :: h2 :: h3 :: h4 :: payload := by
      simpa using hsplit
    have hbl : (done ++ [b]).length = done.length + 1 := by simp
    have hget : ∀ i, i < (done ++ [b]).length →
        (done ++ [b]).getD i 0 = (h0 :: h1 :: h2 :: h3 :: h4 :: payload).getD i 0 := by
      intro i hi
      rw [← hsplit', List.getD_eq_getElem?_getD, List.getD_eq_getElem?_getD,
        List.getElem?_append_left hi]
    have hfl : Acc.frameLength (done ++ [b]) (if 5 ≤ done.length then payload.length + 5 else 0) =
        some (if 5 ≤ (done ++ [b]).length then payload.length + 5 else 0) := by
      unfold Acc.frameLength
      rw [hbl]
      by_cases hd : 5 ≤ done.length
      · have : 5 ≤ done.length + 1 := by omega
        simp [hd, this]
      · by_cases hd1 : 5 ≤ done.length + 1
        · rw [hget 0 (by omega), hget 3 (by omega), hget 4 (by omega)]
          simp [hd, hd1, hmark, hL]
        · simp [hd, hd1]
    show (match Acc.step cap _ b with
      | (false, a1) => (false, a1)
      | (true, a1) => Acc.run cap (todo ++ rest) a1) = _
    unfold Acc.step
    simp only [hfl]
    have hnc : ¬ (done ++ [b]).length ≥ cap := by rw [hbl]; omega
    simp only [if_neg hnc]
    cases todo with
    | nil =>
      have hfull : done ++ [b] = h0 :: h1 :: h2 :: h3 :: h4 :: payload := by simpa using hsplit'
      have h5 : 5 ≤ (done ++ [b]).length := by rw [hbl]; simp at hlen; omega
      unfold Acc.deliver
      rw [hfull] at *
      simp
    | cons c todo =>
      have hnd : ¬ (payload.length + 5 ≤ (done ++ [b]).length) := by
        rw [hbl]; simp at hlen; omega
      have hdel : Acc.deliver (done ++ [b])
          (if 5 ≤ (done ++ [b]).length then payload.length + 5 else 0) ps =
          { bytes := done ++ [b],
            pl := if 5 ≤ (done ++ [b]).length then payload.length + 5 else 0, packets := ps } := by
        unfold Acc.deliver
        by_cases h5 : 5 ≤ (done ++ [b]).length
        · simp only [if_pos h5]; rw [if_neg]; rintro ⟨_, h⟩; exact hnd h
        · simp only [if_neg h5]; rw [if_neg]; rintro ⟨h, _⟩; exact h rfl
      rw [hdel]
      exact ih (done ++ [b]) (by simp) hsplit'

theorem storeAll_spec (bs : List Byte) :
    ∀ (m : List Byte) (ptr : Nat), ptr + bs.length ≤ m.length →
      storeAll m ptr bs = some (m.take ptr ++ bs ++ m.drop (ptr + bs.length), ptr + bs.length) := by
  induction bs with
  | nil => intro m ptr _; simp [storeAll]
  | cons b bs ih =>
    intro m ptr h
    have hlt : ptr < m.length := by simp at h; omega
    have hlen : (m.set ptr b).length = m.length := by simp
    unfold storeAll store
    simp only [if_pos hlt]
    rw [ih (m.set ptr b) (ptr + 1) (by simp at h ⊢; omega)]
    rw [take_succ_set m ptr b hlt, List.drop_set_of_lt b m (by omega)]
    simp [Nat.add_assoc, Nat.add_comm 1]

theorem growLoop_spec (inc newptr : Nat) (hinc : 0 < inc) :
    ∀ (fuel nb : Nat), newptr ≤ nb + fuel →
      ∃ r k, growLoop inc newptr fuel nb = some r ∧ r = nb + k * inc ∧ newptr ≤ r ∧
        (nb < newptr → r < newptr + inc) ∧ (newptr ≤ nb → r = nb) := by
  intro fuel
  induction fuel with
  | zero =>
    intro nb h
    refine ⟨nb, 0, ?_, by simp, by omega, by omega, fun _ => rfl⟩
    simp [growLoop]; omega
  | succ fuel ih =>
    intro nb h
    by_cases hlt : nb < newptr
    · obtain ⟨r, k, hr, hk, hge, hup, hsame⟩ := ih (nb + inc) (by omega)
      refine ⟨r, k + 1, ?_, ?_, hge, ?_, by omega⟩
      · simp [growLoop, hlt, hr]
      · rw [hk, Nat.add_mul]; omega
      · intro _
        by_cases h2 : nb + inc < newptr
        · exact hup h2
        · have := hsame (by omega); omega
    · refine ⟨nb, 0, ?_, by simp, by omega, by omega, fun _ => rfl⟩
      simp [growLoop, hlt]

/-- A multiple of the increment that is below `newptr + inc` does not pass a
bound that is itself a multiple and at least `newptr`. -/
theorem multiple_le_of_lt (inc r newptr c : Nat) (hr : inc ∣ r)
    (hlt : r < newptr + inc) (hc : newptr ≤ inc * c) : r ≤ inc * c := by
  obtain ⟨j, rfl⟩ := hr
  have h1 : inc * j < inc * (c + 1) := by rw [Nat.mul_add, Nat.mul_one]; omega
  have h2 : j < c + 1 := Nat.lt_of_mul_lt_mul_left h1
  exact Nat.mul_le_mul_left inc (by omega)



theorem ensureCapacity_ready (cfg : Config) (s : TcpSocket) (newptr : Nat) (mallocOk : Bool)
    (h : s.outOk cfg) (hinc : 0 < cfg.maxMessageLen) (hptr : s.outptr ≤ newptr)
    (hcap : newptr ≤ cfg.maxSendqLength) (hm : mallocOk = true ∨ newptr ≤ s.outbufsize) :
    ∃ s1, ensureCapacity cfg s newptr mallocOk = Ensure.ready s1 ∧ s1.outOk cfg ∧
      newptr ≤ s1.outbufsize ∧ s1.outptr = s.outptr ∧
      s1.outbuf.take s.outptr = s.outbuf.take s.outptr ∧
      s1.inbuf = s.inbuf ∧ s1.inptr = s.inptr ∧ s1.connecting = s.connecting := by
  obtain ⟨hlen, hle, hmax, hdvd⟩ := h
  unfold ensureCapacity
  by_cases hg : newptr > s.outbufsize
  · rw [if_pos hg]
    obtain ⟨r, k, hr, hk, hge, hup, _⟩ :=
      growLoop_spec cfg.maxMessageLen newptr hinc newptr s.outbufsize (by omega)
    have hdr : cfg.maxMessageLen ∣ r := by
      rw [hk]; exact Dvd.dvd.add hdvd (Dvd.intro_left k rfl)
    have hrcap : r ≤ cfg.maxSendqLength := by
      unfold Config.maxSendqLength at hcap ⊢
      exact multiple_le_of_lt _ r newptr 8 hdr (hup hg) hcap
    have hmt : mallocOk = true := by
      rcases hm with hm | hm
      · exact hm
      · omega
    have hsl : slice s.outbuf 0 s.outptr = some (s.outbuf.take s.outptr) := by
      unfold slice; rw [if_pos (by omega)]; simp
    simp only [hr, if_neg (Nat.not_lt.mpr hrcap), hmt, hsl, if_pos (show s.outptr ≤ r by omega)]
    refine ⟨_, rfl, ⟨?_, ?_, hrcap, hdr⟩, hge, rfl, ?_, rfl, rfl, rfl⟩
    · simp; omega
    · show s.outptr ≤ r; omega
    · show (s.outbuf.take s.outptr ++ _).take s.outptr = _
      rw [List.take_append_of_le_length (by simp; omega)]
      simp
  · rw [if_neg hg]
    exact ⟨s, rfl, ⟨hlen, hle, hmax, hdvd⟩, by omega, rfl, rfl, rfl, rfl, rfl⟩

theorem ensureCapacity_reject_cap (cfg : Config) (s : TcpSocket) (newptr : Nat) (mallocOk : Bool)
    (h : s.outOk cfg) (hinc : 0 < cfg.maxMessageLen) (hcap : cfg.maxSendqLength < newptr) :
    ensureCapacity cfg s newptr mallocOk = Ensure.reject := by
  obtain ⟨_, _, hmax, _⟩ := h
  unfold ensureCapacity
  rw [if_pos (show newptr > s.outbufsize by omega)]
  obtain ⟨r, k, hr, _, hge, _, _⟩ :=
    growLoop_spec cfg.maxMessageLen newptr hinc newptr s.outbufsize (by omega)
  simp only [hr, if_pos (show r > cfg.maxSendqLength by omega)]

theorem ensureCapacity_reject_malloc (cfg : Config) (s : TcpSocket) (newptr : Nat)
    (hinc : 0 < cfg.maxMessageLen) (hg : s.outbufsize < newptr) :
    ensureCapacity cfg s newptr false = Ensure.reject := by
  unfold ensureCapacity
  rw [if_pos hg]
  obtain ⟨r, k, hr, _, _, _, _⟩ :=
    growLoop_spec cfg.maxMessageLen newptr hinc newptr s.outbufsize (by omega)
  simp only [hr]
  split <;> simp


theorem shiftOut_spec (s : TcpSocket) (n : Int) (hlen : s.outptr ≤ s.outbuf.length)
    (hn : n ≤ s.outptr) :
    ∃ s1, shiftOut s n = some s1 ∧ s1.outptr = s.outptr - n.toNat ∧
      s1.outbuf.take s1.outptr = (s.outbuf.take s.outptr).drop n.toNat ∧
      s1.outbuf.length = s.outbuf.length ∧ s1.outbufsize = s.outbufsize ∧
      s1.inbuf = s.inbuf ∧ s1.inptr = s.inptr ∧ s1.connecting = s.connecting := by
  have hn' : n.toNat ≤ s.outptr := by omega
  obtain ⟨m1, hm1, hl1, ht1⟩ := memmove_take s.outbuf s.outptr n.toNat hn' hlen
  unfold shiftOut
  simp only [if_pos hn', hm1]
  exact ⟨_, rfl, rfl, ht1, hl1, rfl, rfl, rfl, rfl⟩

theorem flushNow_spec (s : TcpSocket) (n : Int) (hlen : s.outptr ≤ s.outbuf.length)
    (hn : n ≤ s.outptr) :
    ∃ r, flushNow s n = some r ∧ r.ret = true ∧ r.wrote = some (s.outbuf.take s.outptr) ∧
      r.smCalls = (if r.sock.outptr ≠ 0 then [SmCall.startNotifyWrite, SmCall.whack] else []) ∧
      r.sock.outptr = s.outptr - n.toNat ∧
      r.sock.outbuf.take r.sock.outptr = (s.outbuf.take s.outptr).drop n.toNat ∧
      r.sock.outbuf.length = s.outbuf.length ∧ r.sock.outbufsize = s.outbufsize ∧
      r.sock.inbuf = s.inbuf ∧ r.sock.inptr = s.inptr ∧ r.sock.connecting = s.connecting := by
  have hsl : slice s.outbuf 0 s.outptr = some (s.outbuf.take s.outptr) := by
    unfold slice; rw [if_pos (by omega)]; simp
  unfold flushNow
  simp only [hsl]
  by_cases hpos : n > 0
  · obtain ⟨s1, h1, hp, ht, hl, hb, hi, hq, hc⟩ := shiftOut_spec s n hlen hn
    simp only [if_pos hpos, h1]
    exact ⟨_, rfl, rfl, rfl, rfl, hp, ht, hl, hb, hi, hq, hc⟩
  · have h0 : n.toNat = 0 := by omega
    simp only [if_neg hpos]
    refine ⟨_, rfl, rfl, rfl, rfl, ?_, ?_, rfl, rfl, rfl, rfl, rfl⟩
    · simp [h0]
    · simp [h0]

theorem frame_length (msg : List Byte) : (frame msg).length = 5 + msg.length := by
  simp [frame, frameHeader]; omega

/-- An accepted message: the frame is appended behind the queued octets and,
when nothing was queued, offered to the socket at once. -/
theorem send_accept (cfg : Config) (s : TcpSocket) (msg : List Byte) (mallocOk : Bool) (n : Int)
    (h : s.outOk cfg) (hne : msg.length ≠ 0) (hmax : msg.length ≤ cfg.maxMessageLen)
    (hcap : s.outptr + 5 + msg.length ≤ cfg.maxSendqLength)
    (hm : mallocOk = true ∨ s.outptr + 5 + msg.length ≤ s.outbufsize)
    (hn : n ≤ s.outptr + 5 + msg.length) :
    ∃ r, TcpSocket.send cfg s msg mallocOk n = some r ∧ r.ret = true ∧ r.sock.outOk cfg ∧
      r.sock.inbuf = s.inbuf ∧ r.sock.inptr = s.inptr ∧ r.sock.connecting = s.connecting ∧
      (s.outptr ≠ 0 → r.wrote = none ∧ r.smCalls = [] ∧
        r.sock.outptr = s.outptr + 5 + msg.length ∧
        r.sock.outbuf.take r.sock.outptr = s.outbuf.take s.outptr ++ frame msg) ∧
      (s.outptr = 0 → r.wrote = some (frame msg) ∧
        r.smCalls = (if r.sock.outptr ≠ 0 then [SmCall.startNotifyWrite, SmCall.whack] else []) ∧
        r.sock.outptr = 5 + msg.length - n.toNat ∧
        r.sock.outbuf.take r.sock.outptr = (frame msg).drop n.toNat) := by
  have hinc : 0 < cfg.maxMessageLen := by omega
  obtain ⟨s1, he, hok1, hge, hp1, ht1, hi1, hq1, hc1⟩ :=
    ensureCapacity_ready cfg s (s.outptr + 5 + msg.length) mallocOk h hinc (by omega) hcap hm
  obtain ⟨hlen1, _, hmax1, hdvd1⟩ := hok1
  have hfl : (frameHeader msg.length ++ msg).length = 5 + msg.length := frame_length msg
  have hst := storeAll_spec (frameHeader msg.length ++ msg) s1.outbuf s1.outptr
    (by rw [hfl, hp1, hlen1]; omega)
  rw [hfl] at hst
  have hnp : s1.outptr + (5 + msg.length) = s.outptr + 5 + msg.length := by omega
  rw [hnp] at hst
  have htk : (s1.outbuf.take s1.outptr ++ (frameHeader msg.length ++ msg) ++
      s1.outbuf.drop (s.outptr + 5 + msg.length)).take (s.outptr + 5 + msg.length) =
      s.outbuf.take s.outptr ++ frame msg := by
    rw [List.take_append_of_le_length (by simp [hfl]; omega)]
    rw [List.take_of_length_le (by simp [hfl]; omega), hp1, ht1]
    rfl
  have hln : (s1.outbuf.take s1.outptr ++ (frameHeader msg.length ++ msg) ++
      s1.outbuf.drop (s.outptr + 5 + msg.length)).length = s1.outbufsize := by
    simp only [List.length_append, List.length_take, List.length_drop, hfl]
    omega
  unfold TcpSocket.send
  simp only [if_neg (Nat.not_lt.mpr hmax), if_neg hne, he, hst]
  by_cases hq : s.outptr ≠ 0
  · simp only [if_pos hq]
    refine ⟨_, rfl, rfl, ⟨hln, hge, hmax1, hdvd1⟩, hi1, hq1, hc1, ?_, ?_⟩
    · intro _
      exact ⟨rfl, rfl, rfl, htk⟩
    · intro h0; exact absurd h0 hq
  · simp only [if_neg hq]
    have h0 : s.outptr = 0 := by omega
    obtain ⟨r, hr, hret, hw, hsm, hp, ht, hl, hb, hi, hqq, hc⟩ :=
      flushNow_spec { s1 with
        outbuf := s1.outbuf.take s1.outptr ++ (frameHeader msg.length ++ msg) ++
          s1.outbuf.drop (s.outptr + 5 + msg.length)
        outptr := s.outptr + 5 + msg.length } n (by show _ ≤ _; rw [hln]; exact hge) hn
    simp only at hw hp ht hl hb hi hqq hc
    rw [htk] at hw ht
    rw [h0] at hw ht hp
    simp only [List.take_zero, List.nil_append, Nat.zero_add] at hw ht hp
    refine ⟨r, hr, hret, ⟨by rw [hl, hln, hb], ?_, by rw [hb]; exact hmax1, by rw [hb]; exact hdvd1⟩,
      by rw [hi, hi1], by rw [hqq, hq1], by rw [hc, hc1], ?_, ?_⟩
    · rw [hp, hb]; omega
    · intro hq2; exact absurd h0 hq2
    · intro _
      exact ⟨hw, hsm, hp, ht⟩

/-- A step inside a frame that neither completes it nor reaches the capacity. -/
theorem Acc.step_partial (cap : Nat) (h0 h1 h2 h3 h4 : Byte) (payload : List Byte)
    (ps : List (List Byte)) (hmark : h0.val = 0x17)
    (hL : payload.length = ((h3.val <<< 8) ||| h4.val))
    (done todo : List Byte) (b : Byte)
    (hsplit : done ++ b :: todo = h0 :: h1 :: h2 :: h3 :: h4 :: payload)
    (hcap : done.length + 1 < cap) (hpart : done.length + 1 < 5 + payload.length) :
    Acc.step cap { bytes := done, pl := if 5 ≤ done.length then payload.length + 5 else 0,
                   packets := ps } b =
      (true, { bytes := done ++ [b],
               pl := if 5 ≤ (done ++ [b]).length then payload.length + 5 else 0,
               packets := ps }) := by
  have hsplit' : (done ++ [b]) ++ todo = h0 :: h1 :: h2 :: h3 :: h4 :: payload := by
    simpa using hsplit
  have hbl : (done ++ [b]).length = done.length + 1 := by simp
  have hget : ∀ i, i < (done ++ [b]).length →
      (done ++ [b]).getD i 0 = (h0 :: h1 :: h2 :: h3 :: h4 :: payload).getD i 0 := by
    intro i hi
    rw [← hsplit', List.getD_eq_getElem?_getD, List.getD_eq_getElem?_getD,
      List.getElem?_append_left hi]
  have hfl : Acc.frameLength (done ++ [b]) (if 5 ≤ done.length then payload.length + 5 else 0) =
      some (if 5 ≤ (done ++ [b]).length then payload.length + 5 else 0) := by
    unfold Acc.frameLength
    rw [hbl]
    by_cases hd : 5 ≤ done.length
    · have : 5 ≤ done.length + 1 := by omega
      simp [hd, this]
    · by_cases hd1 : 5 ≤ done.length + 1
      · rw [hget 0 (by omega), hget 3 (by omega), hget 4 (by omega)]
        simp [hd, hd1, hmark, hL]
      · simp [hd, hd1]
  unfold Acc.step
  simp only [hfl]
  have hnc : ¬ (done ++ [b]).length ≥ cap := by rw [hbl]; omega
  simp only [if_neg hnc]
  unfold Acc.deliver
  by_cases h5 : 5 ≤ (done ++ [b]).length
  · simp only [if_pos h5]; rw [if_neg]; rintro ⟨_, h⟩; rw [hbl] at h; omega
  · simp only [if_neg h5]; rw [if_neg]; rintro ⟨h, _⟩; exact h rfl

/-- A frame that does not fit below the capacity makes the loop return false
without any dispatch. -/
theorem Acc.run_frame_overrun (cap : Nat) (h0 h1 h2 h3 h4 : Byte) (payload rest : List Byte)
    (ps : List (List Byte)) (hmark : h0.val = 0x17)
    (hL : payload.length = ((h3.val <<< 8) ||| h4.val))
    (hcap : cap ≤ 5 + payload.length) (todo : List Byte) :
    ∀ done : List Byte, done.length < cap →
      done ++ todo = h0 :: h1 :: h2 :: h3 :: h4 :: payload →
      (Acc.run cap (todo ++ rest)
          { bytes := done, pl := if 5 ≤ done.length then payload.length + 5 else 0,
            packets := ps }).1 = false ∧
      (Acc.run cap (todo ++ rest)
          { bytes := done, pl := if 5 ≤ done.length then payload.length + 5 else 0,
            packets := ps }).2.packets = ps := by
  induction todo with
  | nil =>
    intro done hlt hsplit
    have := congrArg List.length hsplit
    simp at this
    omega
  | cons b todo ih =>
    intro done hlt hsplit
    have hlen : done.length + (todo.length + 1) = payload.length + 5 := by
      have := congrArg List.length hsplit
      simpa using this
    show (match Acc.step cap _ b with
      | (false, a1) => (false, a1)
      | (true, a1) => Acc.run cap (todo ++ rest) a1).1 = false ∧
      (match Acc.step cap _ b with
      | (false, a1) => (false, a1)
      | (true, a1) => Acc.run cap (todo ++ rest) a1).2.packets = ps
    by_cases hc : done.length + 1 < cap
    · rw [Acc.step_partial cap h0 h1 h2 h3 h4 payload ps hmark hL done todo b hsplit hc (by omega)]
      exact ih (done ++ [b]) (by simpa using hc) (by simpa using hsplit)
    · have hge : (done ++ [b]).length ≥ cap := by simp; omega
      unfold Acc.step
      rw [if_pos hge]
      exact ⟨rfl, rfl⟩

/-- A whole frame fed to an empty accumulator is dispatched and leaves it empty. -/
theorem Acc.run_frame (cap : Nat) (h0 h1 h2 h3 h4 : Byte) (payload rest : List Byte)
    (ps : List (List Byte)) (hmark : h0.val = 0x17)
    (hL : payload.length = ((h3.val <<< 8) ||| h4.val)) (hcap : 5 + payload.length < cap) :
    Acc.run cap ((h0 :: h1 :: h2 :: h3 :: h4 :: payload) ++ rest)
        { bytes := [], pl := 0, packets := ps } =
      Acc.run cap rest { bytes := [], pl := 0, packets := ps ++ [payload] } := by
  have := Acc.run_frame_rest cap h0 h1 h2 h3 h4 payload rest ps hmark hL hcap
    (h0 :: h1 :: h2 :: h3 :: h4 :: payload) [] (by simp) (by simp)
  simpa using this

theorem frame_eq (payload : List Byte) :
    frame payload = (0x17 : Byte) :: 0x03 :: 0x03 :: toByte ((payload.length >>> 8) &&& 0xff) ::
      toByte (payload.length &&& 0xff) :: payload := rfl

theorem Acc.run_frames (cap : Nat) (rest : List Byte) (payloads : List (List Byte)) :
    ∀ ps : List (List Byte),
      (∀ p ∈ payloads, 5 + p.length < cap ∧ p.length < 65536) →
      Acc.run cap (frames payloads ++ rest) { bytes := [], pl := 0, packets := ps } =
        Acc.run cap rest { bytes := [], pl := 0, packets := ps ++ payloads } := by
  induction payloads with
  | nil => intro ps _; simp [frames]
  | cons p payloads ih =>
    intro ps h
    have hp := h p (List.mem_cons_self _ _)
    have hrest : ∀ q ∈ payloads, 5 + q.length < cap ∧ q.length < 65536 :=
      fun q hq => h q (List.mem_cons_of_mem _ hq)
    show Acc.run cap ((frame p ++ frames payloads) ++ rest) _ = _
    rw [List.append_assoc, frame_eq,
      Acc.run_frame cap _ _ _ _ _ p (frames payloads ++ rest) ps rfl
        (header_length p.length hp.2).symm hp.1,
      ih (ps ++ [p]) hrest]
    simp

theorem frames_length_ge (payloads : List (List Byte)) :
    ∀ p ∈ payloads, 5 + p.length ≤ (frames payloads).length := by
  induction payloads with
  | nil => intro p hp; simp at hp
  | cons q payloads ih =>
    intro p hp
    simp only [frames, List.length_append, frame_length]
    rcases List.mem_cons.mp hp with rfl | hp
    · omega
    · have := ih p hp; omega

/-- The receive method follows the loop on the sequence view. -/
theorem read_acc (cfg : Config) (s : TcpSocket) (n : Int) (buf : List Byte)
    (hlen : s.inbuf.length = cfg.inbufSize) (hp : s.inptr < cfg.inbufSize) (hn : 0 < n) :
    ∃ r, TcpSocket.notifyAvailableForRead cfg s n buf = some r ∧
      r.ret = (Acc.run cfg.inbufSize (buf.take n.toNat)
        { bytes := s.inbuf.take s.inptr, pl := 0, packets := [] }).1 ∧
      r.packets = (Acc.run cfg.inbufSize (buf.take n.toNat)
        { bytes := s.inbuf.take s.inptr, pl := 0, packets := [] }).2.packets ∧
      r.sock.inbuf.length = cfg.inbufSize ∧
      r.sock.outbuf = s.outbuf ∧ r.sock.outptr = s.outptr ∧ r.sock.outbufsize = s.outbufsize ∧
      r.sock.connecting = s.connecting ∧
      (r.ret = false → r.sock.inptr = s.inptr) ∧
      (r.ret = true → r.sock.inptr < cfg.inbufSize ∧
        r.sock.inbuf.take r.sock.inptr = (Acc.run cfg.inbufSize (buf.take n.toNat)
          { bytes := s.inbuf.take s.inptr, pl := 0, packets := [] }).2.bytes) := by
  obtain ⟨st1, hrun, hbytes, hlen1, hpk, hlt⟩ := recvLoop_acc cfg.inbufSize (buf.take n.toNat)
    { inbuf := s.inbuf, p := s.inptr, pl := 0, packets := [] } ⟨hlen, hp, Or.inl rfl⟩
  simp only [RecvState.acc] at hrun hbytes hpk hlt
  unfold TcpSocket.notifyAvailableForRead
  rw [if_neg (by omega), hrun]
  cases hflag : (Acc.run cfg.inbufSize (buf.take n.toNat)
      { bytes := s.inbuf.take s.inptr, pl := 0, packets := [] }).1 with
  | false =>
    refine ⟨_, rfl, rfl, hpk, hlen1, rfl, rfl, rfl, rfl, fun _ => rfl, ?_⟩
    intro hf; simp at hf
  | true =>
    refine ⟨_, rfl, rfl, hpk, hlen1, rfl, rfl, rfl, rfl, ?_, fun _ => ⟨hlt hflag, hbytes⟩⟩
    intro hf; simp at hf

theorem outputEmpty_outOk (cfg : Config) (s : TcpSocket) (h : s.outputEmpty) : s.outOk cfg := by
  obtain ⟨h1, h2, h3⟩ := h
  refine ⟨by rw [h1, h3]; rfl, by omega, by omega, ?_⟩
  rw [h3]; exact Nat.dvd_zero _

/-- The length field has sixteen bits: a length of 65536 is written as 0. -/
theorem frameHeader_wraps : frameHeader 65536 = frameHeader 0 := by decide

theorem fresh_outputEmpty (cfg : Config) (c : Bool) : (TcpSocket.fresh cfg c).outputEmpty :=
  ⟨rfl, rfl, rfl⟩

theorem fresh_inbuf_length (cfg : Config) (c : Bool) :
    (TcpSocket.fresh cfg c).inbuf.length = cfg.inbufSize := by
  simp [TcpSocket.fresh]

theorem frames_append (ps qs : List (List Byte)) : frames (ps ++ qs) = frames ps ++ frames qs := by
  induction ps with
  | nil => rfl
  | cons p ps ih =>
    show frame p ++ frames (ps ++ qs) = (frame p ++ frames ps) ++ frames qs
    rw [ih, List.append_assoc]

/-- Every packet a loop iteration dispatches is taken from the accumulated
octets behind the header, so it is shorter than the capacity less five. -/
theorem Acc.step_capacity (cap maxLen : Nat) (hcap : cap ≤ maxLen + 6) (a : Acc) (b : Byte)
    (h : ∀ q ∈ a.packets, q.length ≤ maxLen) :
    ∀ q ∈ (Acc.step cap a b).2.packets, q.length ≤ maxLen := by
  unfold Acc.step
  by_cases hc : (a.bytes ++ [b]).length ≥ cap
  · simp only [if_pos hc]; exact h
  · simp only [if_neg hc]
    cases hfl : Acc.frameLength (a.bytes ++ [b]) a.pl with
    | none => exact h
    | some pl =>
      simp only
      unfold Acc.deliver
      by_cases hd : pl ≠ 0 ∧ pl ≤ (a.bytes ++ [b]).length
      · simp only [if_pos hd]
        intro q hq
        rcases List.mem_append.mp hq with hq | hq
        · exact h q hq
        · rw [List.mem_singleton] at hq
          rw [hq, List.length_take, List.length_drop]
          omega
      · rw [if_neg hd]; exact h

theorem Acc.run_capacity (cap maxLen : Nat) (hcap : cap ≤ maxLen + 6) (bs : List Byte) :
    ∀ a : Acc, (∀ q ∈ a.packets, q.length ≤ maxLen) →
      ∀ q ∈ (Acc.run cap bs a).2.packets, q.length ≤ maxLen := by
  induction bs with
  | nil => intro a h; exact h
  | cons b bs ih =>
    intro a h
    have hs := Acc.step_capacity cap maxLen hcap a b h
    unfold Acc.run
    rcases hst : Acc.step cap a b with ⟨flag, a1⟩
    rw [hst] at hs
    cases flag with
    | false => exact hs
    | true => exact ih a1 hs

/-- With an accumulator of at most `ZT_SOCKET_MAX_MESSAGE_LEN + 6` octets every
range handed to `Buffer<ZT_SOCKET_MAX_MESSAGE_LEN>` at line 146 is within the
capacity of that buffer. -/
theorem read_within_capacity (cfg : Config) (s : TcpSocket) (n : Int) (buf : List Byte)
    (hcfg : cfg.inbufSize ≤ cfg.maxMessageLen + 6)
    (hlen : s.inbuf.length = cfg.inbufSize) (hp : s.inptr < cfg.inbufSize) (r : ReadResult)
    (hr : TcpSocket.notifyAvailableForRead cfg s n buf = some r) :
    ∀ q ∈ r.packets, q.length ≤ cfg.maxMessageLen := by
  by_cases hn : 0 < n
  · obtain ⟨r1, hr1, _, hpk, _⟩ := read_acc cfg s n buf hlen hp hn
    rw [hr] at hr1; cases hr1
    rw [hpk]
    exact Acc.run_capacity cfg.inbufSize cfg.maxMessageLen hcfg _ _ (by intro q hq; simp at hq)
  · unfold TcpSocket.notifyAvailableForRead at hr
    rw [if_pos (by omega)] at hr
    cases hr
    intro q hq; simp at hq

/-- Frames that fit below the capacity followed by one that reaches it: the
fitting ones are dispatched, then the read fails. -/
theorem read_frames_overrun (cfg : Config) (s : TcpSocket) (payloads : List (List Byte))
    (big : List Byte)
    (hlen : s.inbuf.length = cfg.inbufSize) (hin : s.inptr = 0) (hcap : 0 < cfg.inbufSize)
    (hfit : ∀ p ∈ payloads, 5 + p.length < cfg.inbufSize ∧ p.length < 65536)
    (h16 : big.length < 65536) (hbig : cfg.inbufSize ≤ 5 + big.length) :
    ∃ r, TcpSocket.notifyAvailableForRead cfg s (frames (payloads ++ [big])).length
        (frames (payloads ++ [big])) = some r ∧
      r.ret = false ∧ r.packets = payloads := by
  have hfr : frames (payloads ++ [big]) = frames payloads ++ frame big := by
    rw [frames_append]
    show frames payloads ++ (frame big ++ []) = _
    rw [List.append_nil]
  have hpos : 0 < (frames (payloads ++ [big])).length := by
    rw [hfr, List.length_append, frame_length]; omega
  obtain ⟨r, hr, hret, hpk, _⟩ :=
    read_acc cfg s (frames (payloads ++ [big])).length (frames (payloads ++ [big])) hlen
      (by omega) (by omega)
  have h := Acc.run_frame_overrun cfg.inbufSize 0x17 0x03 0x03
    (toByte ((big.length >>> 8) &&& 0xff)) (toByte (big.length &&& 0xff)) big [] payloads
    rfl (header_length big.length h16).symm hbig (frame big) [] (by simpa using hcap) rfl
  simp only [List.append_nil, List.length_nil] at h
  have hrun := Acc.run_frames cfg.inbufSize (frame big) payloads [] hfit
  simp only [List.nil_append] at hrun
  have htk : (frames (payloads ++ [big])).take
      ((frames (payloads ++ [big])).length : Int).toNat = frames (payloads ++ [big]) := by simp
  rw [htk, hin, hfr] at hret hpk
  simp only [List.take_zero] at hret hpk
  rw [hrun] at hret hpk
  exact ⟨r, hr, hret.trans h.1, hpk.trans h.2⟩

/-- C2, amended: frames that arrive together in one read on an empty
accumulator, each with a payload of at most `ZT_SOCKET_MAX_MESSAGE_LEN` octets
and shorter than the accumulator, are dispatched one packet per frame, in
order, each equal to its payload and within the capacity of the buffer it is
copied into, and the accumulator ends empty. -/
theorem read_back_to_back (cfg : Config) (s : TcpSocket) (payloads : List (List Byte))
    (hlen : s.inbuf.length = cfg.inbufSize) (hin : s.inptr = 0) (hne : payloads ≠ [])
    (hmax : ∀ p ∈ payloads, p.length ≤ cfg.maxMessageLen)
    (hfit : ∀ p ∈ payloads, 5 + p.length < cfg.inbufSize)
    (hread : (frames payloads).length ≤ 65536) :
    ∃ r, TcpSocket.notifyAvailableForRead cfg s (frames payloads).length (frames payloads) =
        some r ∧
      r.ret = true ∧ r.packets = payloads ∧
      (∀ q ∈ r.packets, q.length ≤ cfg.maxMessageLen) ∧ r.sock.inptr = 0 := by
  obtain ⟨p0, hp0⟩ := List.exists_mem_of_ne_nil payloads hne
  have hpos := frames_length_ge payloads p0 hp0
  have hcap := hfit p0 hp0
  obtain ⟨r, hr, hret, hpk, _, _, _, _, _, _, hok⟩ :=
    read_acc cfg s (frames payloads).length (frames payloads) hlen (by omega) (by omega)
  have hrun : Acc.run cfg.inbufSize ((frames payloads).take ((frames payloads).length : Int).toNat)
      { bytes := s.inbuf.take s.inptr, pl := 0, packets := [] } =
      (true, { bytes := [], pl := 0, packets := payloads }) := by
    have := Acc.run_frames cfg.inbufSize [] payloads [] (by
      intro p hp
      have := frames_length_ge payloads p hp
      exact ⟨hfit p hp, by omega⟩)
    simpa [hin, Acc.run] using this
  rw [hrun] at hret hpk hok
  refine ⟨r, hr, hret, hpk, by rw [hpk]; exact hmax, ?_⟩
  have h := (hok hret).2
  have hl := congrArg List.length h
  simp only [List.length_take, List.length_nil] at hl
  have := (hok hret).1
  omega

theorem read_back_to_back_witness :
    ∃ r, TcpSocket.notifyAvailableForRead Config.example2048
        (TcpSocket.fresh Config.example2048 false) (frames [[1, 2], [], [3]]).length
        (frames [[1, 2], [], [3]]) = some r ∧
      r.ret = true ∧ r.packets = [[1, 2], [], [3]] ∧
      (∀ q ∈ r.packets, q.length ≤ Config.example2048.maxMessageLen) ∧ r.sock.inptr = 0 :=
  read_back_to_back Config.example2048 (TcpSocket.fresh Config.example2048 false)
    [[1, 2], [], [3]] (fresh_inbuf_length _ _) rfl (by decide) (by decide) (by decide)
    (by decide)

/-- C2 as stated fails for a frame that is as long as the accumulator: with
both constants 2048, a frame with 2 payload octets followed by a frame with
2043 payload octets (2048 octets of frame, a payload `send` accepts) arrive in
one read on an empty accumulator; the first is dispatched, the second is
refused and the read fails. -/
theorem back_to_back_full_frame_refused :
    ∃ r, TcpSocket.notifyAvailableForRead Config.example2048
        (TcpSocket.fresh Config.example2048 false)
        (frames [[1, 2], List.replicate 2043 0]).length
        (frames [[1, 2], List.replicate 2043 0]) = some r ∧
      (∀ p ∈ [[1, 2], List.replicate 2043 (0 : Byte)],
        p.length ≤ Config.example2048.maxMessageLen) ∧
      (frames [[1, 2], List.replicate 2043 0]).length ≤ 65536 ∧
      r.ret = false ∧ r.packets = [[1, 2]] := by
  have hL : (List.replicate 2043 (0 : Byte)).length = 2043 := List.length_replicate _ _
  obtain ⟨r, hr, hret, hpk⟩ :=
    read_frames_overrun Config.example2048 (TcpSocket.fresh Config.example2048 false)
      [[1, 2]] (List.replicate 2043 0) (fresh_inbuf_length _ _) rfl (by decide) (by decide)
      (by rw [hL]; decide) (by rw [hL]; decide)
  have hl : ([[1, 2]] ++ [List.replicate 2043 (0 : Byte)]) = [[1, 2], List.replicate 2043 0] := rfl
  rw [hl] at hr
  refine ⟨r, hr, ?_, ?_, hret, hpk⟩
  · intro p hp
    rcases List.mem_cons.mp hp with hp | hp
    · rw [hp]; decide
    · rw [List.mem_singleton] at hp; rw [hp, hL]; decide
  · show (frame [1, 2] ++ (frame (List.replicate 2043 0) ++ [])).length ≤ 65536
    rw [List.append_nil, List.length_append, frame_length, frame_length, hL]
    decide

/-- One iteration never removes a dispatched packet, and an iteration that
goes on without dispatching has only appended the octet, below the capacity. -/
theorem Acc.step_packets (cap : Nat) (a : Acc) (b : Byte) :
    a.packets.length ≤ (Acc.step cap a b).2.packets.length ∧
    ((Acc.step cap a b).1 = true →
      (Acc.step cap a b).2.packets.length = a.packets.length →
      (Acc.step cap a b).2.bytes = a.bytes ++ [b] ∧ (a.bytes ++ [b]).length < cap) := by
  unfold Acc.step
  by_cases hc : (a.bytes ++ [b]).length ≥ cap
  · simp only [if_pos hc]
    exact ⟨le_refl _, fun h => by simp at h⟩
  · simp only [if_neg hc]
    cases hfl : Acc.frameLength (a.bytes ++ [b]) a.pl with
    | none => exact ⟨le_refl _, fun h => by simp at h⟩
    | some pl =>
      simp only
      unfold Acc.deliver
      by_cases hd : pl ≠ 0 ∧ pl ≤ (a.bytes ++ [b]).length
      · simp only [if_pos hd]
        refine ⟨by simp, fun _ h => ?_⟩
        simp at h
      · rw [if_neg hd]
        exact ⟨le_refl _, fun _ _ => ⟨rfl, by omega⟩⟩

theorem Acc.run_packets (cap : Nat) (bs : List Byte) :
    ∀ a : Acc, a.packets.length ≤ (Acc.run cap bs a).2.packets.length ∧
      ((Acc.run cap bs a).1 = true →
        (Acc.run cap bs a).2.packets.length = a.packets.length →
        (Acc.run cap bs a).2.bytes = a.bytes ++ bs ∧
          (bs ≠ [] → (a.bytes ++ bs).length < cap)) := by
  induction bs with
  | nil => intro a; exact ⟨le_refl _, fun _ _ => ⟨by simp [Acc.run], fun h => absurd rfl h⟩⟩
  | cons b bs ih =>
    intro a
    obtain ⟨hmono, hstep⟩ := Acc.step_packets cap a b
    unfold Acc.run
    rcases hs : Acc.step cap a b with ⟨flag, a1⟩
    rw [hs] at hmono hstep
    cases flag with
    | false => exact ⟨hmono, fun h => by simp at h⟩
    | true =>
      obtain ⟨hmono1, hrun1⟩ := ih a1
      simp only at hmono hstep ⊢
      refine ⟨le_trans hmono hmono1, fun hflag heq => ?_⟩
      have heq1 : a1.packets.length = a.packets.length := by omega
      obtain ⟨hb1, hlt1⟩ := hstep trivial heq1
      obtain ⟨hb2, hlt2⟩ := hrun1 hflag (by omega)
      rw [hb1] at hb2 hlt2
      refine ⟨by rw [hb2]; simp, fun _ => ?_⟩
      cases bs with
      | nil => simpa using hlt1
      | cons c bs => simpa using hlt2 (by simp)

/-- C7: from any state whose cursor is inside the accumulator and for any
chunk of 1 to 65536 octets, `notifyAvailableForRead` makes no access outside
the accumulator (the embedding yields a result), returns failure when the
chunk brings the accumulated octets up to the capacity without a frame having
been dispatched, and after a successful call the stored cursor is below the
capacity. -/
theorem read_stays_in_accumulator (cfg : Config) (s : TcpSocket) (n : Int) (buf : List Byte)
    (hlen : s.inbuf.length = cfg.inbufSize) (hp : s.inptr < cfg.inbufSize)
    (h1 : 1 ≤ n) (h2 : n ≤ 65536) (hbuf : buf.length = 65536) :
    ∃ r, TcpSocket.notifyAvailableForRead cfg s n buf = some r ∧
      r.sock.inbuf.length = cfg.inbufSize ∧
      ((cfg.inbufSize : Int) ≤ s.inptr + n → r.packets = [] → r.ret = false) ∧
      (r.ret = true → r.sock.inptr < cfg.inbufSize ∧ r.sock.inptr ≤ cfg.inbufSize) := by
  obtain ⟨r, hr, hret, hpk, hl, _, _, _, _, _, hok⟩ := read_acc cfg s n buf hlen hp (by omega)
  refine ⟨r, hr, hl, ?_, fun h => ⟨(hok h).1, Nat.le_of_lt (hok h).1⟩⟩
  intro hover hnone
  cases hflag : r.ret with
  | false => rfl
  | true =>
    exfalso
    obtain ⟨_, hrun⟩ := Acc.run_packets cfg.inbufSize (buf.take n.toNat)
      { bytes := s.inbuf.take s.inptr, pl := 0, packets := [] }
    rw [← hret, ← hpk, hnone] at hrun
    have hne : buf.take n.toNat ≠ [] := by
      intro h
      have := congrArg List.length h
      simp only [List.length_take, List.length_nil, hbuf] at this
      omega
    have := (hrun hflag rfl).2 hne
    simp only [List.length_append, List.length_take, hbuf, hlen] at this
    omega

theorem read_stays_in_accumulator_witness :
    ∃ r, TcpSocket.notifyAvailableForRead Config.example2048
        (TcpSocket.fresh Config.example2048 false) 65536 (List.replicate 65536 0x17) = some r ∧
      r.sock.inbuf.length = Config.example2048.inbufSize ∧
      ((Config.example2048.inbufSize : Int) ≤
          (TcpSocket.fresh Config.example2048 false).inptr + 65536 →
        r.packets = [] → r.ret = false) ∧
      (r.ret = true → r.sock.inptr < Config.example2048.inbufSize ∧
        r.sock.inptr ≤ Config.example2048.inbufSize) :=
  read_stays_in_accumulator Config.example2048 (TcpSocket.fresh Config.example2048 false) 65536
    (List.replicate 65536 0x17) (fresh_inbuf_length _ _) (by decide) (by decide) (by decide)
    (List.length_replicate _ _)

/-- Every outcome of `send` in a consistent state: it yields a result, keeps
the state consistent, and returns false exactly in the three rejection cases. -/
theorem send_total (cfg : Config) (s : TcpSocket) (msg : List Byte) (mallocOk : Bool) (n : Int)
    (h : s.outOk cfg) (hn : n ≤ s.outptr + 5 + msg.length) :
    ∃ r, TcpSocket.send cfg s msg mallocOk n = some r ∧ r.sock.outOk cfg ∧
      (r.ret = false ↔
        (msg.length > cfg.maxMessageLen ∨
          (msg.length ≠ 0 ∧ (s.outptr + 5 + msg.length > cfg.maxSendqLength ∨
            (mallocOk = false ∧ s.outptr + 5 + msg.length > s.outbufsize))))) := by
  by_cases hbig : msg.length > cfg.maxMessageLen
  · refine ⟨{ ret := false, sock := s, wrote := none, smCalls := [] }, ?_, h, ?_⟩
    · unfold TcpSocket.send; simp only [if_pos hbig]
    · simp [hbig]
  · by_cases hz : msg.length = 0
    · refine ⟨{ ret := true, sock := s, wrote := none, smCalls := [] }, ?_, h, ?_⟩
      · unfold TcpSocket.send; simp only [if_neg hbig, if_pos hz]
      · simp [hbig, hz]
    · have hinc : 0 < cfg.maxMessageLen := by omega
      by_cases hcap : s.outptr + 5 + msg.length > cfg.maxSendqLength
      · refine ⟨{ ret := false, sock := s, wrote := none, smCalls := [] }, ?_, h, ?_⟩
        · unfold TcpSocket.send
          simp only [if_neg hbig, if_neg hz,
            ensureCapacity_reject_cap cfg s _ mallocOk h hinc hcap]
        · simp [hz, hcap]
      · by_cases hm : mallocOk = false ∧ s.outptr + 5 + msg.length > s.outbufsize
        · refine ⟨{ ret := false, sock := s, wrote := none, smCalls := [] }, ?_, h, ?_⟩
          · unfold TcpSocket.send
            rw [hm.1]
            simp only [if_neg hbig, if_neg hz, ensureCapacity_reject_malloc cfg s _ hinc hm.2]
          · simp [hz, hm]
        · have hm' : mallocOk = true ∨ s.outptr + 5 + msg.length ≤ s.outbufsize := by
            cases mallocOk with
            | true => exact Or.inl rfl
            | false => right; by_contra hc; exact hm ⟨rfl, by omega⟩
          obtain ⟨r, hr, hret, hok, _⟩ :=
            send_accept cfg s msg mallocOk n h hz (by omega) (by omega) hm' hn
          refine ⟨r, hr, hok, ?_⟩
          rw [hret]
          constructor
          · intro hf; simp at hf
          · rintro (h1 | ⟨_, h2 | h3⟩)
            · exact absurd h1 hbig
            · exact absurd h2 hcap
            · exact absurd h3 hm

theorem read_keeps_output (cfg : Config) (s : TcpSocket) (n : Int) (buf : List Byte)
    (r : ReadResult) (h : TcpSocket.notifyAvailableForRead cfg s n buf = some r) :
    r.sock.outbuf = s.outbuf ∧ r.sock.outptr = s.outptr ∧ r.sock.outbufsize = s.outbufsize := by
  unfold TcpSocket.notifyAvailableForRead at h
  split at h
  · cases h; exact ⟨rfl, rfl, rfl⟩
  · split at h
    · cases h
    · cases h; exact ⟨rfl, rfl, rfl⟩
    · cases h; exact ⟨rfl, rfl, rfl⟩

/-- Every outcome of `notifyAvailableForWrite` in a consistent state when the
socket reports at most the octets it was offered. -/
theorem write_total (cfg : Config) (s : TcpSocket) (n : Int) (errno : Errno)
    (h : s.outOk cfg) (hn : n ≤ s.outptr) :
    ∃ r, TcpSocket.notifyAvailableForWrite s n errno = some r ∧ r.sock.outOk cfg := by
  obtain ⟨hlen, hle, hmax, hdvd⟩ := h
  have hsl : slice s.outbuf 0 s.outptr = some (s.outbuf.take s.outptr) := by
    unfold slice; rw [if_pos (by omega)]; simp
  unfold TcpSocket.notifyAvailableForWrite
  simp only [hsl]
  by_cases hq : s.outptr ≠ 0
  · simp only [if_pos hq]
    by_cases hneg : n < 0
    · simp only [if_pos hneg]
      by_cases hf : errno.fatal = true
      · simp only [if_pos hf]; exact ⟨_, rfl, hlen, hle, hmax, hdvd⟩
      · simp only [if_neg hf]; exact ⟨_, rfl, hlen, hle, hmax, hdvd⟩
    · simp only [if_neg hneg]
      by_cases hpos : n > 0
      · obtain ⟨s1, h1, hp, _, hl, hb, _⟩ :=
          shiftOut_spec { s with connecting := false } n (by show s.outptr ≤ s.outbuf.length; omega) hn
        simp only [if_pos hpos, h1]
        refine ⟨_, rfl, ?_, ?_, ?_, ?_⟩
        · show s1.outbuf.length = s1.outbufsize; rw [hl, hb]; exact hlen
        · show s1.outptr ≤ s1.outbufsize; rw [hp, hb]; show s.outptr - _ ≤ s.outbufsize; omega
        · show s1.outbufsize ≤ _; rw [hb]; exact hmax
        · show _ ∣ s1.outbufsize; rw [hb]; exact hdvd
      · simp only [if_neg hpos]; exact ⟨_, rfl, hlen, hle, hmax, hdvd⟩
  · simp only [if_neg hq]; exact ⟨_, rfl, hlen, hle, hmax, hdvd⟩

theorem reachable_outOk (cfg : Config) (s : TcpSocket) (h : Reachable cfg s) : s.outOk cfg := by
  induction h with
  | init s h0 => exact outputEmpty_outOk cfg s h0
  | send s msg mallocOk n r _ hn hr ih =>
    obtain ⟨r1, hr1, hok, _⟩ := send_total cfg s msg mallocOk n ih hn
    rw [hr] at hr1; cases hr1; exact hok
  | write s n errno r _ hn hr ih =>
    obtain ⟨r1, hr1, hok⟩ := write_total cfg s n errno ih hn
    rw [hr] at hr1; cases hr1; exact hok
  | read s n buf r _ hr ih =>
    obtain ⟨h1, h2, h3⟩ := read_keeps_output cfg s n buf r hr
    obtain ⟨hlen, hle, hmax, hdvd⟩ := ih
    exact ⟨by rw [h1, h3]; exact hlen, by rw [h2, h3]; exact hle, by rw [h3]; exact hmax,
      by rw [h3]; exact hdvd⟩

/-- C4: in a state reachable from an empty output queue, with allocation
succeeding, `send` returns false exactly when the payload is longer than
ZT_SOCKET_MAX_MESSAGE_LEN, or it is non-empty and `_outptr + 5 + msglen`
exceeds 8 * ZT_SOCKET_MAX_MESSAGE_LEN; in every other case it returns true. -/
theorem send_rejects_exactly (cfg : Config) (s : TcpSocket) (msg : List Byte) (n : Int)
    (hs : Reachable cfg s) (hn : n ≤ s.outptr + 5 + msg.length) :
    ∃ r, TcpSocket.send cfg s msg true n = some r ∧
      (r.ret = false ↔
        (msg.length > cfg.maxMessageLen ∨
          (msg.length ≠ 0 ∧ s.outptr + 5 + msg.length > 8 * cfg.maxMessageLen))) ∧
      (r.ret = true ↔
        ¬ (msg.length > cfg.maxMessageLen ∨
          (msg.length ≠ 0 ∧ s.outptr + 5 + msg.length > 8 * cfg.maxMessageLen))) := by
  obtain ⟨r, hr, _, hiff⟩ := send_total cfg s msg true n (reachable_outOk cfg s hs) hn
  have hiff' : r.ret = false ↔
      (msg.length > cfg.maxMessageLen ∨
        (msg.length ≠ 0 ∧ s.outptr + 5 + msg.length > 8 * cfg.maxMessageLen)) := by
    rw [hiff]
    unfold Config.maxSendqLength
    simp only [Bool.true_eq_false, false_and, or_false, Nat.mul_comm]
  refine ⟨r, hr, hiff', ?_⟩
  rw [← hiff']
  simp

theorem send_rejects_exactly_witness :
    ∃ r, TcpSocket.send Config.example2048 (TcpSocket.fresh Config.example2048 false)
        [1, 2, 3] true 8 = some r ∧
      (r.ret = false ↔
        (([1, 2, 3] : List Byte).length > Config.example2048.maxMessageLen ∨
          (([1, 2, 3] : List Byte).length ≠ 0 ∧
            (TcpSocket.fresh Config.example2048 false).outptr + 5 + ([1, 2, 3] : List Byte).length >
              8 * Config.example2048.maxMessageLen))) ∧
      (r.ret = true ↔
        ¬ (([1, 2, 3] : List Byte).length > Config.example2048.maxMessageLen ∨
          (([1, 2, 3] : List Byte).length ≠ 0 ∧
            (TcpSocket.fresh Config.example2048 false).outptr + 5 + ([1, 2, 3] : List Byte).length >
              8 * Config.example2048.maxMessageLen))) :=
  send_rejects_exactly Config.example2048 (TcpSocket.fresh Config.example2048 false) [1, 2, 3] 8
    (Reachable.init _ (fresh_outputEmpty _ _)) (by decide)

theorem flushNow_ret (s : TcpSocket) (n : Int) (r : SendResult) (h : flushNow s n = some r) :
    r.ret = true := by
  unfold flushNow at h
  split at h
  · cases h
  · split at h
    · cases h
    · cases h; rfl

/-- C5: whenever `send` returns false, and also when the payload is empty, the
state (buffer octets, write cursor, capacity and all other members) is exactly
as before, `::send` was not called and no SocketManager call was made. -/
theorem send_rejected_unchanged (cfg : Config) (s : TcpSocket) (msg : List Byte)
    (mallocOk : Bool) (n : Int) (r : SendResult)
    (h : TcpSocket.send cfg s msg mallocOk n = some r)
    (hrej : r.ret = false ∨ msg.length = 0) :
    r.sock = s ∧ r.wrote = none ∧ r.smCalls = [] := by
  unfold TcpSocket.send at h
  simp only at h
  split at h
  · cases h; exact ⟨rfl, rfl, rfl⟩
  · split at h
    · cases h; exact ⟨rfl, rfl, rfl⟩
    · rename_i hz
      have hret : r.ret = false := by
        rcases hrej with h1 | h1
        · exact h1
        · exact absurd h1 hz
      split at h
      · cases h
      · cases h; exact ⟨rfl, rfl, rfl⟩
      · split at h
        · cases h
        · split at h
          · cases h; simp at hret
          · have := flushNow_ret _ _ _ h
            rw [this] at hret; simp at hret

theorem send_oversized (cfg : Config) (s : TcpSocket) (msg : List Byte) (mallocOk : Bool)
    (n : Int) (h : msg.length > cfg.maxMessageLen) :
    TcpSocket.send cfg s msg mallocOk n =
      some { ret := false, sock := s, wrote := none, smCalls := [] } := by
  unfold TcpSocket.send
  simp only [if_pos h]

theorem send_rejected_unchanged_witness :
    TcpSocket.send Config.example2048 (TcpSocket.fresh Config.example2048 false)
        (List.replicate 2049 0) true 0 =
      some { ret := false, sock := TcpSocket.fresh Config.example2048 false, wrote := none,
             smCalls := [] } ∧
    (({ ret := false, sock := TcpSocket.fresh Config.example2048 false, wrote := none,
        smCalls := [] } : SendResult).sock = TcpSocket.fresh Config.example2048 false ∧
     ({ ret := false, sock := TcpSocket.fresh Config.example2048 false, wrote := none,
        smCalls := [] } : SendResult).wrote = none ∧
     ({ ret := false, sock := TcpSocket.fresh Config.example2048 false, wrote := none,
        smCalls := [] } : SendResult).smCalls = []) :=
  ⟨send_oversized _ _ _ _ _ (by rw [List.length_replicate]; decide),
   send_rejected_unchanged Config.example2048 (TcpSocket.fresh Config.example2048 false)
    (List.replicate 2049 0) true 0 _
    (send_oversized _ _ _ _ _ (by rw [List.length_replicate]; decide)) (Or.inl rfl)⟩

/-- C6: in every state reached from an empty channel by `send`,
`notifyAvailableForWrite` and `notifyAvailableForRead` calls whose socket
writes report at most the octets offered, `_outptr ≤ _outbufsize ≤
8 * ZT_SOCKET_MAX_MESSAGE_LEN`, the capacity is a multiple of
ZT_SOCKET_MAX_MESSAGE_LEN and is the size of the block, and a further `send`
stores every octet inside the block (the embedding yields a result). -/
theorem output_queue_bounded (cfg : Config) (s : TcpSocket) (hs : Reachable cfg s) :
    s.outptr ≤ s.outbufsize ∧ s.outbufsize ≤ 8 * cfg.maxMessageLen ∧
    cfg.maxMessageLen ∣ s.outbufsize ∧ s.outbuf.length = s.outbufsize ∧
    ∀ (msg : List Byte) (mallocOk : Bool) (n : Int), n ≤ s.outptr + 5 + msg.length →
      ∃ r, TcpSocket.send cfg s msg mallocOk n = some r ∧
        r.sock.outptr ≤ r.sock.outbufsize ∧ r.sock.outbuf.length = r.sock.outbufsize := by
  have hok := reachable_outOk cfg s hs
  obtain ⟨hlen, hle, hmax, hdvd⟩ := hok
  refine ⟨hle, by unfold Config.maxSendqLength at hmax; omega, hdvd, hlen, ?_⟩
  intro msg mallocOk n hn
  obtain ⟨r, hr, hok1, _⟩ := send_total cfg s msg mallocOk n ⟨hlen, hle, hmax, hdvd⟩ hn
  exact ⟨r, hr, hok1.2.1, hok1.1⟩

theorem output_queue_bounded_witness :
    (TcpSocket.fresh Config.example2048 false).outptr ≤
      (TcpSocket.fresh Config.example2048 false).outbufsize ∧
    (TcpSocket.fresh Config.example2048 false).outbufsize ≤
      8 * Config.example2048.maxMessageLen ∧
    Config.example2048.maxMessageLen ∣ (TcpSocket.fresh Config.example2048 false).outbufsize ∧
    (TcpSocket.fresh Config.example2048 false).outbuf.length =
      (TcpSocket.fresh Config.example2048 false).outbufsize ∧
    ∀ (msg : List Byte) (mallocOk : Bool) (n : Int),
      n ≤ (TcpSocket.fresh Config.example2048 false).outptr + 5 + msg.length →
      ∃ r, TcpSocket.send Config.example2048 (TcpSocket.fresh Config.example2048 false)
          msg mallocOk n = some r ∧
        r.sock.outptr ≤ r.sock.outbufsize ∧ r.sock.outbuf.length = r.sock.outbufsize :=
  output_queue_bounded Config.example2048 (TcpSocket.fresh Config.example2048 false)
    (Reachable.init _ (fresh_outputEmpty _ _))

/-- C8: the first transport call of `Peer::send` goes to the IPv6 address when
the IPv6 path is active, or when no IPv4 address is known and an IPv6 address
is; otherwise to the IPv4 address when one is known; with neither address
known no transport call is made and `send` returns false. -/
theorem send_path_preference (k : PeerConstants) (sm : List InetAddress → InetAddress → Bool)
    (self : Peer) (now : Nat) :
    ((self.ipv6p.isActive k now = true ∨
        (self.ipv4p.addr.toBool = false ∧ self.ipv6p.addr.toBool = true)) →
      (Peer.send k sm self now).calls.head? = some self.ipv6p.addr) ∧
    (¬ (self.ipv6p.isActive k now = true ∨
        (self.ipv4p.addr.toBool = false ∧ self.ipv6p.addr.toBool = true)) →
      self.ipv4p.addr.toBool = true →
      (Peer.send k sm self now).calls.head? = some self.ipv4p.addr) ∧
    (self.ipv4p.addr.toBool = false → self.ipv6p.addr.toBool = false →
      (Peer.send k sm self now).calls = [] ∧ (Peer.send k sm self now).ret = false) := by
  refine ⟨?_, ?_, ?_⟩
  · intro h
    have hc : (self.ipv6p.isActive k now || (!self.ipv4p.addr.toBool && self.ipv6p.addr.toBool))
        = true := by
      rcases h with h | ⟨h1, h2⟩
      · simp [h]
      · simp [h1, h2]
    unfold Peer.send
    rw [if_pos hc]
    by_cases hs : sm [] self.ipv6p.addr = true
    · rw [if_pos hs]; rfl
    · rw [if_neg hs]
      unfold Peer.sendV4
      split
      · split <;> rfl
      · rfl
  · intro h h4
    have hc : ¬ ((self.ipv6p.isActive k now ||
        (!self.ipv4p.addr.toBool && self.ipv6p.addr.toBool)) = true) := by
      intro hc
      apply h
      simp only [Bool.or_eq_true, Bool.and_eq_true, Bool.not_eq_true'] at hc
      exact hc
    unfold Peer.send
    rw [if_neg hc]
    unfold Peer.sendV4
    rw [if_pos h4]
    split <;> rfl
  · intro h4 h6
    have hc : ¬ ((self.ipv6p.isActive k now ||
        (!self.ipv4p.addr.toBool && self.ipv6p.addr.toBool)) = true) := by
      simp [WanPath.isActive, h4, h6]
    unfold Peer.send
    rw [if_neg hc]
    unfold Peer.sendV4
    rw [if_neg (by simp [h4])]
    exact ⟨rfl, rfl⟩

theorem send_path_preference_witness :
    (Peer.send PeerConstants.example smV4Only Peer.exampleDual 100).calls.head? =
      some Peer.exampleDual.ipv6p.addr :=
  (send_path_preference PeerConstants.example smV4Only Peer.exampleDual 100).1
    (Or.inl (by decide))

theorem isV6_not_isV4 (a : InetAddress) (h : a.isV6 = true) : a.isV4 = false := by
  unfold InetAddress.isV6 at h
  unfold InetAddress.isV4
  cases hA : a.addressType <;> simp_all

theorem onReceive_paths (k : PeerConstants) (self : Peer) (remoteAddr : InetAddress)
    (hops : Nat) (verb : Verb) (now : Nat) :
    (Peer.onReceive k self remoteAddr hops verb now).peer.ipv4p =
      (if hops = 0 then Peer.onDirect k self remoteAddr now
        else { peer := self, announceCalls := 0 }).peer.ipv4p ∧
    (Peer.onReceive k self remoteAddr hops verb now).peer.ipv6p =
      (if hops = 0 then Peer.onDirect k self remoteAddr now
        else { peer := self, announceCalls := 0 }).peer.ipv6p := by
  unfold Peer.onReceive
  cases verb <;> exact ⟨rfl, rfl⟩

theorem onDirect_v4 (k : PeerConstants) (self : Peer) (remoteAddr : InetAddress) (now : Nat)
    (h : remoteAddr.isV4 = true) :
    (Peer.onDirect k self remoteAddr now).peer.ipv4p =
      (if self.ipv4p.fixed = false then
        { self.ipv4p with lastReceive := now, addr := remoteAddr }
      else { self.ipv4p with lastReceive := now }) ∧
    (Peer.onDirect k self remoteAddr now).peer.ipv6p = self.ipv6p := by
  unfold Peer.onDirect
  simp only [h, if_true]
  cases hf : self.ipv4p.fixed <;> split <;> simp [hf]

theorem onDirect_not_v4 (k : PeerConstants) (self : Peer) (remoteAddr : InetAddress) (now : Nat)
    (h : remoteAddr.isV4 = false) :
    (Peer.onDirect k self remoteAddr now).peer.ipv6p =
      (if self.ipv6p.fixed = false then
        { self.ipv6p with lastReceive := now, addr := remoteAddr }
      else { self.ipv6p with lastReceive := now }) ∧
    (Peer.onDirect k self remoteAddr now).peer.ipv4p = self.ipv4p := by
  unfold Peer.onDirect
  simp only [h, Bool.false_eq_true, if_false]
  cases hf : self.ipv6p.fixed <;> split <;> simp [hf]

/-- C10: on a direct receipt (`hops = 0`) from `remoteAddr` at time `now` the
path of the family of `remoteAddr` gets `lastReceive = now`; when that path is
not fixed its address becomes `remoteAddr`, when it is fixed its address is
unchanged; the fixed flag is unchanged in both cases. -/
theorem onReceive_direct_path (k : PeerConstants) (self : Peer) (remoteAddr : InetAddress)
    (hops : Nat) (verb : Verb) (now : Nat) (hdirect : hops = 0) :
    (remoteAddr.isV4 = true →
      (Peer.onReceive k self remoteAddr hops verb now).peer.ipv4p.lastReceive = now ∧
      (Peer.onReceive k self remoteAddr hops verb now).peer.ipv4p.fixed = self.ipv4p.fixed ∧
      (self.ipv4p.fixed = false →
        (Peer.onReceive k self remoteAddr hops verb now).peer.ipv4p.addr = remoteAddr) ∧
      (self.ipv4p.fixed = true →
        (Peer.onReceive k self remoteAddr hops verb now).peer.ipv4p.addr = self.ipv4p.addr)) ∧
    (remoteAddr.isV6 = true →
      (Peer.onReceive k self remoteAddr hops verb now).peer.ipv6p.lastReceive = now ∧
      (Peer.onReceive k self remoteAddr hops verb now).peer.ipv6p.fixed = self.ipv6p.fixed ∧
      (self.ipv6p.fixed = false →
        (Peer.onReceive k self remoteAddr hops verb now).peer.ipv6p.addr = remoteAddr) ∧
      (self.ipv6p.fixed = true →
        (Peer.onReceive k self remoteAddr hops verb now).peer.ipv6p.addr = self.ipv6p.addr)) := by
  obtain ⟨h4, h6⟩ := onReceive_paths k self remoteAddr hops verb now
  rw [if_pos hdirect] at h4 h6
  constructor
  · intro hv4
    rw [h4, (onDirect_v4 k self remoteAddr now hv4).1]
    cases hf : self.ipv4p.fixed <;> simp [hf]
  · intro hv6
    rw [h6, (onDirect_not_v4 k self remoteAddr now (isV6_not_isV4 remoteAddr hv6)).1]
    cases hf : self.ipv6p.fixed <;> simp [hf]

theorem onReceive_direct_path_witness :
    (Peer.onReceive PeerConstants.example Peer.exampleDual InetAddress.exampleV6 0
        Verb.VERB_FRAME 5000).peer.ipv6p.lastReceive = 5000 ∧
    (Peer.onReceive PeerConstants.example Peer.exampleDual InetAddress.exampleV6 0
        Verb.VERB_FRAME 5000).peer.ipv6p.fixed = Peer.exampleDual.ipv6p.fixed ∧
    (Peer.exampleDual.ipv6p.fixed = false →
      (Peer.onReceive PeerConstants.example Peer.exampleDual InetAddress.exampleV6 0
        Verb.VERB_FRAME 5000).peer.ipv6p.addr = InetAddress.exampleV6) ∧
    (Peer.exampleDual.ipv6p.fixed = true →
      (Peer.onReceive PeerConstants.example Peer.exampleDual InetAddress.exampleV6 0
        Verb.VERB_FRAME 5000).peer.ipv6p.addr = Peer.exampleDual.ipv6p.addr) :=
  (onReceive_direct_path PeerConstants.example Peer.exampleDual InetAddress.exampleV6 0
    Verb.VERB_FRAME 5000 rfl).2 (by decide)

theorem u64sub_of_le (a b : Nat) (ha : a < 2 ^ 64) (hb : b ≤ a) : u64sub a b = a - b := by
  unfold u64sub
  rw [Nat.mod_eq_of_lt ha, Nat.mod_eq_of_lt (by omega : b < 2 ^ 64)]
  have : a + 2 ^ 64 - b = (a - b) + 2 ^ 64 := by omega
  rw [this, Nat.add_mod_right, Nat.mod_eq_of_lt (by omega)]

theorem announceThreshold_eq (k : PeerConstants) (h1 : 2000 ≤ k.multicastLikeExpire)
    (h2 : k.multicastLikeExpire < 2 ^ 64) :
    announceThreshold k = k.multicastLikeExpire / 2 - 1000 := by
  unfold announceThreshold
  have h3 : (0 : Int) ≤ (k.multicastLikeExpire : Int) / 2 - 1000 := by omega
  have h4 : (k.multicastLikeExpire : Int) / 2 - 1000 < 2 ^ 64 := by omega
  rw [Int.emod_eq_of_lt h3 h4]
  omega

theorem onReceive_announce_fields (k : PeerConstants) (self : Peer) (remoteAddr : InetAddress)
    (hops : Nat) (verb : Verb) (now : Nat) :
    (Peer.onReceive k self remoteAddr hops verb now).announceCalls =
      (if hops = 0 then Peer.onDirect k self remoteAddr now
        else { peer := self, announceCalls := 0 }).announceCalls ∧
    (Peer.onReceive k self remoteAddr hops verb now).peer.lastAnnouncedTo =
      (if hops = 0 then Peer.onDirect k self remoteAddr now
        else { peer := self, announceCalls := 0 }).peer.lastAnnouncedTo := by
  unfold Peer.onReceive
  cases verb <;> exact ⟨rfl, rfl⟩

theorem onDirect_announce (k : PeerConstants) (self : Peer) (remoteAddr : InetAddress)
    (now : Nat) :
    (announceThreshold k ≤ u64sub now self.lastAnnouncedTo →
      (Peer.onDirect k self remoteAddr now).announceCalls = 1 ∧
      (Peer.onDirect k self remoteAddr now).peer.lastAnnouncedTo = now) ∧
    (u64sub now self.lastAnnouncedTo < announceThreshold k →
      (Peer.onDirect k self remoteAddr now).announceCalls = 0 ∧
      (Peer.onDirect k self remoteAddr now).peer.lastAnnouncedTo = self.lastAnnouncedTo) := by
  unfold Peer.onDirect
  cases h4 : remoteAddr.isV4 <;>
  · simp only [Bool.false_eq_true, if_false, if_true]
    constructor
    · intro h
      rw [if_pos h]
      exact ⟨rfl, rfl⟩
    · intro h
      rw [if_neg (by omega)]
      exact ⟨rfl, rfl⟩

/-- C11, amended: for 64-bit timestamps with `lastAnnouncedTo = T ≤ now` and a
threshold `ZT_MULTICAST_LIKE_EXPIRE / 2 - 1000` that is not negative, a direct
receipt with `now ≥ T + threshold` makes exactly one `announceMulticastGroups`
call and sets `lastAnnouncedTo = now`; a direct receipt before that makes no
call and leaves `lastAnnouncedTo = T`. -/
theorem onReceive_announce_threshold (k : PeerConstants) (self : Peer)
    (remoteAddr : InetAddress) (hops : Nat) (verb : Verb) (now : Nat) (hdirect : hops = 0)
    (hk : 2000 ≤ k.multicastLikeExpire) (hk64 : k.multicastLikeExpire < 2 ^ 64)
    (hnow : now < 2 ^ 64) (hmono : self.lastAnnouncedTo ≤ now) :
    (self.lastAnnouncedTo + (k.multicastLikeExpire / 2 - 1000) ≤ now →
      (Peer.onReceive k self remoteAddr hops verb now).announceCalls = 1 ∧
      (Peer.onReceive k self remoteAddr hops verb now).peer.lastAnnouncedTo = now) ∧
    (now < self.lastAnnouncedTo + (k.multicastLikeExpire / 2 - 1000) →
      (Peer.onReceive k self remoteAddr hops verb now).announceCalls = 0 ∧
      (Peer.onReceive k self remoteAddr hops verb now).peer.lastAnnouncedTo =
        self.lastAnnouncedTo) := by
  obtain ⟨hc, hl⟩ := onReceive_announce_fields k self remoteAddr hops verb now
  rw [if_pos hdirect] at hc hl
  rw [hc, hl]
  obtain ⟨h1, h2⟩ := onDirect_announce k self remoteAddr now
  rw [announceThreshold_eq k hk hk64, u64sub_of_le now self.lastAnnouncedTo hnow hmono] at h1 h2
  exact ⟨fun h => h1 (by omega), fun h => h2 (by omega)⟩

theorem onReceive_announce_threshold_witness :
    (Peer.exampleDual.lastAnnouncedTo + (PeerConstants.example.multicastLikeExpire / 2 - 1000)
        ≤ 59000 →
      (Peer.onReceive PeerConstants.example Peer.exampleDual InetAddress.exampleV6 0
        Verb.VERB_FRAME 59000).announceCalls = 1 ∧
      (Peer.onReceive PeerConstants.example Peer.exampleDual InetAddress.exampleV6 0
        Verb.VERB_FRAME 59000).peer.lastAnnouncedTo = 59000) ∧
    (59000 < Peer.exampleDual.lastAnnouncedTo +
        (PeerConstants.example.multicastLikeExpire / 2 - 1000) →
      (Peer.onReceive PeerConstants.example Peer.exampleDual InetAddress.exampleV6 0
        Verb.VERB_FRAME 59000).announceCalls = 0 ∧
      (Peer.onReceive PeerConstants.example Peer.exampleDual InetAddress.exampleV6 0
        Verb.VERB_FRAME 59000).peer.lastAnnouncedTo = Peer.exampleDual.lastAnnouncedTo) :=
  onReceive_announce_threshold PeerConstants.example Peer.exampleDual InetAddress.exampleV6 0
    Verb.VERB_FRAME 59000 rfl (by decide) (by decide) (by decide) (by decide)

/-- C11 as stated fails for a time before `lastAnnouncedTo`: with
`lastAnnouncedTo = 100000` and threshold 59000, a direct receipt at
`now = 50000`, which is before 159000, makes one announce call and sets
`lastAnnouncedTo = 50000`, because the unsigned difference wraps. -/
theorem announce_on_backward_time :
    (50000 : Nat) < 100000 + (PeerConstants.example.multicastLikeExpire / 2 - 1000) ∧
    (Peer.onReceive PeerConstants.example { Peer.exampleDual with lastAnnouncedTo := 100000 }
      InetAddress.exampleV6 0 (Verb.other 0) 50000).announceCalls = 1 ∧
    (Peer.onReceive PeerConstants.example { Peer.exampleDual with lastAnnouncedTo := 100000 }
      InetAddress.exampleV6 0 (Verb.other 0) 50000).peer.lastAnnouncedTo = 50000 := by
  decide

theorem sendPing_spec (sw : List InetAddress → InetAddress → Bool) (self : Peer) (now : Nat) :
    (Peer.sendPing sw self now).calls = self.knownAddrs ∧
    (Peer.sendPing sw self now).ret = (self.probe4 sw || self.probe6 sw) ∧
    (Peer.sendPing sw self now).peer =
      { self with
        ipv4p := if self.probe4 sw = true then { self.ipv4p with lastSend := now }
                 else self.ipv4p
        ipv6p := if self.probe6 sw = true then { self.ipv6p with lastSend := now }
                 else self.ipv6p } := by
  unfold Peer.sendPing Peer.knownAddrs Peer.probe4 Peer.probe6
  cases h4 : self.ipv4p.addr.toBool <;> cases h6 : self.ipv6p.addr.toBool <;>
    cases hs4 : sw [] self.ipv4p.addr <;> cases hs6 : sw [] self.ipv6p.addr <;>
    cases hs64 : sw [self.ipv4p.addr] self.ipv6p.addr <;> simp [h4, h6, hs4, hs6, hs64]

theorem sendFirewallOpener_spec (sm : List InetAddress → InetAddress → Bool) (self : Peer)
    (now : Nat) :
    (Peer.sendFirewallOpener sm self now).calls = self.knownAddrs ∧
    (Peer.sendFirewallOpener sm self now).ret = (self.probe4 sm || self.probe6 sm) ∧
    (Peer.sendFirewallOpener sm self now).peer =
      { self with
        ipv4p := if self.probe4 sm = true then { self.ipv4p with lastFirewallOpener := now }
                 else self.ipv4p
        ipv6p := if self.probe6 sm = true then { self.ipv6p with lastFirewallOpener := now }
                 else self.ipv6p } := by
  unfold Peer.sendFirewallOpener Peer.knownAddrs Peer.probe4 Peer.probe6
  cases h4 : self.ipv4p.addr.toBool <;> cases h6 : self.ipv6p.addr.toBool <;>
    cases hs4 : sm [] self.ipv4p.addr <;> cases hs6 : sm [] self.ipv6p.addr <;>
    cases hs64 : sm [self.ipv4p.addr] self.ipv6p.addr <;> simp [h4, h6, hs4, hs6, hs64]

theorem knownAddrs_v4_only (self : Peer) (h4 : self.ipv4p.addr.toBool = true)
    (h6 : self.ipv6p.addr.toBool = false) : self.knownAddrs = [self.ipv4p.addr] := by
  simp [Peer.knownAddrs, h4, h6]

theorem probe6_of_unknown (sm : List InetAddress → InetAddress → Bool) (self : Peer)
    (h6 : self.ipv6p.addr.toBool = false) : self.probe6 sm = false := by
  simp [Peer.probe6, h6]

/-- C12: `sendPing` and `sendFirewallOpener` make one attempt for every path
with a known address (IPv4 first, then IPv6, none for a path without address),
return true iff at least one attempt was accepted, and set the timestamp
(`lastSend`, respectively `lastFirewallOpener`) to `now` on exactly the paths
whose attempt was accepted, leaving everything else unchanged.  With only an
IPv4 address known there is exactly one attempt and the IPv6 path is unchanged. -/
theorem probes_fan_out (sm : List InetAddress → InetAddress → Bool) (self : Peer) (now : Nat) :
    ((Peer.sendPing sm self now).calls = self.knownAddrs ∧
      ((Peer.sendPing sm self now).ret = true ↔
        (self.probe4 sm = true ∨ self.probe6 sm = true)) ∧
      (Peer.sendPing sm self now).peer =
        { self with
          ipv4p := if self.probe4 sm = true then { self.ipv4p with lastSend := now }
                   else self.ipv4p
          ipv6p := if self.probe6 sm = true then { self.ipv6p with lastSend := now }
                   else self.ipv6p } ∧
      (self.ipv4p.addr.toBool = true → self.ipv6p.addr.toBool = false →
        (Peer.sendPing sm self now).calls = [self.ipv4p.addr] ∧
        (Peer.sendPing sm self now).peer.ipv6p = self.ipv6p)) ∧
    ((Peer.sendFirewallOpener sm self now).calls = self.knownAddrs ∧
      ((Peer.sendFirewallOpener sm self now).ret = true ↔
        (self.probe4 sm = true ∨ self.probe6 sm = true)) ∧
      (Peer.sendFirewallOpener sm self now).peer =
        { self with
          ipv4p := if self.probe4 sm = true then { self.ipv4p with lastFirewallOpener := now }
                   else self.ipv4p
          ipv6p := if self.probe6 sm = true then { self.ipv6p with lastFirewallOpener := now }
                   else self.ipv6p } ∧
      (self.ipv4p.addr.toBool = true → self.ipv6p.addr.toBool = false →
        (Peer.sendFirewallOpener sm self now).calls = [self.ipv4p.addr] ∧
        (Peer.sendFirewallOpener sm self now).peer.ipv6p = self.ipv6p)) := by
  obtain ⟨hc, hr, hp⟩ := sendPing_spec sm self now
  obtain ⟨hc', hr', hp'⟩ := sendFirewallOpener_spec sm self now
  refine ⟨⟨hc, ?_, hp, ?_⟩, ⟨hc', ?_, hp', ?_⟩⟩
  · rw [hr]; simp
  · intro h4 h6
    rw [hc, hp, knownAddrs_v4_only self h4 h6, probe6_of_unknown sm self h6]
    exact ⟨rfl, rfl⟩
  · rw [hr']; simp
  · intro h4 h6
    rw [hc', hp', knownAddrs_v4_only self h4 h6, probe6_of_unknown sm self h6]
    exact ⟨rfl, rfl⟩

theorem probes_fan_out_witness :
    (Peer.sendPing smV4Only Peer.exampleV4Only 7).calls = [Peer.exampleV4Only.ipv4p.addr] ∧
    (Peer.sendPing smV4Only Peer.exampleV4Only 7).peer.ipv6p = Peer.exampleV4Only.ipv6p :=
  (probes_fan_out smV4Only Peer.exampleV4Only 7).1.2.2.2 (by decide) (by decide)

theorem send_keeps_addrs (k : PeerConstants) (sm : List InetAddress → InetAddress → Bool)
    (self : Peer) (now : Nat) :
    (Peer.send k sm self now).peer.ipv4p.addr = self.ipv4p.addr ∧
    (Peer.send k sm self now).peer.ipv4p.fixed = self.ipv4p.fixed ∧
    (Peer.send k sm self now).peer.ipv6p.addr = self.ipv6p.addr ∧
    (Peer.send k sm self now).peer.ipv6p.fixed = self.ipv6p.fixed := by
  unfold Peer.send Peer.sendV4
  split_ifs <;> exact ⟨rfl, rfl, rfl, rfl⟩

theorem sendPing_keeps_addrs (sw : List InetAddress → InetAddress → Bool)
    (self : Peer) (now : Nat) :
    (Peer.sendPing sw self now).peer.ipv4p.addr = self.ipv4p.addr ∧
    (Peer.sendPing sw self now).peer.ipv4p.fixed = self.ipv4p.fixed ∧
    (Peer.sendPing sw self now).peer.ipv6p.addr = self.ipv6p.addr ∧
    (Peer.sendPing sw self now).peer.ipv6p.fixed = self.ipv6p.fixed := by
  rw [(sendPing_spec sw self now).2.2]
  refine ⟨?_, ?_, ?_, ?_⟩ <;> simp only <;> split <;> rfl

theorem sendFirewallOpener_keeps_addrs (sm : List InetAddress → InetAddress → Bool)
    (self : Peer) (now : Nat) :
    (Peer.sendFirewallOpener sm self now).peer.ipv4p.addr = self.ipv4p.addr ∧
    (Peer.sendFirewallOpener sm self now).peer.ipv4p.fixed = self.ipv4p.fixed ∧
    (Peer.sendFirewallOpener sm self now).peer.ipv6p.addr = self.ipv6p.addr ∧
    (Peer.sendFirewallOpener sm self now).peer.ipv6p.fixed = self.ipv6p.fixed := by
  rw [(sendFirewallOpener_spec sm self now).2.2]
  refine ⟨?_, ?_, ?_, ?_⟩ <;> simp only <;> split <;> rfl

/-- What `onReceive` does to the two paths. -/
theorem onReceive_path_effect (k : PeerConstants) (self : Peer) (remoteAddr : InetAddress)
    (hops : Nat) (verb : Verb) (now : Nat) :
    (hops ≠ 0 →
      (Peer.onReceive k self remoteAddr hops verb now).peer.ipv4p = self.ipv4p ∧
      (Peer.onReceive k self remoteAddr hops verb now).peer.ipv6p = self.ipv6p) ∧
    (hops = 0 → remoteAddr.isV4 = true →
      (Peer.onReceive k self remoteAddr hops verb now).peer.ipv4p =
        (if self.ipv4p.fixed = false then
          { self.ipv4p with lastReceive := now, addr := remoteAddr }
        else { self.ipv4p with lastReceive := now }) ∧
      (Peer.onReceive k self remoteAddr hops verb now).peer.ipv6p = self.ipv6p) ∧
    (hops = 0 → remoteAddr.isV4 = false →
      (Peer.onReceive k self remoteAddr hops verb now).peer.ipv6p =
        (if self.ipv6p.fixed = false then
          { self.ipv6p with lastReceive := now, addr := remoteAddr }
        else { self.ipv6p with lastReceive := now }) ∧
      (Peer.onReceive k self remoteAddr hops verb now).peer.ipv4p = self.ipv4p) := by
  obtain ⟨h4, h6⟩ := onReceive_paths k self remoteAddr hops verb now
  refine ⟨?_, ?_, ?_⟩
  · intro h
    rw [if_neg h] at h4 h6
    exact ⟨h4, h6⟩
  · intro h hv
    rw [if_pos h] at h4 h6
    rw [h4, h6]
    exact onDirect_v4 k self remoteAddr now hv
  · intro h hv
    rw [if_pos h] at h4 h6
    rw [h4, h6]
    exact onDirect_not_v4 k self remoteAddr now hv

/-- A fixed path keeps its address and its flag through any single call. -/
theorem step_keeps_fixed (k : PeerConstants) (self : Peer) (op : PeerOp) :
    (self.ipv4p.fixed = true →
      (Peer.step k self op).ipv4p.fixed = true ∧
      (Peer.step k self op).ipv4p.addr = self.ipv4p.addr) ∧
    (self.ipv6p.fixed = true →
      (Peer.step k self op).ipv6p.fixed = true ∧
      (Peer.step k self op).ipv6p.addr = self.ipv6p.addr) := by
  cases op with
  | onReceive remoteAddr hops verb now =>
    obtain ⟨hrel, hv4, hnv4⟩ := onReceive_path_effect k self remoteAddr hops verb now
    simp only [Peer.step]
    by_cases hh : hops = 0
    · cases hv : remoteAddr.isV4 with
      | true =>
        obtain ⟨e4, e6⟩ := hv4 hh hv
        rw [e4, e6]
        exact ⟨fun hf => by simp [hf], fun hf => ⟨hf, rfl⟩⟩
      | false =>
        obtain ⟨e6, e4⟩ := hnv4 hh hv
        rw [e4, e6]
        exact ⟨fun hf => ⟨hf, rfl⟩, fun hf => by simp [hf]⟩
    · obtain ⟨e4, e6⟩ := hrel hh
      rw [e4, e6]
      exact ⟨fun hf => ⟨hf, rfl⟩, fun hf => ⟨hf, rfl⟩⟩
  | send sm now =>
    obtain ⟨a4, f4, a6, f6⟩ := send_keeps_addrs k sm self now
    exact ⟨fun hf => ⟨f4.trans hf, a4⟩, fun hf => ⟨f6.trans hf, a6⟩⟩
  | sendPing sw now =>
    obtain ⟨a4, f4, a6, f6⟩ := sendPing_keeps_addrs sw self now
    exact ⟨fun hf => ⟨f4.trans hf, a4⟩, fun hf => ⟨f6.trans hf, a6⟩⟩
  | sendFirewallOpener sm now =>
    obtain ⟨a4, f4, a6, f6⟩ := sendFirewallOpener_keeps_addrs sm self now
    exact ⟨fun hf => ⟨f4.trans hf, a4⟩, fun hf => ⟨f6.trans hf, a6⟩⟩

theorem steps_keep_fixed (k : PeerConstants) (ops : List PeerOp) :
    ∀ self : Peer,
      (self.ipv4p.fixed = true →
        (Peer.steps k self ops).ipv4p.fixed = true ∧
        (Peer.steps k self ops).ipv4p.addr = self.ipv4p.addr) ∧
      (self.ipv6p.fixed = true →
        (Peer.steps k self ops).ipv6p.fixed = true ∧
        (Peer.steps k self ops).ipv6p.addr = self.ipv6p.addr) := by
  induction ops with
  | nil => intro self; exact ⟨fun h => ⟨h, rfl⟩, fun h => ⟨h, rfl⟩⟩
  | cons op ops ih =>
    intro self
    obtain ⟨s4, s6⟩ := step_keeps_fixed k self op
    obtain ⟨i4, i6⟩ := ih (Peer.step k self op)
    show (_ → (Peer.steps k (Peer.step k self op) ops).ipv4p.fixed = true ∧ _) ∧
      (_ → (Peer.steps k (Peer.step k self op) ops).ipv6p.fixed = true ∧ _)
    constructor
    · intro hf
      obtain ⟨a, b⟩ := s4 hf
      obtain ⟨c, d⟩ := i4 a
      exact ⟨c, d.trans b⟩
    · intro hf
      obtain ⟨a, b⟩ := s6 hf
      obtain ⟨c, d⟩ := i6 a
      exact ⟨c, d.trans b⟩

theorem onReceive_unfixed_v4 (k : PeerConstants) (self : Peer) (remoteAddr : InetAddress)
    (verb : Verb) (now : Nat) (hv : remoteAddr.isV4 = true) (hf : self.ipv4p.fixed = false) :
    (Peer.onReceive k self remoteAddr 0 verb now).peer.ipv4p.addr = remoteAddr := by
  rw [((onReceive_path_effect k self remoteAddr 0 verb now).2.1 rfl hv).1, if_pos hf]

theorem onReceive_unfixed_v6 (k : PeerConstants) (self : Peer) (remoteAddr : InetAddress)
    (verb : Verb) (now : Nat) (hv : remoteAddr.isV6 = true) (hf : self.ipv6p.fixed = false) :
    (Peer.onReceive k self remoteAddr 0 verb now).peer.ipv6p.addr = remoteAddr := by
  rw [((onReceive_path_effect k self remoteAddr 0 verb now).2.2 rfl
    (isV6_not_isV4 remoteAddr hv)).1, if_pos hf]

/-- C16: after `setPathAddress(addr,true)` with an IPv4 (IPv6) address the IPv4
(IPv6) path stays fixed at `addr` through any sequence of `onReceive`, `send`,
`sendPing` and `sendFirewallOpener` calls; `clearFixedFlag` of a family, or of
the null type for both families, only sets `fixed` to false, leaving addresses
and timestamps as they were; and after it a direct receipt of that family
stores the observed address. -/
theorem pinned_path_kept (k : PeerConstants) (self : Peer) (addr : InetAddress) :
    (addr.isV4 = true → ∀ ops : List PeerOp,
      (Peer.steps k (self.setPathAddress addr true) ops).ipv4p.addr = addr ∧
      (Peer.steps k (self.setPathAddress addr true) ops).ipv4p.fixed = true) ∧
    (addr.isV6 = true → ∀ ops : List PeerOp,
      (Peer.steps k (self.setPathAddress addr true) ops).ipv6p.addr = addr ∧
      (Peer.steps k (self.setPathAddress addr true) ops).ipv6p.fixed = true) ∧
    ((self.clearFixedFlag AddressType.TYPE_IPV4).ipv4p = { self.ipv4p with fixed := false } ∧
      (self.clearFixedFlag AddressType.TYPE_IPV4).ipv6p = self.ipv6p) ∧
    ((self.clearFixedFlag AddressType.TYPE_IPV6).ipv6p = { self.ipv6p with fixed := false } ∧
      (self.clearFixedFlag AddressType.TYPE_IPV6).ipv4p = self.ipv4p) ∧
    ((self.clearFixedFlag AddressType.TYPE_NULL).ipv4p = { self.ipv4p with fixed := false } ∧
      (self.clearFixedFlag AddressType.TYPE_NULL).ipv6p = { self.ipv6p with fixed := false }) ∧
    (∀ (t : AddressType) (remoteAddr : InetAddress) (verb : Verb) (now : Nat),
      (t = AddressType.TYPE_IPV4 ∨ t = AddressType.TYPE_NULL) → remoteAddr.isV4 = true →
      (Peer.onReceive k (self.clearFixedFlag t) remoteAddr 0 verb now).peer.ipv4p.addr =
        remoteAddr) ∧
    (∀ (t : AddressType) (remoteAddr : InetAddress) (verb : Verb) (now : Nat),
      (t = AddressType.TYPE_IPV6 ∨ t = AddressType.TYPE_NULL) → remoteAddr.isV6 = true →
      (Peer.onReceive k (self.clearFixedFlag t) remoteAddr 0 verb now).peer.ipv6p.addr =
        remoteAddr) := by
  refine ⟨?_, ?_, ⟨rfl, rfl⟩, ⟨rfl, rfl⟩, ⟨rfl, rfl⟩, ?_, ?_⟩
  · intro hv ops
    have hset : (self.setPathAddress addr true).ipv4p.fixed = true ∧
        (self.setPathAddress addr true).ipv4p.addr = addr := by
      unfold Peer.setPathAddress
      rw [if_pos hv]
      exact ⟨rfl, rfl⟩
    obtain ⟨hfix, haddr⟩ := (steps_keep_fixed k ops (self.setPathAddress addr true)).1 hset.1
    exact ⟨haddr.trans hset.2, hfix⟩
  · intro hv ops
    have hset : (self.setPathAddress addr true).ipv6p.fixed = true ∧
        (self.setPathAddress addr true).ipv6p.addr = addr := by
      unfold Peer.setPathAddress
      rw [if_neg (by rw [isV6_not_isV4 addr hv]; simp), if_pos hv]
      exact ⟨rfl, rfl⟩
    obtain ⟨hfix, haddr⟩ := (steps_keep_fixed k ops (self.setPathAddress addr true)).2 hset.1
    exact ⟨haddr.trans hset.2, hfix⟩
  · intro t remoteAddr verb now ht hv
    apply onReceive_unfixed_v4 k _ remoteAddr verb now hv
    rcases ht with rfl | rfl <;> rfl
  · intro t remoteAddr verb now ht hv
    apply onReceive_unfixed_v6 k _ remoteAddr verb now hv
    rcases ht with rfl | rfl <;> rfl

theorem pinned_path_kept_witness :
    (Peer.steps PeerConstants.example
        (Peer.exampleDual.setPathAddress InetAddress.exampleV6 true)
        [PeerOp.onReceive { addressType := AddressType.TYPE_IPV6, endpoint := 99 } 0
          Verb.VERB_FRAME 10, PeerOp.sendPing smV4Only 20]).ipv6p.addr =
      InetAddress.exampleV6 ∧
    (Peer.steps PeerConstants.example
        (Peer.exampleDual.setPathAddress InetAddress.exampleV6 true)
        [PeerOp.onReceive { addressType := AddressType.TYPE_IPV6, endpoint := 99 } 0
          Verb.VERB_FRAME 10, PeerOp.sendPing smV4Only 20]).ipv6p.fixed = true :=
  (pinned_path_kept PeerConstants.example Peer.exampleDual InetAddress.exampleV6).2.1
    (by decide) _

/-- C17, amended: the constructor taking two identities calls the key agreement
once; it fails, producing no object, iff the agreement fails; when it succeeds
the key of the peer is the agreed key, of exactly ZT_PEER_SECRET_KEY_LENGTH
octets when the agreement delivers the length it is asked for, and all
activity timestamps are zero.  The default constructor always produces an
object, with all timestamps zero, without any key agreement. -/
theorem constructor_key_agreement (agree : Nat → Nat → Nat → Option (List Byte))
    (keyLength myIdentity peerIdentity : Nat) (keyMemory : List Byte)
    (hagree : ∀ key, agree myIdentity peerIdentity keyLength = some key →
      key.length = keyLength) :
    (Peer.newWithIdentity agree keyLength myIdentity peerIdentity).agreeCalls = 1 ∧
    ((Peer.newWithIdentity agree keyLength myIdentity peerIdentity).peer = none ↔
      agree myIdentity peerIdentity keyLength = none) ∧
    (∀ p, (Peer.newWithIdentity agree keyLength myIdentity peerIdentity).peer = some p →
      agree myIdentity peerIdentity keyLength = some p.key ∧ p.key.length = keyLength ∧
      p.id = peerIdentity ∧ p.timestampsZero) ∧
    (∃ p, (Peer.newDefault keyMemory).peer = some p ∧ p.key = keyMemory ∧ p.timestampsZero) ∧
    (Peer.newDefault keyMemory).agreeCalls = 0 := by
  unfold Peer.newWithIdentity Peer.newDefault
  cases h : agree myIdentity peerIdentity keyLength with
  | none =>
    refine ⟨rfl, by simp, ?_, ⟨_, rfl, rfl, by simp [Peer.timestampsZero, WanPath.empty]⟩, rfl⟩
    intro p hp
    simp at hp
  | some key =>
    refine ⟨rfl, by simp, ?_, ⟨_, rfl, rfl, by simp [Peer.timestampsZero, WanPath.empty]⟩, rfl⟩
    intro p hp
    simp only [Option.some.injEq] at hp
    subst hp
    exact ⟨rfl, hagree key h, rfl, by simp [Peer.timestampsZero, WanPath.empty]⟩

theorem constructor_key_agreement_witness :
    (Peer.newWithIdentity agreeZeros 32 1 2).agreeCalls = 1 ∧
    ((Peer.newWithIdentity agreeZeros 32 1 2).peer = none ↔ agreeZeros 1 2 32 = none) ∧
    (∀ p, (Peer.newWithIdentity agreeZeros 32 1 2).peer = some p →
      agreeZeros 1 2 32 = some p.key ∧ p.key.length = 32 ∧ p.id = 2 ∧ p.timestampsZero) ∧
    (∃ p, (Peer.newDefault (List.replicate 32 0xAA)).peer = some p ∧
      p.key = List.replicate 32 0xAA ∧ p.timestampsZero) ∧
    (Peer.newDefault (List.replicate 32 0xAA)).agreeCalls = 0 :=
  constructor_key_agreement agreeZeros 32 1 2 (List.replicate 32 0xAA) (by
    intro key h
    simp only [agreeZeros, Option.some.injEq] at h
    rw [← h, List.length_replicate])

/-- C17 as stated fails: the default constructor produces a peer object
without performing any key agreement; its key is whatever the storage held. -/
theorem default_constructor_skips_agreement :
    (Peer.newDefault (List.replicate 32 0xAA)).peer.isSome = true ∧
    (Peer.newDefault (List.replicate 32 0xAA)).agreeCalls = 0 ∧
    (∀ p, (Peer.newDefault (List.replicate 32 0xAA)).peer = some p →
      p.key = List.replicate 32 0xAA) := by
  refine ⟨rfl, rfl, ?_⟩
  intro p hp
  simp only [Peer.newDefault, Option.some.injEq] at hp
  rw [← hp]

theorem onReceive_frame_fields (k : PeerConstants) (self : Peer) (remoteAddr : InetAddress)
    (hops : Nat) (verb : Verb) (now : Nat) :
    (verb = Verb.VERB_FRAME →
      (Peer.onReceive k self remoteAddr hops verb now).peer.lastUnicastFrame = now ∧
      (Peer.onReceive k self remoteAddr hops verb now).peer.lastMulticastFrame =
        self.lastMulticastFrame) ∧
    (verb = Verb.VERB_MULTICAST_FRAME →
      (Peer.onReceive k self remoteAddr hops verb now).peer.lastMulticastFrame = now ∧
      (Peer.onReceive k self remoteAddr hops verb now).peer.lastUnicastFrame =
        self.lastUnicastFrame) ∧
    (verb ≠ Verb.VERB_FRAME → verb ≠ Verb.VERB_MULTICAST_FRAME →
      (Peer.onReceive k self remoteAddr hops verb now).peer.lastUnicastFrame =
        self.lastUnicastFrame ∧
      (Peer.onReceive k self remoteAddr hops verb now).peer.lastMulticastFrame =
        self.lastMulticastFrame) := by
  have hd : (Peer.onDirect k self remoteAddr now).peer.lastUnicastFrame = self.lastUnicastFrame ∧
      (Peer.onDirect k self remoteAddr now).peer.lastMulticastFrame =
        self.lastMulticastFrame := by
    unfold Peer.onDirect
    simp only
    split_ifs <;> exact ⟨rfl, rfl⟩
  unfold Peer.onReceive
  by_cases hh : hops = 0
  · simp only [if_pos hh]
    cases verb with
    | VERB_FRAME => simp [hd.2]
    | VERB_MULTICAST_FRAME => simp [hd.1]
    | other c => simp [hd.1, hd.2]
  · simp only [if_neg hh]
    cases verb with
    | VERB_FRAME => simp
    | VERB_MULTICAST_FRAME => simp
    | other c => simp

/-- C18: for a `remoteAddr` of the IPv4 or the IPv6 family, a relayed receipt
(`hops > 0`) leaves both paths and `lastAnnouncedTo` unchanged and makes no
announce call; a direct receipt leaves the path of the other family unchanged,
so the IPv4 path changes only on a direct receipt from an IPv4 address and the
IPv6 path only on a direct receipt from an IPv6 address; `lastUnicastFrame`
(`lastMulticastFrame`) becomes `now` exactly for the verb VERB_FRAME
(VERB_MULTICAST_FRAME) and is unchanged for every other verb. -/
theorem onReceive_frame (k : PeerConstants) (self : Peer) (remoteAddr : InetAddress)
    (hops : Nat) (verb : Verb) (now : Nat)
    (hfam : remoteAddr.isV4 = true ∨ remoteAddr.isV6 = true) :
    (hops ≠ 0 →
      (Peer.onReceive k self remoteAddr hops verb now).peer.ipv4p = self.ipv4p ∧
      (Peer.onReceive k self remoteAddr hops verb now).peer.ipv6p = self.ipv6p ∧
      (Peer.onReceive k self remoteAddr hops verb now).peer.lastAnnouncedTo =
        self.lastAnnouncedTo ∧
      (Peer.onReceive k self remoteAddr hops verb now).announceCalls = 0) ∧
    (hops = 0 → remoteAddr.isV4 = true →
      (Peer.onReceive k self remoteAddr hops verb now).peer.ipv6p = self.ipv6p) ∧
    (hops = 0 → remoteAddr.isV6 = true →
      (Peer.onReceive k self remoteAddr hops verb now).peer.ipv4p = self.ipv4p) ∧
    ((Peer.onReceive k self remoteAddr hops verb now).peer.ipv4p ≠ self.ipv4p →
      hops = 0 ∧ remoteAddr.isV4 = true) ∧
    ((Peer.onReceive k self remoteAddr hops verb now).peer.ipv6p ≠ self.ipv6p →
      hops = 0 ∧ remoteAddr.isV6 = true) ∧
    (verb = Verb.VERB_FRAME →
      (Peer.onReceive k self remoteAddr hops verb now).peer.lastUnicastFrame = now ∧
      (Peer.onReceive k self remoteAddr hops verb now).peer.lastMulticastFrame =
        self.lastMulticastFrame) ∧
    (verb = Verb.VERB_MULTICAST_FRAME →
      (Peer.onReceive k self remoteAddr hops verb now).peer.lastMulticastFrame = now ∧
      (Peer.onReceive k self remoteAddr hops verb now).peer.lastUnicastFrame =
        self.lastUnicastFrame) ∧
    (verb ≠ Verb.VERB_FRAME → verb ≠ Verb.VERB_MULTICAST_FRAME →
      (Peer.onReceive k self remoteAddr hops verb now).peer.lastUnicastFrame =
        self.lastUnicastFrame ∧
      (Peer.onReceive k self remoteAddr hops verb now).peer.lastMulticastFrame =
        self.lastMulticastFrame) := by
  obtain ⟨hrel, hv4, hnv4⟩ := onReceive_path_effect k self remoteAddr hops verb now
  obtain ⟨hc, hl⟩ := onReceive_announce_fields k self remoteAddr hops verb now
  obtain ⟨f1, f2, f3⟩ := onReceive_frame_fields k self remoteAddr hops verb now
  refine ⟨?_, fun h hv => (hv4 h hv).2,
    fun h hv => (hnv4 h (isV6_not_isV4 remoteAddr hv)).2, ?_, ?_, f1, f2, f3⟩
  · intro h
    rw [if_neg h] at hc hl
    exact ⟨(hrel h).1, (hrel h).2, hl, hc⟩
  · intro hne
    by_cases h : hops = 0
    · refine ⟨h, ?_⟩
      by_contra hv
      exact hne (hnv4 h (by simpa using hv)).2
    · exact absurd (hrel h).1 hne
  · intro hne
    by_cases h : hops = 0
    · refine ⟨h, ?_⟩
      rcases hfam with hv | hv
      · exact absurd (hv4 h hv).2 hne
      · exact hv
    · exact absurd (hrel h).2 hne

theorem onReceive_frame_witness :
    ((Peer.onReceive PeerConstants.example Peer.exampleDual InetAddress.exampleV6 3
        Verb.VERB_FRAME 5000).peer.ipv4p = Peer.exampleDual.ipv4p ∧
    (Peer.onReceive PeerConstants.example Peer.exampleDual InetAddress.exampleV6 3
        Verb.VERB_FRAME 5000).peer.ipv6p = Peer.exampleDual.ipv6p ∧
    (Peer.onReceive PeerConstants.example Peer.exampleDual InetAddress.exampleV6 3
        Verb.VERB_FRAME 5000).peer.lastAnnouncedTo = Peer.exampleDual.lastAnnouncedTo ∧
    (Peer.onReceive PeerConstants.example Peer.exampleDual InetAddress.exampleV6 3
        Verb.VERB_FRAME 5000).announceCalls = 0) ∧
    (Peer.onReceive PeerConstants.example Peer.exampleDual InetAddress.exampleV6 0
        Verb.VERB_FRAME 5000).peer.ipv4p = Peer.exampleDual.ipv4p :=
  ⟨(onReceive_frame PeerConstants.example Peer.exampleDual InetAddress.exampleV6 3
    Verb.VERB_FRAME 5000 (Or.inr (by decide))).1 (by decide),
   (onReceive_frame PeerConstants.example Peer.exampleDual InetAddress.exampleV6 0
    Verb.VERB_FRAME 5000 (Or.inr (by decide))).2.2.1 rfl (by decide)⟩

/-- Every outcome of `notifyAvailableForWrite` when the cursor is inside the
block and the socket reports at most the octets it was offered. -/
theorem write_outcome (s : TcpSocket) (n : Int) (errno : Errno)
    (hlen : s.outptr ≤ s.outbuf.length) (hn : n ≤ s.outptr) :
    ∃ r, TcpSocket.notifyAvailableForWrite s n errno = some r ∧
      r.sock.outbufsize = s.outbufsize ∧ r.sock.outbuf.length = s.outbuf.length ∧
      r.sock.inbuf = s.inbuf ∧ r.sock.inptr = s.inptr ∧ r.sock.connecting = false ∧
      (r.ret = false ↔ (s.outptr ≠ 0 ∧ n < 0 ∧ errno.fatal = true)) ∧
      r.wrote = (if s.outptr ≠ 0 then some (s.outbuf.take s.outptr) else none) ∧
      r.smCalls = (if r.ret = true ∧ r.sock.outptr = 0 then [SmCall.stopNotifyWrite] else []) ∧
      r.sock.outptr = (if s.outptr ≠ 0 ∧ 0 < n then s.outptr - n.toNat else s.outptr) ∧
      r.sock.outbuf.take r.sock.outptr =
        (if s.outptr ≠ 0 ∧ 0 < n then (s.outbuf.take s.outptr).drop n.toNat
         else s.outbuf.take s.outptr) ∧
      (¬ (s.outptr ≠ 0 ∧ 0 < n) → r.sock.outbuf = s.outbuf) := by
  have hsl : slice s.outbuf 0 s.outptr = some (s.outbuf.take s.outptr) := by
    unfold slice; rw [if_pos (by omega)]; simp
  unfold TcpSocket.notifyAvailableForWrite
  simp only [hsl]
  by_cases hq : s.outptr ≠ 0
  · simp only [if_pos hq]
    by_cases hneg : n < 0
    · have hnp : ¬ (0 < n) := by omega
      simp only [if_pos hneg]
      by_cases hf : errno.fatal = true
      · simp only [if_pos hf]
        refine ⟨_, rfl, rfl, rfl, rfl, rfl, rfl, ?_, rfl, ?_, ?_, ?_, fun _ => rfl⟩
        · simp [hq, hneg, hf]
        · simp
        · simp [hnp]
        · simp [hnp]
      · simp only [if_neg hf]
        refine ⟨_, rfl, rfl, rfl, rfl, rfl, rfl, ?_, rfl, ?_, ?_, ?_, fun _ => rfl⟩
        · simp [writeDone, hf]
        · simp [writeDone, hq]
        · simp [writeDone, hnp]
        · simp [writeDone, hnp]
    · simp only [if_neg hneg]
      by_cases hpos : n > 0
      · obtain ⟨s1, h1, hp, ht, hl, hb, hi, hip, hc⟩ :=
          shiftOut_spec { s with connecting := false } n
            (by show s.outptr ≤ s.outbuf.length; omega) hn
        simp only [if_pos hpos, h1]
        have hpos' : 0 < n := hpos
        refine ⟨_, rfl, hb, hl, hi, hip, hc, ?_, rfl, ?_, ?_, ?_, ?_⟩
        · simp [writeDone]; intro _ h; omega
        · simp [writeDone]
        · simp only [writeDone, hq, hpos', ne_eq, not_false_eq_true, and_self, if_true]
          exact hp
        · simp only [writeDone, hq, hpos', ne_eq, not_false_eq_true, and_self, if_true]
          exact ht
        · intro h; exact absurd ⟨hq, hpos'⟩ h
      · have hnp : ¬ (0 < n) := hpos
        simp only [if_neg hpos]
        refine ⟨_, rfl, rfl, rfl, rfl, rfl, rfl, ?_, rfl, ?_, ?_, ?_, fun _ => rfl⟩
        · simp [writeDone, hneg]
        · simp [writeDone, hq]
        · simp [writeDone, hnp]
        · simp [writeDone, hnp]
  · have h0 : s.outptr = 0 := by omega
    simp only [if_neg hq]
    refine ⟨_, rfl, rfl, rfl, rfl, rfl, rfl, ?_, rfl, ?_, ?_, ?_, fun _ => rfl⟩
    · simp [writeDone, h0]
    · simp [writeDone, h0]
    · simp [writeDone, hq]
    · simp [writeDone, hq]

theorem fatal_iff (errno : Errno) :
    errno.fatal = true ↔
      (errno = Errno.EBADF ∨ errno = Errno.EINVAL ∨ errno = Errno.ENOTSOCK ∨
        errno = Errno.ECONNRESET ∨ errno = Errno.EPIPE ∨ errno = Errno.ENETDOWN) := by
  cases errno <;> simp [Errno.fatal]

/-- C13: `notifyAvailableForWrite` returns failure iff octets are pending and
`::send` returns a negative value with `errno` one of EBADF, EINVAL, ENOTSOCK,
ECONNRESET, EPIPE, ENETDOWN; for any other negative value and for zero it
returns success with the output queue unchanged; for a positive value `n` it
returns success, the first `n` queued octets are removed and the remaining
ones are at the front of the buffer, in order. -/
theorem write_error_classification (s : TcpSocket) (n : Int) (errno : Errno)
    (hlen : s.outptr ≤ s.outbuf.length) (hn : n ≤ s.outptr) :
    ∃ r, TcpSocket.notifyAvailableForWrite s n errno = some r ∧
      (r.ret = false ↔
        (s.outptr ≠ 0 ∧ n < 0 ∧
          (errno = Errno.EBADF ∨ errno = Errno.EINVAL ∨ errno = Errno.ENOTSOCK ∨
            errno = Errno.ECONNRESET ∨ errno = Errno.EPIPE ∨ errno = Errno.ENETDOWN))) ∧
      (((n < 0 ∧ errno.fatal = false) ∨ n = 0) →
        r.ret = true ∧ r.sock.outbuf = s.outbuf ∧ r.sock.outptr = s.outptr ∧
        r.sock.outbufsize = s.outbufsize) ∧
      (s.outptr ≠ 0 → 0 < n →
        r.ret = true ∧ r.wrote = some (s.outbuf.take s.outptr) ∧
        r.sock.outptr = s.outptr - n.toNat ∧
        r.sock.outbuf.take r.sock.outptr = (s.outbuf.take s.outptr).drop n.toNat ∧
        r.sock.outbufsize = s.outbufsize) := by
  obtain ⟨r, hr, hsz, _, _, _, _, hret, hw, _, hp, ht, hsame⟩ := write_outcome s n errno hlen hn
  refine ⟨r, hr, ?_, ?_, ?_⟩
  · rw [hret, fatal_iff]
  · intro h
    have hnp : ¬ (s.outptr ≠ 0 ∧ 0 < n) := by
      rintro ⟨_, h2⟩
      rcases h with ⟨h3, _⟩ | h3 <;> omega
    have hrt : r.ret = true := by
      cases hc : r.ret with
      | true => rfl
      | false =>
        obtain ⟨_, h1, h2⟩ := hret.mp hc
        rcases h with ⟨_, h3⟩ | h3
        · rw [h3] at h2; simp at h2
        · omega
    rw [if_neg hnp] at hp
    exact ⟨hrt, hsame hnp, hp, hsz⟩
  · intro hq hpos
    have hc : s.outptr ≠ 0 ∧ 0 < n := ⟨hq, hpos⟩
    have hrt : r.ret = true := by
      cases hc2 : r.ret with
      | true => rfl
      | false =>
        obtain ⟨_, h1, _⟩ := hret.mp hc2
        omega
    rw [if_pos hc] at hp ht
    rw [if_pos hq] at hw
    exact ⟨hrt, hw, hp, ht, hsz⟩

theorem write_error_classification_witness :
    ∃ r, TcpSocket.notifyAvailableForWrite TcpSocket.exampleBacklog 2 (Errno.other 11) =
        some r ∧
      (r.ret = false ↔
        (TcpSocket.exampleBacklog.outptr ≠ 0 ∧ (2 : Int) < 0 ∧
          (Errno.other 11 = Errno.EBADF ∨ Errno.other 11 = Errno.EINVAL ∨
            Errno.other 11 = Errno.ENOTSOCK ∨ Errno.other 11 = Errno.ECONNRESET ∨
            Errno.other 11 = Errno.EPIPE ∨ Errno.other 11 = Errno.ENETDOWN))) ∧
      ((((2 : Int) < 0 ∧ (Errno.other 11).fatal = false) ∨ (2 : Int) = 0) →
        r.ret = true ∧ r.sock.outbuf = TcpSocket.exampleBacklog.outbuf ∧
        r.sock.outptr = TcpSocket.exampleBacklog.outptr ∧
        r.sock.outbufsize = TcpSocket.exampleBacklog.outbufsize) ∧
      (TcpSocket.exampleBacklog.outptr ≠ 0 → (0 : Int) < 2 →
        r.ret = true ∧
        r.wrote = some (TcpSocket.exampleBacklog.outbuf.take TcpSocket.exampleBacklog.outptr) ∧
        r.sock.outptr = TcpSocket.exampleBacklog.outptr - (2 : Int).toNat ∧
        r.sock.outbuf.take r.sock.outptr =
          (TcpSocket.exampleBacklog.outbuf.take TcpSocket.exampleBacklog.outptr).drop
            (2 : Int).toNat ∧
        r.sock.outbufsize = TcpSocket.exampleBacklog.outbufsize) :=
  write_error_classification TcpSocket.exampleBacklog 2 (Errno.other 11)
    (by
      show 3 ≤ ([1, 2, 3] ++ List.replicate 2045 (0 : Byte)).length
      rw [List.length_append, List.length_replicate]
      decide)
    (by decide)

/-- C15, amended: when `::recv` returns zero or any negative value, whatever
the error, `notifyAvailableForRead` returns failure; the accumulator and its
cursor are unchanged and nothing is dispatched. -/
theorem read_error_is_failure (cfg : Config) (s : TcpSocket) (n : Int) (buf : List Byte)
    (hn : n ≤ 0) :
    TcpSocket.notifyAvailableForRead cfg s n buf =
      some { ret := false, sock := s, packets := [] } := by
  unfold TcpSocket.notifyAvailableForRead
  rw [if_pos hn]

theorem read_error_is_failure_witness :
    TcpSocket.notifyAvailableForRead Config.example2048
        (TcpSocket.fresh Config.example2048 false) 0 [] =
      some { ret := false, sock := TcpSocket.fresh Config.example2048 false, packets := [] } :=
  read_error_is_failure Config.example2048 (TcpSocket.fresh Config.example2048 false) 0 []
    (by decide)

/-- C15 as stated fails: a `::recv` result of -1 makes the call return
failure, not success; the read path does not look at `errno` at all, so this
holds for a transient error as well. -/
theorem read_transient_error_fails :
    (TcpSocket.notifyAvailableForRead Config.example2048
        (TcpSocket.fresh Config.example2048 false) (-1) []).map (fun r => r.ret) =
      some false := by
  unfold TcpSocket.notifyAvailableForRead
  rw [if_pos (by decide)]
  rfl

/-- Every outcome of `send` in a consistent state: either nothing happens
(rejection or empty payload), or the frame is queued as `send_accept` says. -/
theorem send_outcome (cfg : Config) (s : TcpSocket) (msg : List Byte) (mallocOk : Bool) (n : Int)
    (h : s.outOk cfg) (hn : n ≤ s.outptr + 5 + msg.length) :
    ∃ r, TcpSocket.send cfg s msg mallocOk n = some r ∧ r.sock.outOk cfg ∧
      ((r.sock = s ∧ r.wrote = none ∧ r.smCalls = [] ∧ (r.ret = false ∨ msg.length = 0)) ∨
       (msg.length ≠ 0 ∧ r.ret = true ∧
        (s.outptr ≠ 0 → r.wrote = none ∧ r.smCalls = [] ∧
          r.sock.outptr = s.outptr + 5 + msg.length ∧
          r.sock.outbuf.take r.sock.outptr = s.outbuf.take s.outptr ++ frame msg) ∧
        (s.outptr = 0 → r.wrote = some (frame msg) ∧
          r.smCalls =
            (if r.sock.outptr ≠ 0 then [SmCall.startNotifyWrite, SmCall.whack] else []) ∧
          r.sock.outptr = 5 + msg.length - n.toNat ∧
          r.sock.outbuf.take r.sock.outptr = (frame msg).drop n.toNat))) := by
  by_cases hbig : msg.length > cfg.maxMessageLen
  · refine ⟨{ ret := false, sock := s, wrote := none, smCalls := [] }, ?_, h,
      Or.inl ⟨rfl, rfl, rfl, Or.inl rfl⟩⟩
    unfold TcpSocket.send; simp only [if_pos hbig]
  · by_cases hz : msg.length = 0
    · refine ⟨{ ret := true, sock := s, wrote := none, smCalls := [] }, ?_, h,
        Or.inl ⟨rfl, rfl, rfl, Or.inr hz⟩⟩
      unfold TcpSocket.send; simp only [if_neg hbig, if_pos hz]
    · have hinc : 0 < cfg.maxMessageLen := by omega
      by_cases hcap : s.outptr + 5 + msg.length > cfg.maxSendqLength
      · refine ⟨{ ret := false, sock := s, wrote := none, smCalls := [] }, ?_, h,
          Or.inl ⟨rfl, rfl, rfl, Or.inl rfl⟩⟩
        unfold TcpSocket.send
        simp only [if_neg hbig, if_neg hz,
          ensureCapacity_reject_cap cfg s _ mallocOk h hinc hcap]
      · by_cases hm : mallocOk = false ∧ s.outptr + 5 + msg.length > s.outbufsize
        · refine ⟨{ ret := false, sock := s, wrote := none, smCalls := [] }, ?_, h,
            Or.inl ⟨rfl, rfl, rfl, Or.inl rfl⟩⟩
          unfold TcpSocket.send
          rw [hm.1]
          simp only [if_neg hbig, if_neg hz, ensureCapacity_reject_malloc cfg s _ hinc hm.2]
        · have hm' : mallocOk = true ∨ s.outptr + 5 + msg.length ≤ s.outbufsize := by
            cases mallocOk with
            | true => exact Or.inl rfl
            | false => right; by_contra hc; exact hm ⟨rfl, by omega⟩
          obtain ⟨r, hr, hret, hok, _, _, _, hback, hflush⟩ :=
            send_accept cfg s msg mallocOk n h hz (by omega) (by omega) hm' hn
          exact ⟨r, hr, hok, Or.inr ⟨hz, hret, hback, hflush⟩⟩

theorem tracked_reachable (cfg : Config) (s : TcpSocket) (reg : Bool)
    (h : Tracked cfg s reg) : Reachable cfg s := by
  induction h with
  | init s h0 => exact Reachable.init s h0
  | send s reg msg mallocOk n r _ hn hr ih => exact Reachable.send s msg mallocOk n r ih hn hr
  | write s reg n errno r _ hn hr ih => exact Reachable.write s n errno r ih hn hr
  | read s reg n buf r _ hr ih => exact Reachable.read s n buf r ih hr

/-- The registration follows the backlog in every tracked state. -/
theorem tracked_registered (cfg : Config) (s : TcpSocket) (reg : Bool)
    (h : Tracked cfg s reg) : reg = true ↔ s.outptr ≠ 0 := by
  induction h with
  | init s h0 => simp [h0.2.1]
  | send s reg msg mallocOk n r ht hn hr ih =>
    have hok := reachable_outOk cfg s (tracked_reachable cfg s reg ht)
    obtain ⟨r1, hr1, _, hcase⟩ := send_outcome cfg s msg mallocOk n hok hn
    rw [hr] at hr1; cases hr1
    rcases hcase with ⟨hs, _, hc, _⟩ | ⟨_, _, hback, hflush⟩
    · rw [hc, hs]; exact ih
    · by_cases hq : s.outptr ≠ 0
      · obtain ⟨_, hc, hp, _⟩ := hback hq
        rw [hc, hp]
        simp only [registration]
        rw [ih]
        constructor
        · intro _; omega
        · intro _; exact hq
      · have h0 : s.outptr = 0 := by omega
        obtain ⟨_, hc, _, _⟩ := hflush h0
        rw [hc]
        by_cases hrem : r.sock.outptr ≠ 0
        · rw [if_pos hrem]; simp [registration, hrem]
        · rw [if_neg hrem]
          simp only [registration]
          rw [ih]
          constructor
          · intro h1; exact absurd h0 h1
          · intro h1; exact absurd h1 hrem
  | write s reg n errno r ht hn hr ih =>
    have hok := reachable_outOk cfg s (tracked_reachable cfg s reg ht)
    obtain ⟨r1, hr1, _, _, _, _, _, hret, _, hc, hp, _, _⟩ :=
      write_outcome s n errno (by rw [hok.1]; exact hok.2.1) hn
    rw [hr] at hr1; cases hr1
    rw [hc]
    by_cases hstop : r.ret = true ∧ r.sock.outptr = 0
    · rw [if_pos hstop]; simp [registration, hstop.2]
    · rw [if_neg hstop]
      simp only [registration]
      rw [ih]
      by_cases hq : s.outptr ≠ 0
      · have hrt : r.ret = true ∨ r.ret = false := by cases r.ret <;> simp
        rcases hrt with hrt | hrt
        · have : r.sock.outptr ≠ 0 := fun h0 => hstop ⟨hrt, h0⟩
          exact ⟨fun _ => this, fun _ => hq⟩
        · obtain ⟨_, hneg, _⟩ := hret.mp hrt
          rw [if_neg (by omega)] at hp
          rw [hp]
      · rw [if_neg (by intro hh; exact hq hh.1)] at hp
        rw [hp]
  | read s reg n buf r _ hr ih =>
    rw [(read_keeps_output cfg s n buf r hr).2.1]; exact ih

/-- C14: from a fresh, unregistered channel, every `send` and every
`notifyAvailableForWrite` returns and afterwards the channel is registered for
write-ready notifications iff its output queue is not empty.  A `send` of an
acceptable message on an empty queue succeeds, offers the whole buffer (the
frame) to `::send` once and calls `startNotifyWrite` and `whack` iff a
remainder is left; a `send` onto a backlog makes no write attempt and no
SocketManager call, and queues the frame when it is acceptable;
`notifyAvailableForWrite` fails only for a fatal error and, when it succeeds,
calls `stopNotifyWrite` iff the queue is then empty. -/
theorem registration_tracks_backlog (cfg : Config) (s : TcpSocket) (reg : Bool)
    (h : Tracked cfg s reg) :
    (reg = true ↔ s.outptr ≠ 0) ∧
    (∀ (msg : List Byte) (mallocOk : Bool) (n : Int), n ≤ s.outptr + 5 + msg.length →
      ∃ r, TcpSocket.send cfg s msg mallocOk n = some r ∧
        (registration reg r.smCalls = true ↔ r.sock.outptr ≠ 0) ∧
        (s.outptr = 0 → msg.length ≠ 0 → msg.length ≤ cfg.maxMessageLen →
          (mallocOk = true ∨ 5 + msg.length ≤ s.outbufsize) →
          r.ret = true ∧ r.wrote = some (frame msg) ∧
          r.sock.outptr = 5 + msg.length - n.toNat ∧
          (r.sock.outptr ≠ 0 → r.smCalls = [SmCall.startNotifyWrite, SmCall.whack]) ∧
          (r.sock.outptr = 0 → r.smCalls = [])) ∧
        (s.outptr ≠ 0 → r.wrote = none ∧ r.smCalls = [] ∧
          (msg.length ≠ 0 → msg.length ≤ cfg.maxMessageLen →
            s.outptr + 5 + msg.length ≤ cfg.maxSendqLength →
            (mallocOk = true ∨ s.outptr + 5 + msg.length ≤ s.outbufsize) →
            r.ret = true ∧ r.sock.outptr = s.outptr + 5 + msg.length))) ∧
    (∀ (n : Int) (errno : Errno), n ≤ s.outptr →
      ∃ r, TcpSocket.notifyAvailableForWrite s n errno = some r ∧
        (registration reg r.smCalls = true ↔ r.sock.outptr ≠ 0) ∧
        (r.ret = false ↔ (s.outptr ≠ 0 ∧ n < 0 ∧ errno.fatal = true)) ∧
        (r.ret = true → r.sock.outptr = 0 → r.smCalls = [SmCall.stopNotifyWrite]) ∧
        (r.ret = true → r.sock.outptr ≠ 0 → r.smCalls = [])) := by
  have hok := reachable_outOk cfg s (tracked_reachable cfg s reg h)
  refine ⟨tracked_registered cfg s reg h, ?_, ?_⟩
  · intro msg mallocOk n hn
    obtain ⟨r, hr, _, hcase⟩ := send_outcome cfg s msg mallocOk n hok hn
    refine ⟨r, hr, tracked_registered cfg r.sock _ (Tracked.send s reg msg mallocOk n r h hn hr),
      ?_, ?_⟩
    · intro h0 hz hmax hm
      have hcap : s.outptr + 5 + msg.length ≤ cfg.maxSendqLength := by
        unfold Config.maxSendqLength; omega
      obtain ⟨r1, hr1, hret, _, _, _, _, _, hflush⟩ :=
        send_accept cfg s msg mallocOk n hok hz hmax hcap (by rw [h0]; simpa using hm) hn
      rw [hr] at hr1; cases hr1
      obtain ⟨hw, hc, hp, _⟩ := hflush h0
      refine ⟨hret, hw, hp, fun hrem => ?_, fun hrem => ?_⟩
      · rw [hc, if_pos hrem]
      · rw [hc, if_neg (by simp [hrem])]
    · intro hq
      have hwc : r.wrote = none ∧ r.smCalls = [] := by
        rcases hcase with ⟨_, hw, hc, _⟩ | ⟨_, _, hback, _⟩
        · exact ⟨hw, hc⟩
        · exact ⟨(hback hq).1, (hback hq).2.1⟩
      refine ⟨hwc.1, hwc.2, fun hz hmax hcap hm => ?_⟩
      obtain ⟨r1, hr1, hret, _, _, _, _, hback, _⟩ :=
        send_accept cfg s msg mallocOk n hok hz hmax hcap hm hn
      rw [hr] at hr1; cases hr1
      exact ⟨hret, (hback hq).2.2.1⟩
  · intro n errno hn
    obtain ⟨r, hr, _, _, _, _, _, hret, _, hc, _⟩ :=
      write_outcome s n errno (by rw [hok.1]; exact hok.2.1) hn
    refine ⟨r, hr, tracked_registered cfg r.sock _ (Tracked.write s reg n errno r h hn hr),
      hret, fun hrt h0 => ?_, fun _ hq => ?_⟩
    · rw [hc, if_pos ⟨hrt, h0⟩]
    · rw [hc, if_neg (by rintro ⟨_, h0⟩; exact hq h0)]

theorem registration_tracks_backlog_witness :
    (false = true ↔ (TcpSocket.fresh Config.example2048 true).outptr ≠ 0) ∧
    (∀ (msg : List Byte) (mallocOk : Bool) (n : Int),
      n ≤ (TcpSocket.fresh Config.example2048 true).outptr + 5 + msg.length →
      ∃ r, TcpSocket.send Config.example2048 (TcpSocket.fresh Config.example2048 true)
          msg mallocOk n = some r ∧
        (registration false r.smCalls = true ↔ r.sock.outptr ≠ 0) ∧
        ((TcpSocket.fresh Config.example2048 true).outptr = 0 → msg.length ≠ 0 →
          msg.length ≤ Config.example2048.maxMessageLen →
          (mallocOk = true ∨
            5 + msg.length ≤ (TcpSocket.fresh Config.example2048 true).outbufsize) →
          r.ret = true ∧ r.wrote = some (frame msg) ∧
          r.sock.outptr = 5 + msg.length - n.toNat ∧
          (r.sock.outptr ≠ 0 → r.smCalls = [SmCall.startNotifyWrite, SmCall.whack]) ∧
          (r.sock.outptr = 0 → r.smCalls = [])) ∧
        ((TcpSocket.fresh Config.example2048 true).outptr ≠ 0 →
          r.wrote = none ∧ r.smCalls = [] ∧
          (msg.length ≠ 0 → msg.length ≤ Config.example2048.maxMessageLen →
            (TcpSocket.fresh Config.example2048 true).outptr + 5 + msg.length ≤
              Config.example2048.maxSendqLength →
            (mallocOk = true ∨
              (TcpSocket.fresh Config.example2048 true).outptr + 5 + msg.length ≤
                (TcpSocket.fresh Config.example2048 true).outbufsize) →
            r.ret = true ∧
            r.sock.outptr =
              (TcpSocket.fresh Config.example2048 true).outptr + 5 + msg.length))) ∧
    (∀ (n : Int) (errno : Errno), n ≤ (TcpSocket.fresh Config.example2048 true).outptr →
      ∃ r, TcpSocket.notifyAvailableForWrite (TcpSocket.fresh Config.example2048 true)
          n errno = some r ∧
        (registration false r.smCalls = true ↔ r.sock.outptr ≠ 0) ∧
        (r.ret = false ↔
          ((TcpSocket.fresh Config.example2048 true).outptr ≠ 0 ∧ n < 0 ∧
            errno.fatal = true)) ∧
        (r.ret = true → r.sock.outptr = 0 → r.smCalls = [SmCall.stopNotifyWrite]) ∧
        (r.ret = true → r.sock.outptr ≠ 0 → r.smCalls = [])) :=
  registration_tracks_backlog Config.example2048 (TcpSocket.fresh Config.example2048 true) false
    (Tracked.init _ (fresh_outputEmpty _ _))

theorem stream_reachable (cfg : Config) (s : TcpSocket) (taken queued : List Byte)
    (h : Stream cfg s taken queued) : Reachable cfg s := by
  induction h with
  | init s h0 => exact Reachable.init s h0
  | send s _ _ msg mallocOk n r _ hn hr ih => exact Reachable.send s msg mallocOk n r ih hn hr
  | write s _ _ n errno r _ hn hr ih => exact Reachable.write s n errno r ih hn hr

/-- C20: starting from an empty output queue, after any sequence of `send` and
`notifyAvailableForWrite` calls whose socket writes fail or accept a first part
of the octets offered, the octets accepted by the socket so far followed by
the octets still queued are the frames
`[0x17,0x03,0x03,len >> 8,len & 0xff] + payload` of exactly the non-empty
messages for which `send` returned true, in call order. -/
theorem output_is_fifo (cfg : Config) (s : TcpSocket) (taken queued : List Byte)
    (h : Stream cfg s taken queued) :
    taken ++ s.outbuf.take s.outptr = queued := by
  induction h with
  | init s h0 => simp [h0.2.1]
  | send s taken queued msg mallocOk n r hst hn hr ih =>
    have hok := reachable_outOk cfg s (stream_reachable cfg s taken queued hst)
    obtain ⟨r1, hr1, _, hcase⟩ := send_outcome cfg s msg mallocOk n hok hn
    rw [hr] at hr1; cases hr1
    rcases hcase with ⟨hs, hw, _, hrej⟩ | ⟨hz, hrt, hback, hflush⟩
    · have hno : ¬ (r.ret = true ∧ msg.length ≠ 0) := by
        rintro ⟨h1, h2⟩
        rcases hrej with hf | h0
        · rw [hf] at h1; simp at h1
        · exact h2 h0
      rw [hw, hs, if_neg hno]
      simpa [accepted] using ih
    · rw [if_pos ⟨hrt, hz⟩]
      by_cases hq : s.outptr ≠ 0
      · obtain ⟨hw, _, _, ht⟩ := hback hq
        rw [hw, ht, ← ih]
        simp [accepted]
      · have h0 : s.outptr = 0 := by omega
        obtain ⟨hw, _, _, ht⟩ := hflush h0
        rw [h0] at ih
        rw [hw, ht, ← ih]
        simp [accepted]
  | write s taken queued n errno r hst hn hr ih =>
    have hok := reachable_outOk cfg s (stream_reachable cfg s taken queued hst)
    obtain ⟨r1, hr1, _, _, _, _, _, _, hw, _, _, ht, _⟩ :=
      write_outcome s n errno (by rw [hok.1]; exact hok.2.1) hn
    rw [hr] at hr1; cases hr1
    rw [hw, ht, ← ih]
    by_cases hq : s.outptr ≠ 0
    · rw [if_pos hq]
      by_cases hpos : 0 < n
      · rw [if_pos ⟨hq, hpos⟩]
        simp [accepted]
      · have h0 : n.toNat = 0 := by omega
        rw [if_neg (by rintro ⟨_, h2⟩; exact hpos h2)]
        simp [accepted, h0]
    · rw [if_neg hq, if_neg (by rintro ⟨h1, _⟩; exact hq h1)]
      simp [accepted]

theorem send_exampleSmall :
    TcpSocket.send Config.exampleSmall (TcpSocket.fresh Config.exampleSmall false) [1, 2, 3]
      true 5 = some SendResult.exampleSmall := by
  decide

theorem output_is_fifo_witness :
    ([] ++ accepted SendResult.exampleSmall.wrote 5) ++
        SendResult.exampleSmall.sock.outbuf.take SendResult.exampleSmall.sock.outptr =
      [] ++ (if SendResult.exampleSmall.ret = true ∧ ([1, 2, 3] : List Byte).length ≠ 0
        then frame [1, 2, 3] else []) :=
  output_is_fifo Config.exampleSmall SendResult.exampleSmall.sock _ _
    (Stream.send (TcpSocket.fresh Config.exampleSmall false) [] [] [1, 2, 3] true 5
      SendResult.exampleSmall (Stream.init _ (fresh_outputEmpty _ _)) (by decide)
      send_exampleSmall)

theorem getD_snoc_of_lt (bytes : List Byte) (b : Byte) (i : Nat) (h : i < bytes.length) :
    (bytes ++ [b]).getD i 0 = bytes.getD i 0 := by
  rw [List.getD_eq_getElem?_getD, List.getD_eq_getElem?_getD, List.getElem?_append_left h]

theorem headerLength_snoc (bytes : List Byte) (b : Byte) (h : 5 ≤ bytes.length) :
    Acc.headerLength (bytes ++ [b]) = Acc.headerLength bytes := by
  unfold Acc.headerLength
  rw [getD_snoc_of_lt bytes b 3 (by omega), getD_snoc_of_lt bytes b 4 (by omega)]

theorem headerLength_ge (bytes : List Byte) : 5 ≤ Acc.headerLength bytes := by
  unfold Acc.headerLength; omega

/-- In a settled state with a known length the header test gives that length
whether or not the local `pl` was reset. -/
theorem frameLength_settled (a : Acc) (b : Byte) (h : a.settled) :
    Acc.frameLength (a.bytes ++ [b]) 0 = Acc.frameLength (a.bytes ++ [b]) a.pl := by
  rcases h with ⟨_, h0⟩ | ⟨h5, hm, hpl, hlt⟩
  · rw [h0]
  · have hl : (a.bytes ++ [b]).length = a.bytes.length + 1 := by simp
    have c1 : (0 = 0 ∧ 5 ≤ (a.bytes ++ [b]).length) := ⟨rfl, by omega⟩
    have c2 : ¬ (a.pl = 0 ∧ 5 ≤ (a.bytes ++ [b]).length) := fun h0 => by omega
    have c3 : ((a.bytes ++ [b]).getD 0 0).val = 0x17 := by
      rw [getD_snoc_of_lt a.bytes b 0 (by omega)]; exact hm
    unfold Acc.frameLength
    rw [if_pos c1, if_pos c3, if_neg c2]
    show some (Acc.headerLength (a.bytes ++ [b])) = _
    rw [headerLength_snoc a.bytes b h5, hpl]

theorem step_reset (cap : Nat) (a : Acc) (b : Byte) (h : a.settled) :
    (Acc.step cap { a with pl := 0 } b).1 = (Acc.step cap a b).1 ∧
    (Acc.step cap { a with pl := 0 } b).2.bytes = (Acc.step cap a b).2.bytes ∧
    (Acc.step cap { a with pl := 0 } b).2.packets = (Acc.step cap a b).2.packets ∧
    ((Acc.step cap a b).1 = true → Acc.step cap { a with pl := 0 } b = Acc.step cap a b) := by
  have hfl := frameLength_settled a b h
  unfold Acc.step
  simp only
  by_cases hc : (a.bytes ++ [b]).length ≥ cap
  · rw [if_pos hc, if_pos hc]
    exact ⟨rfl, rfl, rfl, fun hf => by simp at hf⟩
  · rw [if_neg hc, if_neg hc, hfl]
    cases Acc.frameLength (a.bytes ++ [b]) a.pl with
    | none => exact ⟨rfl, rfl, rfl, fun hf => by simp at hf⟩
    | some pl => exact ⟨rfl, rfl, rfl, fun _ => rfl⟩

theorem step_settled (cap : Nat) (a a1 : Acc) (b : Byte) (h : a.settled)
    (hs : Acc.step cap a b = (true, a1)) : a1.settled := by
  have hl : (a.bytes ++ [b]).length = a.bytes.length + 1 := by simp
  unfold Acc.step at hs
  simp only at hs
  split at hs
  · simp at hs
  · split at hs
    · simp at hs
    · rename_i pl hfl
      simp only [Prod.mk.injEq, true_and] at hs
      subst hs
      have hpl : (a.bytes.length + 1 < 5 ∧ pl = 0) ∨
          (5 ≤ a.bytes.length + 1 ∧ ((a.bytes ++ [b]).getD 0 0).val = 0x17 ∧
            pl = Acc.headerLength (a.bytes ++ [b]) ∧ a.bytes.length < pl) := by
        rcases h with ⟨h4, h0⟩ | ⟨h5, hm, hp, hlt⟩
        · rw [h0] at hfl
          unfold Acc.frameLength at hfl
          rw [hl] at hfl
          by_cases h5 : 5 ≤ a.bytes.length + 1
          · rw [if_pos ⟨rfl, h5⟩] at hfl
            split at hfl
            · rename_i hm
              simp only [Option.some.injEq] at hfl
              right
              refine ⟨h5, hm, hfl.symm, ?_⟩
              rw [← hfl]; omega
            · simp at hfl
          · rw [if_neg (by rintro ⟨_, h⟩; exact h5 h)] at hfl
            simp only [Option.some.injEq] at hfl
            left; exact ⟨by omega, hfl.symm⟩
        · unfold Acc.frameLength at hfl
          rw [if_neg (by rintro ⟨h0, _⟩; omega)] at hfl
          simp only [Option.some.injEq] at hfl
          right
          refine ⟨by omega, ?_, ?_, by omega⟩
          · rw [getD_snoc_of_lt a.bytes b 0 (by omega)]; exact hm
          · rw [headerLength_snoc a.bytes b h5, ← hfl, hp]
      unfold Acc.deliver
      rw [hl]
      by_cases hd : pl ≠ 0 ∧ pl ≤ a.bytes.length + 1
      · rw [if_pos hd]
        left
        refine ⟨?_, rfl⟩
        show ((a.bytes ++ [b]).drop pl).length < 5
        rw [List.length_drop, hl]
        omega
      · rw [if_neg hd]
        rcases hpl with ⟨h4, h0⟩ | ⟨h5, hm, hp, hlt⟩
        · left; exact ⟨by rw [hl]; exact h4, h0⟩
        · right
          refine ⟨by rw [hl]; exact h5, hm, hp, ?_⟩
          show (a.bytes ++ [b]).length < pl
          rw [hl]
          have := headerLength_ge (a.bytes ++ [b])
          omega

theorem Acc.run_append (cap : Nat) (x y : List Byte) :
    ∀ a : Acc, Acc.run cap (x ++ y) a =
      match Acc.run cap x a with
      | (false, a1) => (false, a1)
      | (true, a1) => Acc.run cap y a1 := by
  induction x with
  | nil => intro a; rfl
  | cons b x ih =>
    intro a
    have e1 : Acc.run cap ((b :: x) ++ y) a =
        match Acc.step cap a b with
        | (false, a1) => (false, a1)
        | (true, a1) => Acc.run cap (x ++ y) a1 := rfl
    have e2 : Acc.run cap (b :: x) a =
        match Acc.step cap a b with
        | (false, a1) => (false, a1)
        | (true, a1) => Acc.run cap x a1 := rfl
    rw [e1, e2]
    rcases hs : Acc.step cap a b with ⟨flag, a1⟩
    cases flag with
    | false => rfl
    | true => exact ih a1

theorem run_settled (cap : Nat) (bs : List Byte) :
    ∀ a : Acc, a.settled → (Acc.run cap bs a).1 = true → (Acc.run cap bs a).2.settled := by
  induction bs with
  | nil => intro a h _; exact h
  | cons b bs ih =>
    intro a h
    unfold Acc.run
    rcases hs : Acc.step cap a b with ⟨flag, a1⟩
    cases flag with
    | false => intro hf; simp at hf
    | true => exact ih a1 (step_settled cap a a1 b h hs)

theorem run_reset (cap : Nat) (bs : List Byte) (a : Acc) (h : a.settled) :
    (Acc.run cap bs { a with pl := 0 }).1 = (Acc.run cap bs a).1 ∧
    (Acc.run cap bs { a with pl := 0 }).2.bytes = (Acc.run cap bs a).2.bytes ∧
    (Acc.run cap bs { a with pl := 0 }).2.packets = (Acc.run cap bs a).2.packets := by
  cases bs with
  | nil => exact ⟨rfl, rfl, rfl⟩
  | cons b bs =>
    obtain ⟨h1, h2, h3, h4⟩ := step_reset cap a b h
    unfold Acc.run
    rcases hs : Acc.step cap a b with ⟨flag, a1⟩
    rw [hs] at h1 h2 h3 h4
    cases flag with
    | false =>
      rcases hs0 : Acc.step cap { a with pl := 0 } b with ⟨flag0, a0⟩
      rw [hs0] at h1 h2 h3
      simp only at h1 h2 h3
      subst h1
      exact ⟨rfl, h2, h3⟩
    | true =>
      rw [h4 rfl]
      exact ⟨rfl, rfl, rfl⟩

theorem step_packets_shift (cap : Nat) (bytes : List Byte) (pl : Nat)
    (ps qs : List (List Byte)) (b : Byte) :
    Acc.step cap { bytes := bytes, pl := pl, packets := ps ++ qs } b =
      ((Acc.step cap { bytes := bytes, pl := pl, packets := qs } b).1,
       { (Acc.step cap { bytes := bytes, pl := pl, packets := qs } b).2 with
         packets := ps ++ (Acc.step cap { bytes := bytes, pl := pl, packets := qs } b).2.packets }) := by
  unfold Acc.step
  simp only
  split
  · rfl
  · split
    · rfl
    · unfold Acc.deliver
      split
      · simp
      · rfl

theorem run_packets_shift (cap : Nat) (ps : List (List Byte)) (bs : List Byte) :
    ∀ (bytes : List Byte) (pl : Nat) (qs : List (List Byte)),
    Acc.run cap bs { bytes := bytes, pl := pl, packets := ps ++ qs } =
      ((Acc.run cap bs { bytes := bytes, pl := pl, packets := qs }).1,
       { (Acc.run cap bs { bytes := bytes, pl := pl, packets := qs }).2 with
         packets := ps ++ (Acc.run cap bs { bytes := bytes, pl := pl, packets := qs }).2.packets }) := by
  induction bs with
  | nil => intro bytes pl qs; rfl
  | cons b bs ih =>
    intro bytes pl qs
    unfold Acc.run
    rw [step_packets_shift]
    rcases hs : Acc.step cap { bytes := bytes, pl := pl, packets := qs } b with ⟨flag, a1⟩
    cases flag with
    | false => rfl
    | true => exact ih a1.bytes a1.pl a1.packets

theorem resume_settled (bytes : List Byte) (ps : List (List Byte)) (h : holdsNoFrame bytes) :
    (Acc.resume bytes ps).settled := by
  unfold Acc.resume Acc.settled
  rcases h with h | ⟨hm, hlt⟩
  · left; exact ⟨h, if_neg (by omega)⟩
  · by_cases h5 : 5 ≤ bytes.length
    · right; exact ⟨h5, hm, if_pos h5, by rw [if_pos h5]; exact hlt⟩
    · left; exact ⟨Nat.lt_of_not_le h5, if_neg h5⟩

theorem settled_holdsNoFrame (a : Acc) (h : a.settled) : holdsNoFrame a.bytes := by
  rcases h with ⟨h, _⟩ | ⟨_, hm, hp, hlt⟩
  · left; exact h
  · right; exact ⟨hm, by rw [← hp]; exact hlt⟩

theorem settled_eq_resume (a : Acc) (h : a.settled) : a = Acc.resume a.bytes a.packets := by
  unfold Acc.resume
  rcases h with ⟨h, h0⟩ | ⟨h5, _, hp, _⟩
  · rw [if_neg (by omega), ← h0]
  · rw [if_pos h5, ← hp]

theorem resume_reset (bytes : List Byte) (ps : List (List Byte)) :
    ({ bytes := bytes, pl := 0, packets := ps } : Acc) = { Acc.resume bytes ps with pl := 0 } :=
  rfl

/-- A call from a state without a complete frame follows the loop that
resumes with the known frame length. -/
theorem read_resume (cfg : Config) (s : TcpSocket) (n : Int) (buf : List Byte)
    (hlen : s.inbuf.length = cfg.inbufSize) (hp : s.inptr < cfg.inbufSize)
    (hno : holdsNoFrame (s.inbuf.take s.inptr)) (hn : 0 < n) :
    ∃ r, TcpSocket.notifyAvailableForRead cfg s n buf = some r ∧
      r.ret = (Acc.run cfg.inbufSize (buf.take n.toNat)
        (Acc.resume (s.inbuf.take s.inptr) [])).1 ∧
      r.packets = (Acc.run cfg.inbufSize (buf.take n.toNat)
        (Acc.resume (s.inbuf.take s.inptr) [])).2.packets ∧
      r.sock.inbuf.length = cfg.inbufSize ∧
      (r.ret = true → r.sock.inptr < cfg.inbufSize ∧
        r.sock.inbuf.take r.sock.inptr = (Acc.run cfg.inbufSize (buf.take n.toNat)
          (Acc.resume (s.inbuf.take s.inptr) [])).2.bytes ∧
        (Acc.run cfg.inbufSize (buf.take n.toNat)
          (Acc.resume (s.inbuf.take s.inptr) [])).2.settled) := by
  obtain ⟨r, hr, hret, hpk, hl, _, _, _, _, _, hok⟩ := read_acc cfg s n buf hlen hp hn
  have hset := resume_settled (s.inbuf.take s.inptr) [] hno
  obtain ⟨e1, e2, e3⟩ := run_reset cfg.inbufSize (buf.take n.toNat) _ hset
  rw [resume_reset, e1] at hret
  rw [resume_reset, e3] at hpk
  rw [resume_reset, e2] at hok
  refine ⟨r, hr, hret, hpk, hl, fun ht => ⟨(hok ht).1, (hok ht).2, ?_⟩⟩
  exact run_settled cfg.inbufSize _ _ hset (by rw [← hret]; exact ht)

theorem accumulated_inv (cfg : Config) (s : TcpSocket) (h : Accumulated cfg s) :
    s.inbuf.length = cfg.inbufSize ∧ s.inptr < cfg.inbufSize ∧
    holdsNoFrame (s.inbuf.take s.inptr) := by
  induction h with
  | init s hlen h0 hcap =>
    refine ⟨hlen, by omega, Or.inl ?_⟩
    rw [h0]; simp
  | read s n buf r _ hr hret ih =>
    obtain ⟨hlen, hp, hno⟩ := ih
    by_cases hn : 0 < n
    · obtain ⟨r1, hr1, _, _, hl, hok⟩ := read_resume cfg s n buf hlen hp hno hn
      rw [hr] at hr1; cases hr1
      obtain ⟨h1, h2, h3⟩ := hok hret
      exact ⟨hl, h1, by rw [h2]; exact settled_holdsNoFrame _ h3⟩
    · unfold TcpSocket.notifyAvailableForRead at hr
      rw [if_pos (by omega)] at hr
      cases hr
      simp at hret

theorem take_length_cast (bs : List Byte) : bs.take ((bs.length : Int).toNat) = bs := by
  simp

/-- C19: from an accumulator state reached from empty, delivering `a ++ b` in
one `notifyAvailableForRead` call and delivering `a` and then `b` in two calls
(stopping at the first failure) give the same success or failure and the same
dispatched payloads, and on success the same accumulated octets and cursor;
after a successful call the accumulated octets never contain a complete frame. -/
theorem chunking_independent (cfg : Config) (s : TcpSocket) (a b : List Byte)
    (hs : Accumulated cfg s) (ha : a ≠ []) (hb : b ≠ []) :
    ∃ r r1, TcpSocket.notifyAvailableForRead cfg s (a ++ b).length (a ++ b) = some r ∧
      TcpSocket.notifyAvailableForRead cfg s a.length a = some r1 ∧
      (r1.ret = false → r.ret = false ∧ r.packets = r1.packets) ∧
      (r1.ret = true →
        ∃ r2, TcpSocket.notifyAvailableForRead cfg r1.sock b.length b = some r2 ∧
          r.ret = r2.ret ∧ r.packets = r1.packets ++ r2.packets ∧
          (r.ret = true → r.sock.inptr = r2.sock.inptr ∧
            r.sock.inbuf.take r.sock.inptr = r2.sock.inbuf.take r2.sock.inptr)) ∧
      (r.ret = true → holdsNoFrame (r.sock.inbuf.take r.sock.inptr)) ∧
      (r1.ret = true → holdsNoFrame (r1.sock.inbuf.take r1.sock.inptr)) := by
  obtain ⟨hlen, hp, hno⟩ := accumulated_inv cfg s hs
  have hla : (0 : Int) < (a.length : Int) := by
    have := List.length_pos.mpr ha; omega
  have hlb : (0 : Int) < (b.length : Int) := by
    have := List.length_pos.mpr hb; omega
  have hlab : (0 : Int) < ((a ++ b).length : Int) := by
    rw [List.length_append]; omega
  obtain ⟨r, hr, hret, hpk, hl, hok⟩ := read_resume cfg s (a ++ b).length (a ++ b) hlen hp hno hlab
  obtain ⟨r1, hr1, hret1, hpk1, hl1, hok1⟩ := read_resume cfg s a.length a hlen hp hno hla
  rw [take_length_cast] at hret hpk hok hret1 hpk1 hok1
  rw [Acc.run_append] at hret hpk hok
  refine ⟨r, r1, hr, hr1, ?_, ?_, fun ht => ?_, fun ht => ?_⟩
  · intro hf
    rcases hrun : Acc.run cfg.inbufSize a (Acc.resume (s.inbuf.take s.inptr) []) with ⟨flag, a1⟩
    rw [hrun] at hret hpk hret1 hpk1
    simp only at hret1 hpk1
    rw [hf] at hret1
    subst hret1
    exact ⟨hret, hpk.trans hpk1.symm⟩
  · intro ht1
    rcases hrun : Acc.run cfg.inbufSize a (Acc.resume (s.inbuf.take s.inptr) []) with ⟨flag, a1⟩
    rw [hrun] at hret hpk hok hret1 hpk1 hok1
    simp only at hret1 hpk1 hok1
    rw [ht1] at hret1
    subst hret1
    simp only at hret hpk hok
    obtain ⟨hp1, htake1, hset1⟩ := hok1 ht1
    obtain ⟨r2, hr2, hret2, hpk2, _, hok2⟩ :=
      read_resume cfg r1.sock b.length b hl1 hp1 (by rw [htake1]; exact settled_holdsNoFrame _ hset1)
        hlb
    rw [take_length_cast, htake1] at hret2 hpk2 hok2
    have hshift := run_packets_shift cfg.inbufSize a1.packets b a1.bytes
      (if 5 ≤ a1.bytes.length then Acc.headerLength a1.bytes else 0) []
    rw [List.append_nil] at hshift
    have key : Acc.run cfg.inbufSize b a1 =
        ((Acc.run cfg.inbufSize b (Acc.resume a1.bytes [])).1,
         { (Acc.run cfg.inbufSize b (Acc.resume a1.bytes [])).2 with
           packets := a1.packets ++ (Acc.run cfg.inbufSize b (Acc.resume a1.bytes [])).2.packets }) := by
      conv_lhs => rw [settled_eq_resume a1 hset1]
      exact hshift
    rw [key] at hret hpk hok
    simp only at hret hpk hok
    refine ⟨r2, hr2, hret.trans hret2.symm, ?_, ?_⟩
    · rw [hpk, hpk1, hpk2]
    · intro ht
      have ht2 : r2.ret = true := hret2.trans (hret.symm.trans ht)
      obtain ⟨hq, htk, _⟩ := hok ht
      obtain ⟨hq2, htk2, _⟩ := hok2 ht2
      have hbytes : r.sock.inbuf.take r.sock.inptr = r2.sock.inbuf.take r2.sock.inptr :=
        htk.trans htk2.symm
      refine ⟨?_, hbytes⟩
      have h1 := congrArg List.length hbytes
      simp only [List.length_take] at h1
      have hl2 : r2.sock.inbuf.length = cfg.inbufSize := by
        obtain ⟨r2', hr2', _, _, hl2', _⟩ := read_acc cfg r1.sock b.length b hl1 hp1 hlb
        rw [hr2] at hr2'; cases hr2'; exact hl2'
      omega
  · obtain ⟨_, htk, hset⟩ := hok ht
    rw [htk]; exact settled_holdsNoFrame _ hset
  · obtain ⟨_, htk, hset⟩ := hok1 ht
    rw [htk]; exact settled_holdsNoFrame _ hset

theorem chunking_independent_witness :
    ∃ r r1,
      TcpSocket.notifyAvailableForRead Config.exampleSmall
        (TcpSocket.fresh Config.exampleSmall false)
        (([0x17, 0x03] : List Byte) ++ [0x03, 0, 1, 0x41]).length
        ([0x17, 0x03] ++ [0x03, 0, 1, 0x41]) = some r ∧
      TcpSocket.notifyAvailableForRead Config.exampleSmall
        (TcpSocket.fresh Config.exampleSmall false) ([0x17, 0x03] : List Byte).length
        [0x17, 0x03] = some r1 ∧
      (r1.ret = false → r.ret = false ∧ r.packets = r1.packets) ∧
      (r1.ret = true →
        ∃ r2, TcpSocket.notifyAvailableForRead Config.exampleSmall r1.sock
            ([0x03, 0, 1, 0x41] : List Byte).length [0x03, 0, 1, 0x41] = some r2 ∧
          r.ret = r2.ret ∧ r.packets = r1.packets ++ r2.packets ∧
          (r.ret = true → r.sock.inptr = r2.sock.inptr ∧
            r.sock.inbuf.take r.sock.inptr = r2.sock.inbuf.take r2.sock.inptr)) ∧
      (r.ret = true → holdsNoFrame (r.sock.inbuf.take r.sock.inptr)) ∧
      (r1.ret = true → holdsNoFrame (r1.sock.inbuf.take r1.sock.inptr)) :=
  chunking_independent Config.exampleSmall (TcpSocket.fresh Config.exampleSmall false)
    [0x17, 0x03] [0x03, 0, 1, 0x41]
    (Accumulated.init _ (fresh_inbuf_length _ _) rfl (by decide)) (by simp) (by simp)

end ZeroTier
